import Mathlib

/-!
Verification of the save-file codec of the shf-save-editor repository.

The codec (src/save.rs, src/uobject.rs) is shallowly embedded here:

* byte streams are `List Nat` (each entry intended `< 256`) together with an
  explicit cursor position, mirroring the `Read + Seek` readers of the source;
* every reader is a total function `... → Except RErr (α × Nat)` returning the
  parsed value and the new position; Rust panics (the `panic!` for oversized
  values, `.expect()` on a missing map value type) are modelled as dedicated
  error constructors, since a panic also produces no value;
* the unbounded parsing loops are driven by an explicit fuel parameter.  All
  theorems about parses quantify over the fuel, so nothing depends on a fuel
  bound being sufficient;
* machine integers are raw `Nat`s of the appropriate width (two's-complement
  bit patterns for the signed and floating-point fields, which the codec never
  inspects arithmetically), with `% 2 ^ w` applied exactly where the source
  wraps;
* Rust `String`s are modelled as their UTF-8 byte lists.  `FString` reading in
  the source converts the raw bytes with `String::from_utf8_lossy` (via
  binrw's `NullString::to_string`), so that conversion is modelled explicitly
  (`utf8Lossy` below).

Each reader takes a `strict : Bool` flag.  With `strict = false` the reader is
the plain embedding of the source.  With `strict = true` it additionally fails
(with the distinguished error `RErr.strictCheck`) in exactly the situations in
which the source parser accepts bytes that its own writer would not reproduce:
a value that consumes fewer bytes than its `dataSize` field advertised, an
`FString` whose bytes are altered by the lossy UTF-8 conversion, a
`BoolProperty` byte other than 0/1, and a parsed generic array whose
recomputed count word would differ.  The round-trip theorem is stated for
strict parses, together with the fact that a successful strict parse is also a
successful plain parse with the same result.
-/

namespace ShfSave

/-- Errors of the embedded codec.  `outOfFuel` is an artifact of the fuel-based
embedding; `overflowingValue` models the `panic!` in
`PropertyValue::read_options` when a value consumed more than its `dataSize`
bound; `expectPanic` models the `.expect()` panic for a `MapProperty` without a
value type; `strictCheck` is only ever raised when `strict = true`. -/
inductive RErr where
  | outOfFuel
  | eof
  | badMagic
  | assertFail
  | badVariant
  | strictCheck
  | overflowingValue
  | expectPanic
  deriving DecidableEq

/-- The byte list of an ASCII string literal, used for the name constants the
codec dispatches on. -/
def ascii (s : String) : List Nat :=
  s.data.map Char.toNat

/-- Value of a little-endian byte list. -/
def leVal : List Nat → Nat
  | [] => 0
  | b :: bs => b + 256 * leVal bs

/-- The `k` little-endian bytes of `n` (mod `256 ^ k`). -/
def wLE : Nat → Nat → List Nat
  | 0, _ => []
  | k + 1, n => n % 256 :: wLE k (n / 256)

/-- `FString::byte_size`: length prefix + bytes + NUL terminator.  The source
uses `len + 4 + 1` unconditionally, also for the empty string. -/
def byteSize (s : List Nat) : Nat :=
  s.length + 4 + 1

/-- The bytes of `data` from position `a` (inclusive) to `b` (exclusive). -/
def slice (data : List Nat) (a b : Nat) : List Nat :=
  (data.drop a).take (b - a)

/-- All entries of a byte stream are actual bytes. -/
def Bytes (data : List Nat) : Prop :=
  ∀ b ∈ data, b < 256

/-- `read_exact` into an `n`-byte buffer. -/
def readBytes (data : List Nat) (pos n : Nat) : Except RErr (List Nat × Nat) :=
  if pos + n ≤ data.length then .ok (slice data pos (pos + n), pos + n) else .error .eof

/-- A little-endian unsigned integer of `k` bytes (`u8`/`u16`/`u32`/`u64` and
the raw bit patterns of the signed and float fields). -/
def readUInt (k : Nat) (data : List Nat) (pos : Nat) : Except RErr (Nat × Nat) :=
  match readBytes data pos k with
  | .error e => .error e
  | .ok (bs, p) => .ok (leVal bs, p)

/-- The bytes of a NUL-terminated string: everything before the first 0, or
`none` when the list holds no 0 (EOF before the terminator). -/
def takeUntilZero : List Nat → Option (List Nat)
  | [] => none
  | 0 :: _ => some []
  | (b + 1) :: rest =>
    match takeUntilZero rest with
    | some bs => some ((b + 1) :: bs)
    | none => none

/-- binrw `NullString` read: bytes until (and consuming) the first NUL. -/
def readNull (data : List Nat) (pos : Nat) : Except RErr (List Nat × Nat) :=
  match takeUntilZero (data.drop pos) with
  | some bs => .ok (bs, pos + bs.length + 1)
  | none => .error .eof

/-- Continuation byte (`0x80..=0xBF`). -/
def utf8Cont (b : Nat) : Bool :=
  decide (0x80 ≤ b ∧ b ≤ 0xBF)

/-- Admissible second byte of a three-byte UTF-8 sequence led by `b`. -/
def utf8Snd3 (b c : Nat) : Bool :=
  decide ((b = 0xE0 ∧ 0xA0 ≤ c ∧ c ≤ 0xBF) ∨
    (0xE1 ≤ b ∧ b ≤ 0xEC ∧ 0x80 ≤ c ∧ c ≤ 0xBF) ∨
    (b = 0xED ∧ 0x80 ≤ c ∧ c ≤ 0x9F) ∨
    (0xEE ≤ b ∧ b ≤ 0xEF ∧ 0x80 ≤ c ∧ c ≤ 0xBF))

/-- Admissible second byte of a four-byte UTF-8 sequence led by `b`. -/
def utf8Snd4 (b c : Nat) : Bool :=
  decide ((b = 0xF0 ∧ 0x90 ≤ c ∧ c ≤ 0xBF) ∨
    (0xF1 ≤ b ∧ b ≤ 0xF3 ∧ 0x80 ≤ c ∧ c ≤ 0xBF) ∨
    (b = 0xF4 ∧ 0x80 ≤ c ∧ c ≤ 0x8F))

/-- The UTF-8 replacement character U+FFFD. -/
def fffd : List Nat :=
  [0xEF, 0xBF, 0xBD]

/-- Rust's `String::from_utf8_lossy` on a byte list: valid sequences are kept,
each maximal invalid subsequence (per `Utf8Error::error_len`) becomes one
U+FFFD, and an incomplete valid prefix at the end of input becomes one
U+FFFD. -/
def utf8Lossy : List Nat → List Nat
  | [] => []
  | b :: bs =>
    if b < 0x80 then b :: utf8Lossy bs
    else if 0xC2 ≤ b ∧ b ≤ 0xDF then
      match bs with
      | [] => fffd
      | c1 :: rest =>
        if utf8Cont c1 then b :: c1 :: utf8Lossy rest
        else fffd ++ utf8Lossy (c1 :: rest)
    else if 0xE0 ≤ b ∧ b ≤ 0xEF then
      match bs with
      | [] => fffd
      | c1 :: rest =>
        if utf8Snd3 b c1 then
          match rest with
          | [] => fffd
          | c2 :: rest2 =>
            if utf8Cont c2 then b :: c1 :: c2 :: utf8Lossy rest2
            else fffd ++ utf8Lossy (c2 :: rest2)
        else fffd ++ utf8Lossy (c1 :: rest)
    else if 0xF0 ≤ b ∧ b ≤ 0xF4 then
      match bs with
      | [] => fffd
      | c1 :: rest =>
        if utf8Snd4 b c1 then
          match rest with
          | [] => fffd
          | c2 :: rest2 =>
            if utf8Cont c2 then
              match rest2 with
              | [] => fffd
              | c3 :: rest3 =>
                if utf8Cont c3 then b :: c1 :: c2 :: c3 :: utf8Lossy rest3
                else fffd ++ utf8Lossy (c3 :: rest3)
            else fffd ++ utf8Lossy (c2 :: rest2)
        else fffd ++ utf8Lossy (c1 :: rest)
    else fffd ++ utf8Lossy bs

/-- `FString` read (src/save.rs): a `u32` size word, then a `NullString`
converted with `to_string` (lossy UTF-8), with the binrw assert
`string.len() as u32 == size - 1` in wrapping `u32` arithmetic.  With
`strict = true` the read additionally fails when the lossy conversion altered
the bytes (so a re-written string would differ). -/
def readFString (strict : Bool) (data : List Nat) (pos : Nat) :
    Except RErr (List Nat × Nat) :=
  match readUInt 4 data pos with
  | .error e => .error e
  | .ok (size, p1) =>
    match readNull data p1 with
    | .error e => .error e
    | .ok (bs, p2) =>
      let s := utf8Lossy bs
      if s.length % 4294967296 = (size + 4294967295) % 4294967296 then
        if strict = true ∧ s ≠ bs then .error .strictCheck else .ok (s, p2)
      else .error .assertFail

/-- `FString` write: the size word is `string.len() as u32 + 1` (also for the
empty string), then the bytes, then the NUL terminator written by
`NullString`. -/
def writeFString (s : List Nat) : List Nat :=
  wLE 4 (s.length + 1) ++ s ++ [0]

/-- A `TypeTag`: a `u32` kind and an `FString` value.  Tag lists on disk are
terminated by a `u32 == 0` that is not itself a tag. -/
structure TypeTag where
  kind : Nat
  value : List Nat

/-- `TypeTag::size`. -/
def TypeTag.size (t : TypeTag) : Nat :=
  4 + byteSize t.value

/-- `PropertyType`: name, tag list, inner types. -/
inductive PropertyType where
  | mk (name : List Nat) (tags : List TypeTag) (innerTypes : List PropertyType)

def PropertyType.name : PropertyType → List Nat
  | .mk n _ _ => n

def PropertyType.tags : PropertyType → List TypeTag
  | .mk _ t _ => t

def PropertyType.innerTypes : PropertyType → List PropertyType
  | .mk _ _ i => i

/-- `num_inner_types` (src/save.rs): how many inner `PropertyType`s follow the
tag list for a given name and tag list. -/
def numInnerTypes (name : List Nat) (tags : List TypeTag) : Nat :=
  if name = ascii "EnumProperty" then 1
  else if name = ascii "MapProperty" then
    match tags.head? with
    | some tag => if tag.value = ascii "EnumProperty" then 2 else 1
    | none => 1
  else if name = ascii "ArrayProperty" then
    match tags.head? with
    | some tag =>
      if tag.value = ascii "EnumProperty" then 1
      else if tag.value = ascii "MapProperty" then
        match tags[1]? with
        | some tag2 => if tag2.value = ascii "EnumProperty" then 2 else 1
        | none => 1
      else 0
    | none => 0
  else 0

mutual

/-- `PropertyType::size`: name, tags, the 4-byte tag-list terminator, inner
types. -/
def PropertyType.size : PropertyType → Nat
  | .mk name tags inner =>
    byteSize name + (tags.map TypeTag.size).sum + 4 + sizeTypeList inner

def sizeTypeList : List PropertyType → Nat
  | [] => 0
  | t :: ts => t.size + sizeTypeList ts

end

mutual

/-- A structural weight of a `PropertyType`, used only as the fuel bound for
the `describe` recursion below. -/
def PropertyType.weight : PropertyType → Nat
  | .mk _ tags inner => 1 + tags.length + weightTypeList inner

def weightTypeList : List PropertyType → Nat
  | [] => 0
  | t :: ts => t.weight + weightTypeList ts

end

/-- `PropertyType::describe_by_name`, with an explicit fuel argument so that
the definition is structurally recursive (and hence computable by the kernel).
`describe` below always supplies enough fuel: each recursive call of the
source either drops one tag or descends into an inner type. -/
def descGo : Nat → List Nat → List TypeTag → List PropertyType → List Nat
  | 0, name, _, _ => name
  | fuel + 1, name, tags, inner =>
    name ++
      match tags with
      | [] => []
      | t0 :: trest =>
        if name = ascii "StructProperty" ∨ name = ascii "EnumProperty" then
          ascii "<" ++
            (match trest.head? with
             | some ns => ns.value ++ ascii "."
             | none => []) ++ t0.value ++ ascii ">"
        else if name = ascii "ArrayProperty" then
          ascii "[" ++ descGo fuel t0.value trest inner ++ ascii "]"
        else if name = ascii "MapProperty" ∧ inner.isEmpty = false then
          ascii "<" ++ descGo fuel t0.value trest inner ++ ascii ", " ++
            (match inner.getLast? with
             | some vt => descGo fuel vt.name vt.tags vt.innerTypes
             | none => []) ++ ascii ">"
        else []

/-- `PropertyType::describe`: the canonical textual description used for
dispatch. -/
def PropertyType.describe (t : PropertyType) : List Nat :=
  descGo (t.tags.length + t.weight) t.name t.tags t.innerTypes

/-- `GAMEPLAY_TAG_CONTAINER_TYPE` (src/save.rs). -/
def gameplayTagContainerType : List Nat :=
  ascii "StructProperty</Script/GameplayTags.GameplayTagContainer>"

/-- `CORE_UOBJECT_TYPE_PREFIX` (src/save.rs). -/
def coreUObjectTypeHead : List Nat :=
  ascii "StructProperty</Script/CoreUObject."

/-- `PropertyType::element_type`: the projected element type used for array
elements and map keys. -/
def PropertyType.elementType (t : PropertyType) : PropertyType :=
  if (t.name = ascii "ArrayProperty" ∨ t.name = ascii "MapProperty") ∧
      t.tags.isEmpty = false then
    match t.tags with
    | [] => t
    | t0 :: trest =>
      let name := t0.value
      let inner :=
        if name = ascii "EnumProperty" then
          match t.innerTypes.head? with
          | some it => [it]
          | none => []
        else []
      .mk name trest inner
  else if t.name = ascii "StructProperty" ∧ t.describe = gameplayTagContainerType then
    .mk (ascii "NameProperty") [] []
  else t

/-- `PropertyType::new_scalar`. -/
def PropertyType.newScalar (name : List Nat) : PropertyType :=
  .mk name [] []

/-- A fixed-layout CoreUObject payload (src/uobject.rs).  The numeric fields
hold the raw little-endian bit patterns (the codec never interprets them
arithmetically). -/
inductive UObject where
  | dateTime (ticks : Nat)
  | timespan (ticks : Nat)
  | vector (x y z : Nat)
  | quat (x y z w : Nat)
  | linearColor (r g b a : Nat)

/-- `CoreUObject::size` per concrete type. -/
def UObject.size : UObject → Nat
  | .dateTime _ => 8
  | .timespan _ => 8
  | .vector _ _ _ => 24
  | .quat _ _ _ _ => 32
  | .linearColor _ _ _ _ => 16

/-- Serialization of a CoreUObject payload. -/
def writeUObject : UObject → List Nat
  | .dateTime t => wLE 8 t
  | .timespan t => wLE 8 t
  | .vector x y z => wLE 8 x ++ wLE 8 y ++ wLE 8 z
  | .quat x y z w => wLE 8 x ++ wLE 8 y ++ wLE 8 z ++ wLE 8 w
  | .linearColor r g b a => wLE 4 r ++ wLE 4 g ++ wLE 4 b ++ wLE 4 a

/-- `try_read_uobject` (src/uobject.rs): reads the fixed layout named by
`typeName`, or returns `none` (consuming nothing) for an unknown name. -/
def tryReadUObject (typeName : List Nat) (data : List Nat) (pos : Nat) :
    Except RErr (Option UObject × Nat) :=
  if typeName = ascii "DateTime" then
    match readUInt 8 data pos with
    | .error e => .error e
    | .ok (t, p) => .ok (some (.dateTime t), p)
  else if typeName = ascii "Timespan" then
    match readUInt 8 data pos with
    | .error e => .error e
    | .ok (t, p) => .ok (some (.timespan t), p)
  else if typeName = ascii "Vector" then
    match readUInt 8 data pos with
    | .error e => .error e
    | .ok (x, p1) =>
      match readUInt 8 data p1 with
      | .error e => .error e
      | .ok (y, p2) =>
        match readUInt 8 data p2 with
        | .error e => .error e
        | .ok (z, p3) => .ok (some (.vector x y z), p3)
  else if typeName = ascii "Quat" then
    match readUInt 8 data pos with
    | .error e => .error e
    | .ok (x, p1) =>
      match readUInt 8 data p1 with
      | .error e => .error e
      | .ok (y, p2) =>
        match readUInt 8 data p2 with
        | .error e => .error e
        | .ok (z, p3) =>
          match readUInt 8 data p3 with
          | .error e => .error e
          | .ok (w, p4) => .ok (some (.quat x y z w), p4)
  else if typeName = ascii "LinearColor" then
    match readUInt 4 data pos with
    | .error e => .error e
    | .ok (r, p1) =>
      match readUInt 4 data p1 with
      | .error e => .error e
      | .ok (g, p2) =>
        match readUInt 4 data p2 with
        | .error e => .error e
        | .ok (b, p3) =>
          match readUInt 4 data p3 with
          | .error e => .error e
          | .ok (a, p4) => .ok (some (.linearColor r g b a), p4)
  else .ok (none, pos)

/-- `make_default_uobject` (src/uobject.rs). -/
def makeDefaultUObject (typeName : List Nat) : Option UObject :=
  if typeName = ascii "DateTime" then some (.dateTime 0)
  else if typeName = ascii "Timespan" then some (.timespan 0)
  else if typeName = ascii "Vector" then some (.vector 0 0 0)
  else if typeName = ascii "Quat" then some (.quat 0 0 0 0)
  else if typeName = ascii "LinearColor" then some (.linearColor 0 0 0 0)
  else none

/-- `TextData` (src/save.rs): tagged union discriminated by an `i8` magic.
`ticks` holds the raw `u64` bit pattern of the `i64`, `dateStyle`/`timeStyle`
the raw bytes of the `i8`s. -/
inductive TextData where
  | noneText (values : List (List Nat))
  | base (ns key sourceString : List Nat)
  | asDateTime (ticks dateStyle timeStyle : Nat) (timeZone cultureName : List Nat)
  | stringTableEntry (table key : List Nat)

/-- `TextData::size` (+1 for the magic byte). -/
def TextData.size : TextData → Nat
  | .noneText values => 1 + (4 + (values.map byteSize).sum)
  | .base ns key sourceString => 1 + (byteSize ns + byteSize key + byteSize sourceString)
  | .asDateTime _ _ _ timeZone cultureName =>
    1 + (10 + byteSize timeZone + byteSize cultureName)
  | .stringTableEntry table key => 1 + (byteSize table + byteSize key)

/-- Concatenation of the serializations of the elements of a list. -/
def cat (f : α → List Nat) : List α → List Nat
  | [] => []
  | x :: xs => f x ++ cat f xs

/-- Serialization of a `TextData` (magics `-1i8 = 0xFF`, `0`, `9`, `11`). -/
def writeTextData : TextData → List Nat
  | .noneText values => 0xFF :: (wLE 4 values.length ++ cat writeFString values)
  | .base ns key sourceString =>
    0 :: (writeFString ns ++ writeFString key ++ writeFString sourceString)
  | .asDateTime ticks dateStyle timeStyle timeZone cultureName =>
    9 :: (wLE 8 ticks ++ wLE 1 dateStyle ++ wLE 1 timeStyle ++
      writeFString timeZone ++ writeFString cultureName)
  | .stringTableEntry table key =>
    11 :: (writeFString table ++ writeFString key)

/-- One tag followed by its value. -/
def writeTag (t : TypeTag) : List Nat :=
  wLE 4 t.kind ++ writeFString t.value

/-- `write_tags`: all tags, then the `u32 0` terminator. -/
def writeTags (tags : List TypeTag) : List Nat :=
  cat writeTag tags ++ wLE 4 0

mutual

/-- Serialization of a `PropertyType`: name, tags with terminator, inner
types. -/
def writePropertyType : PropertyType → List Nat
  | .mk name tags inner => writeFString name ++ writeTags tags ++ writeTypeList inner

def writeTypeList : List PropertyType → List Nat
  | [] => []
  | t :: ts => writePropertyType t ++ writeTypeList ts

end

mutual

/-- `PropertyValue` (src/save.rs).  Strings are byte lists; `intProperty`,
`floatProperty`, `doubleProperty` hold raw little-endian bit patterns;
`textFlags` is the raw `u32` (all bits legal and preserved). -/
inductive PropertyValue where
  | strProperty (s : List Nat)
  | boolProperty (b : Option Bool)
  | byteProperty (b : Nat)
  | intProperty (n : Nat)
  | floatProperty (n : Nat)
  | doubleProperty (n : Nat)
  | textProperty (flags : Nat) (data : TextData)
  | enumProperty (s : List Nat)
  | nameProperty (s : List Nat)
  | objectProperty (s : List Nat)
  | structProperty (props : List Property)
  | customStructProperty (cs : CustomStruct)
  | coreUObjectStructProperty (obj : UObject)
  | arrayProperty (values : List PropertyValue)
  | mapProperty (removedCount : Nat) (values : List (PropertyValue × PropertyValue))
  | unknownProperty (bytes : List Nat)

/-- `PropertyBody`: type descriptor, flag byte, value.  The on-disk `dataSize`
is not stored: the source computes it on write as `value.size()`. -/
inductive PropertyBody where
  | mk (propertyType : PropertyType) (flags : Nat) (value : PropertyValue)

/-- `Property`: a name and an optional body (absent exactly for the sentinel
names `"None"` and `""` on read). -/
inductive Property where
  | mk (name : List Nat) (body : Option PropertyBody)

/-- `CustomStruct`: flags, a nested property stream, and the verbatim footer
bytes.  The leading `data_size` word is not stored (computed on write). -/
inductive CustomStruct where
  | mk (flags : Nat) (properties : List Property) (extra : List Nat)

end

def PropertyBody.propertyType : PropertyBody → PropertyType
  | .mk t _ _ => t

def PropertyBody.flags : PropertyBody → Nat
  | .mk _ f _ => f

def PropertyBody.value : PropertyBody → PropertyValue
  | .mk _ _ v => v

def Property.name : Property → List Nat
  | .mk n _ => n

def Property.body : Property → Option PropertyBody
  | .mk _ b => b

def CustomStruct.flags : CustomStruct → Nat
  | .mk f _ _ => f

def CustomStruct.properties : CustomStruct → List Property
  | .mk _ p _ => p

def CustomStruct.extra : CustomStruct → List Nat
  | .mk _ _ e => e

mutual

/-- `PropertyValue::size` (src/save.rs). -/
def PropertyValue.size : PropertyValue → Nat
  | .strProperty s => byteSize s
  | .boolProperty none => 0
  | .boolProperty (some _) => 1
  | .byteProperty _ => 1
  | .intProperty _ => 4
  | .floatProperty _ => 4
  | .doubleProperty _ => 8
  | .textProperty _ data => 4 + data.size
  | .enumProperty s => byteSize s
  | .nameProperty s => byteSize s
  | .objectProperty s => byteSize s
  | .structProperty props => sizeProps props
  | .customStructProperty cs => cs.size
  | .coreUObjectStructProperty obj => obj.size
  | .arrayProperty values => 4 + sizeValues values
  | .mapProperty _ values => 8 + sizePairs values
  | .unknownProperty bytes => bytes.length

def sizeValues : List PropertyValue → Nat
  | [] => 0
  | v :: vs => v.size + sizeValues vs

def sizePairs : List (PropertyValue × PropertyValue) → Nat
  | [] => 0
  | (k, v) :: vs => (k.size + v.size) + sizePairs vs

def sizeProps : List Property → Nat
  | [] => 0
  | p :: ps => p.size + sizeProps ps

/-- `Property::size`. -/
def Property.size : Property → Nat
  | .mk name body =>
    byteSize name +
      match body with
      | some b => b.size
      | none => 0

/-- `PropertyBody::size`: type + 4 (data size word) + 1 (flags) + value. -/
def PropertyBody.size : PropertyBody → Nat
  | .mk t _ v => t.size + 4 + 1 + v.size

/-- `CustomStruct::size`: 4 (data size word) + 1 (flags) + properties +
footer. -/
def CustomStruct.size : CustomStruct → Nat
  | .mk _ props extra => 4 + 1 + sizeProps props + extra.length

end

/-- The element-count the writer emits for an `ArrayProperty` payload: the
byte count when the in-memory form is the single-`UnknownProperty`
representation of a byte array, the element count otherwise (the
`ArrayProperty` arm of `PropertyValue::array_len`). -/
def arrayCount (values : List PropertyValue) : Nat :=
  match values with
  | [.unknownProperty buf] => buf.length
  | _ => values.length

/-- `PropertyValue::array_len` (src/save.rs): custom structs are encoded as
byte arrays; a byte array is stored in memory as a single `UnknownProperty`
whose effective length is its byte count. -/
def PropertyValue.arrayLen : PropertyValue → Option Nat
  | .customStructProperty cs => some cs.size
  | .mapProperty _ values => some values.length
  | .arrayProperty values => some (arrayCount values)
  | _ => none

mutual

/-- Serialization of a `PropertyValue` (the `#[binwrite]` impl).  The count
word of an `ArrayProperty`/`MapProperty` is `array_len().unwrap()`. -/
def writeValue : PropertyValue → List Nat
  | .strProperty s => writeFString s
  | .boolProperty none => []
  | .boolProperty (some b) => [if b then 1 else 0]
  | .byteProperty b => wLE 1 b
  | .intProperty n => wLE 4 n
  | .floatProperty n => wLE 4 n
  | .doubleProperty n => wLE 8 n
  | .textProperty flags data => wLE 4 flags ++ writeTextData data
  | .enumProperty s => writeFString s
  | .nameProperty s => writeFString s
  | .objectProperty s => writeFString s
  | .structProperty props => writeProps props
  | .customStructProperty cs => writeCustomStruct cs
  | .coreUObjectStructProperty obj => writeUObject obj
  | .arrayProperty values =>
    wLE 4 (arrayCount values) ++ writeValues values
  | .mapProperty removedCount values =>
    wLE 4 removedCount ++ wLE 4 values.length ++ writePairs values
  | .unknownProperty bytes => bytes

def writeValues : List PropertyValue → List Nat
  | [] => []
  | v :: vs => writeValue v ++ writeValues vs

def writePairs : List (PropertyValue × PropertyValue) → List Nat
  | [] => []
  | (k, v) :: vs => (writeValue k ++ writeValue v) ++ writePairs vs

def writeProps : List Property → List Nat
  | [] => []
  | p :: ps => writeProperty p ++ writeProps ps

/-- Serialization of a `Property`: name, then the body when present. -/
def writeProperty : Property → List Nat
  | .mk name body =>
    writeFString name ++
      match body with
      | some b => writeBody b
      | none => []

/-- Serialization of a `PropertyBody`: type descriptor, the back-patched
`dataSize = value.size()`, the flag byte, the value. -/
def writeBody : PropertyBody → List Nat
  | .mk t flags v => writePropertyType t ++ wLE 4 v.size ++ wLE 1 flags ++ writeValue v

/-- Serialization of a `CustomStruct`: `data_size = size() - 4`, flags,
properties, footer bytes. -/
def writeCustomStruct : CustomStruct → List Nat
  | .mk flags props extra =>
    wLE 4 (CustomStruct.size (.mk flags props extra) - 4) ++ wLE 1 flags ++
      writeProps props ++ extra

end

/-- `Property::new_none`: the bodyless sentinel named `"None"`. -/
def Property.newNone : Property :=
  .mk (ascii "None") none

/-- `Property::is_none`: whether the body is absent. -/
def Property.isNone (p : Property) : Bool :=
  p.body.isNone

/-- `CUSTOM_STRUCT_CLASSES` (src/save.rs): recognized class names and their
footer sizes. -/
def customStructClasses : List (List Nat × Nat) :=
  [(ascii "/Script/GameNoce.NocePlayerInventoryComponent", 8),
   (ascii "/Script/GameNoce.NocePlayerTriggerBase", 8),
   (ascii "/Script/GameNoce.NocePlayerCharacter", 8),
   (ascii "/Script/GameNoce.NocePlayerState", 8),
   (ascii "/Script/GameNoce.NoceBodyPartGroupComponent", 8),
   (ascii "/Script/GameNoce.NoceEnemyCharacter", 8),
   (ascii "/Script/GameNoce.NoceMapIconComponent", 8),
   (ascii "/Script/Engine.ActorComponent", 8),
   (ascii "/Script/GameNoce.NoceEnvironmentSubsystem", 4),
   (ascii "/Script/GameNoce.NoceWorldManagerSubsystem", 4),
   (ascii "/Script/GameNoce.MucusSubsystem", 4),
   (ascii "/Script/GameNoce.NoceAchievementSubsystem", 4),
   (ascii "/Script/GameNoce.NoceActivitySubsystem", 4),
   (ascii "/Script/GameNoce.NoceItemSubsystem", 4),
   (ascii "/Script/GameNoce.NoceOmamoriDrawingSubsystem", 4),
   (ascii "/Script/GameNoce.NocePickupsHelperSubsystem", 4),
   (ascii "/Script/GameNoce.NoceTutorialSubsystem", 4),
   (ascii "/Script/GameNoce.NoceAISystem", 4),
   (ascii "/Script/GameNoce.NoceDialogSubsystem", 4),
   (ascii "/Script/GameNoce.NoceGameClockSubsystem", 4),
   (ascii "/Script/GameNoce.NoceBinkSubsystem", 4),
   (ascii "/Script/GameNoce.NoceHitPerformDataSubsystem", 4),
   (ascii "/Script/GameNoce.NocePlayerLookAtSubsystem", 4),
   (ascii "/Script/GameNoce.NoceTentacleSubsystem", 4),
   (ascii "/Script/GameNoce.NoceUIMissionSubsystem", 4),
   (ascii "/Script/GameNoce.NoceBattlePositionSubsystem", 4),
   (ascii "/Script/GameNoce.NocePickupsSubsystem", 4)]

/-- `Property::custom_struct_footer_size`: a property named `"Class"` whose
body value is an `ObjectProperty` found in the class table yields that class's
footer size. -/
def Property.customStructFooterSize (p : Property) : Option Nat :=
  match p.body with
  | some b =>
    match b.value with
    | .objectProperty s =>
      if p.name = ascii "Class" then
        customStructClasses.findSome? fun c => if s = c.1 then some c.2 else none
      else none
    | _ => none
  | none => none

/-- `Property::is_custom_struct_data`: a property named `"Data"` whose body
value is an `ArrayProperty` holding exactly one `UnknownProperty`. -/
def Property.isCustomStructData (p : Property) : Bool :=
  match p.body with
  | some b =>
    match b.value with
    | .arrayProperty values =>
      decide (p.name = ascii "Data") && decide (values.length = 1) &&
        match values.head? with
        | some (.unknownProperty _) => true
        | _ => false
    | _ => false
  | none => false

/-- `PropertyValue::default_for_type` (src/save.rs). -/
def PropertyValue.defaultForType (typeName : List Nat) : PropertyValue :=
  if typeName = ascii "BoolProperty" then .boolProperty none
  else if typeName = ascii "ByteProperty" then .byteProperty 0
  else if typeName = ascii "IntProperty" then .intProperty 0
  else if typeName = ascii "FloatProperty" then .floatProperty 0
  else if typeName = ascii "DoubleProperty" then .doubleProperty 0
  else if typeName = ascii "StrProperty" then .strProperty []
  else if typeName = ascii "ObjectProperty" then .objectProperty []
  else if typeName = ascii "NameProperty" then .nameProperty []
  else if typeName = ascii "EnumProperty" then .enumProperty []
  else if typeName = ascii "TextProperty" then .textProperty 0 (.noneText [])
  else if typeName = ascii "StructProperty" then .structProperty []
  else if typeName = ascii "ArrayProperty" then .arrayProperty []
  else if typeName = ascii "MapProperty" then .mapProperty 0 []
  else .unknownProperty []

/-- `PropertyType::make_default_value` (src/save.rs). -/
def PropertyType.makeDefaultValue (t : PropertyType) (flags : Nat) : PropertyValue :=
  if t.name = ascii "BoolProperty" then .boolProperty (some false)
  else if t.name = ascii "ByteProperty" then .byteProperty 0
  else if t.name = ascii "IntProperty" then .intProperty 0
  else if t.name = ascii "FloatProperty" then .floatProperty 0
  else if t.name = ascii "DoubleProperty" then .doubleProperty 0
  else if t.name = ascii "StrProperty" then .strProperty []
  else if t.name = ascii "NameProperty" then .nameProperty []
  else if t.name = ascii "ObjectProperty" then .objectProperty []
  else if t.name = ascii "EnumProperty" then .enumProperty []
  else if t.name = ascii "TextProperty" then .textProperty 0 (.noneText [])
  else if t.name = ascii "StructProperty" then
    let description := t.describe
    if description = gameplayTagContainerType then .arrayProperty []
    else if coreUObjectTypeHead.isPrefixOf description then
      match t.tags.head? with
      | some tg =>
        match makeDefaultUObject tg.value with
        | some obj => .coreUObjectStructProperty obj
        | none => .unknownProperty []
      | none => .unknownProperty []
    else if flags ≠ 0 then .unknownProperty []
    else .structProperty [Property.newNone]
  else if t.name = ascii "ArrayProperty" then .arrayProperty []
  else if t.name = ascii "MapProperty" then .mapProperty 0 []
  else .unknownProperty []

/-- Reads `count` `FString`s (the value list of `TextData::None`, and the
gameplay-tag container payload). -/
def readFStringsCount (strict : Bool) (data : List Nat) :
    Nat → Nat → Except RErr (List (List Nat) × Nat)
  | 0, pos => .ok ([], pos)
  | count + 1, pos =>
    match readFString strict data pos with
    | .error e => .error e
    | .ok (s, p1) =>
      match readFStringsCount strict data count p1 with
      | .error e => .error e
      | .ok (ss, p2) => .ok (s :: ss, p2)

/-- `TextData` read: binrw tries the variants by their `i8` magic
(`-1 = 0xFF`, `0`, `9`, `11`); no match is an error. -/
def readTextData (strict : Bool) (data : List Nat) (pos : Nat) :
    Except RErr (TextData × Nat) :=
  match readUInt 1 data pos with
  | .error e => .error e
  | .ok (magic, p1) =>
    if magic = 0xFF then
      match readUInt 4 data p1 with
      | .error e => .error e
      | .ok (count, p2) =>
        match readFStringsCount strict data count p2 with
        | .error e => .error e
        | .ok (values, p3) => .ok (.noneText values, p3)
    else if magic = 0 then
      match readFString strict data p1 with
      | .error e => .error e
      | .ok (ns, p2) =>
        match readFString strict data p2 with
        | .error e => .error e
        | .ok (key, p3) =>
          match readFString strict data p3 with
          | .error e => .error e
          | .ok (sourceString, p4) => .ok (.base ns key sourceString, p4)
    else if magic = 9 then
      match readUInt 8 data p1 with
      | .error e => .error e
      | .ok (ticks, p2) =>
        match readUInt 1 data p2 with
        | .error e => .error e
        | .ok (dateStyle, p3) =>
          match readUInt 1 data p3 with
          | .error e => .error e
          | .ok (timeStyle, p4) =>
            match readFString strict data p4 with
            | .error e => .error e
            | .ok (timeZone, p5) =>
              match readFString strict data p5 with
              | .error e => .error e
              | .ok (cultureName, p6) =>
                .ok (.asDateTime ticks dateStyle timeStyle timeZone cultureName, p6)
    else if magic = 11 then
      match readFString strict data p1 with
      | .error e => .error e
      | .ok (table, p2) =>
        match readFString strict data p2 with
        | .error e => .error e
        | .ok (key, p3) => .ok (.stringTableEntry table key, p3)
    else .error .badVariant

/-- The bundle of mutually recursive readers at one fuel level. -/
structure Readers where
  tags : Bool → List Nat → Nat → Except RErr (List TypeTag × Nat)
  ptype : Bool → List Nat → Nat → Except RErr (PropertyType × Nat)
  valueInner : Bool → List Nat → PropertyType → Nat → Nat → Nat →
    Except RErr (PropertyValue × Nat)
  value : Bool → List Nat → PropertyType → Nat → Nat → Nat →
    Except RErr (PropertyValue × Nat)
  prop : Bool → List Nat → Nat → Except RErr (Property × Nat)
  body : Bool → List Nat → Nat → Except RErr (PropertyBody × Nat)
  structStream : Bool → List Nat → Nat → Option Nat → Nat →
    Except RErr (List Property × Nat)
  propsFooter : Bool → List Nat → Nat → Nat → Except RErr (List Property × Nat)
  customStruct : Bool → List Nat → Nat → Except RErr CustomStruct

/-- `read_tags`: `u32` kinds until a 0 word, each followed by an `FString`. -/
def readTagsF (r : Readers) (strict : Bool) (data : List Nat) (pos : Nat) :
    Except RErr (List TypeTag × Nat) :=
  match readUInt 4 data pos with
  | .error e => .error e
  | .ok (kind, p1) =>
    if kind = 0 then .ok ([], p1)
    else
      match readFString strict data p1 with
      | .error e => .error e
      | .ok (v, p2) =>
        match r.tags strict data p2 with
        | .error e => .error e
        | .ok (ts, p3) => .ok (⟨kind, v⟩ :: ts, p3)

/-- Reads `count` inner `PropertyType`s. -/
def readPTypesCountF (r : Readers) (strict : Bool) (data : List Nat) :
    Nat → Nat → Except RErr (List PropertyType × Nat)
  | 0, pos => .ok ([], pos)
  | count + 1, pos =>
    match r.ptype strict data pos with
    | .error e => .error e
    | .ok (t, p1) =>
      match readPTypesCountF r strict data count p1 with
      | .error e => .error e
      | .ok (ts, p2) => .ok (t :: ts, p2)

/-- `PropertyType` read: name, tags, then `num_inner_types` inner types. -/
def readPTypeF (r : Readers) (strict : Bool) (data : List Nat) (pos : Nat) :
    Except RErr (PropertyType × Nat) :=
  match readFString strict data pos with
  | .error e => .error e
  | .ok (name, p1) =>
    match readTagsF r strict data p1 with
    | .error e => .error e
    | .ok (tags, p2) =>
      match readPTypesCountF r strict data (numInnerTypes name tags) p2 with
      | .error e => .error e
      | .ok (inner, p3) => .ok (.mk name tags inner, p3)

/-- Reads `count` array elements, each with the projected element type and the
remaining size up to `endP` as its `dataSize` bound. -/
def readArrayElemsF (r : Readers) (strict : Bool) (data : List Nat)
    (elemType : PropertyType) (flags endP : Nat) :
    Nat → Nat → Except RErr (List PropertyValue × Nat)
  | 0, pos => .ok ([], pos)
  | count + 1, pos =>
    match r.value strict data elemType flags (endP - pos) pos with
    | .error e => .error e
    | .ok (v, p1) =>
      match readArrayElemsF r strict data elemType flags endP count p1 with
      | .error e => .error e
      | .ok (vs, p2) => .ok (v :: vs, p2)

/-- Reads `count` key/value pairs of a `MapProperty`. -/
def readMapElemsF (r : Readers) (strict : Bool) (data : List Nat)
    (keyType valueType : PropertyType) (flags endP : Nat) :
    Nat → Nat → Except RErr (List (PropertyValue × PropertyValue) × Nat)
  | 0, pos => .ok ([], pos)
  | count + 1, pos =>
    match r.value strict data keyType flags (endP - pos) pos with
    | .error e => .error e
    | .ok (k, p1) =>
      match r.value strict data valueType flags (endP - p1) p1 with
      | .error e => .error e
      | .ok (v, p2) =>
        match readMapElemsF r strict data keyType valueType flags endP count p2 with
        | .error e => .error e
        | .ok (vs, p3) => .ok ((k, v) :: vs, p3)

/-- `PropertyBody::parse_custom_struct` via `Property::parse_custom_struct_data`:
re-parses the single `UnknownProperty` payload of a `Data` property as a
`CustomStruct` with the given footer size. -/
def parseCSDataF (r : Readers) (strict : Bool) (prop : Property) (fs : Nat) :
    Except RErr Property :=
  if prop.isCustomStructData then
    match prop.body with
    | none => .ok prop
    | some b =>
      match b.value with
      | .arrayProperty values =>
        match values.head? with
        | some (.unknownProperty blob) =>
          match r.customStruct strict blob fs with
          | .error e => .error e
          | .ok cs =>
            .ok (.mk prop.name (some (.mk b.propertyType b.flags
              (.customStructProperty cs))))
        | _ => .ok prop
      | _ => .ok prop
  else .ok prop

/-- The body of `PropertyValue::read_options` (the match on the type name),
before the final size check. -/
def readValueInnerF (r : Readers) (strict : Bool) (data : List Nat)
    (pt : PropertyType) (flags dataSize pos : Nat) :
    Except RErr (PropertyValue × Nat) :=
  if pt.name = ascii "StrProperty" then
    match readFString strict data pos with
    | .error e => .error e
    | .ok (s, p1) => .ok (.strProperty s, p1)
  else if pt.name = ascii "BoolProperty" then
    if dataSize = 0 then .ok (.boolProperty none, pos)
    else
      match readUInt 1 data pos with
      | .error e => .error e
      | .ok (b, p1) =>
        if strict = true ∧ ¬(b = 0 ∨ b = 1) then .error .strictCheck
        else .ok (.boolProperty (some (b ≠ 0)), p1)
  else if pt.name = ascii "ByteProperty" then
    if dataSize = 1 then
      match readUInt 1 data pos with
      | .error e => .error e
      | .ok (b, p1) => .ok (.byteProperty b, p1)
    else if pt.tags.isEmpty = false then
      match readFString strict data pos with
      | .ok (s, p1) => .ok (.enumProperty s, p1)
      | .error e =>
        -- In strict mode a lossy-only string failure must not silently take
        -- the fallback: the plain parse would succeed with a different value.
        if e = .strictCheck then .error .strictCheck
        else
          match readBytes data pos dataSize with
          | .error e2 => .error e2
          | .ok (buf, p1) => .ok (.unknownProperty buf, p1)
    else
      match readBytes data pos dataSize with
      | .error e => .error e
      | .ok (buf, p1) => .ok (.unknownProperty buf, p1)
  else if pt.name = ascii "IntProperty" then
    match readUInt 4 data pos with
    | .error e => .error e
    | .ok (n, p1) => .ok (.intProperty n, p1)
  else if pt.name = ascii "FloatProperty" then
    match readUInt 4 data pos with
    | .error e => .error e
    | .ok (n, p1) => .ok (.floatProperty n, p1)
  else if pt.name = ascii "DoubleProperty" then
    match readUInt 8 data pos with
    | .error e => .error e
    | .ok (n, p1) => .ok (.doubleProperty n, p1)
  else if pt.name = ascii "TextProperty" then
    match readUInt 4 data pos with
    | .error e => .error e
    | .ok (textFlags, p1) =>
      match readTextData strict data p1 with
      | .error e => .error e
      | .ok (td, p2) => .ok (.textProperty textFlags td, p2)
  else if pt.name = ascii "EnumProperty" then
    match readFString strict data pos with
    | .error e => .error e
    | .ok (s, p1) => .ok (.enumProperty s, p1)
  else if pt.name = ascii "NameProperty" then
    match readFString strict data pos with
    | .error e => .error e
    | .ok (s, p1) => .ok (.nameProperty s, p1)
  else if pt.name = ascii "ObjectProperty" then
    match readFString strict data pos with
    | .error e => .error e
    | .ok (s, p1) => .ok (.objectProperty s, p1)
  else if pt.name = ascii "StructProperty" then
    if flags ≠ 0 then
      if pt.describe = gameplayTagContainerType then
        match readUInt 4 data pos with
        | .error e => .error e
        | .ok (count, p1) =>
          match readFStringsCount strict data count p1 with
          | .error e => .error e
          | .ok (ss, p2) => .ok (.arrayProperty (ss.map PropertyValue.nameProperty), p2)
      else if coreUObjectTypeHead.isPrefixOf pt.describe then
        match pt.tags.head? with
        | none => .error .expectPanic
        | some tg =>
          match tryReadUObject tg.value data pos with
          | .error e => .error e
          | .ok (some obj, p1) => .ok (.coreUObjectStructProperty obj, p1)
          | .ok (none, _) =>
            match readBytes data pos dataSize with
            | .error e => .error e
            | .ok (buf, p1) => .ok (.unknownProperty buf, p1)
      else
        match readBytes data pos dataSize with
        | .error e => .error e
        | .ok (buf, p1) => .ok (.unknownProperty buf, p1)
    else
      match r.structStream strict data (pos + dataSize) none pos with
      | .error e => .error e
      | .ok (props, p1) => .ok (.structProperty props, p1)
  else if pt.name = ascii "ArrayProperty" then
    match readUInt 4 data pos with
    | .error e => .error e
    | .ok (count, p1) =>
      if (pt.elementType).name = ascii "ByteProperty" then
        match readBytes data p1 count with
        | .error e => .error e
        | .ok (buf, p2) => .ok (.arrayProperty [.unknownProperty buf], p2)
      else
        match readArrayElemsF r strict data pt.elementType flags (pos + dataSize) count p1 with
        | .error e => .error e
        | .ok (values, p2) =>
          if strict = true ∧ PropertyValue.arrayLen (.arrayProperty values) ≠ some count then
            .error .strictCheck
          else .ok (.arrayProperty values, p2)
  else if pt.name = ascii "MapProperty" then
    match pt.innerTypes.getLast? with
    | none => .error .expectPanic
    | some valueType =>
      match readUInt 4 data pos with
      | .error e => .error e
      | .ok (removedCount, p1) =>
        match readUInt 4 data p1 with
        | .error e => .error e
        | .ok (count, p2) =>
          match readMapElemsF r strict data pt.elementType valueType flags (pos + dataSize) count p2 with
          | .error e => .error e
          | .ok (values, p3) => .ok (.mapProperty removedCount values, p3)
  else
    match readBytes data pos dataSize with
    | .error e => .error e
    | .ok (buf, p1) => .ok (.unknownProperty buf, p1)

/-- The final bound check of `PropertyValue::read_options`: a value that
consumed more than its `dataSize` is the `panic!` (modelled as
`overflowingValue`); in strict mode a value must consume its `dataSize`
exactly only at `PropertyBody` level (see `readBodyF`), not here, because
container elements receive the remaining size as a mere bound. -/
def readValueCheckF
    (vi : Bool → List Nat → PropertyType → Nat → Nat → Nat →
      Except RErr (PropertyValue × Nat))
    (strict : Bool) (data : List Nat) (pt : PropertyType)
    (flags dataSize pos : Nat) : Except RErr (PropertyValue × Nat) :=
  match vi strict data pt flags dataSize pos with
  | .error e => .error e
  | .ok (v, p1) => if pos + dataSize < p1 then .error .overflowingValue else .ok (v, p1)

/-- `Property` read: an `FString` name; a body follows unless the name is
`"None"` or empty. -/
def readPropertyF (r : Readers) (strict : Bool) (data : List Nat) (pos : Nat) :
    Except RErr (Property × Nat) :=
  match readFString strict data pos with
  | .error e => .error e
  | .ok (name, p1) =>
    if name ≠ ascii "None" ∧ name ≠ [] then
      match r.body strict data p1 with
      | .error e => .error e
      | .ok (b, p2) => .ok (.mk name (some b), p2)
    else .ok (.mk name none, p1)

/-- `PropertyBody` read: type, `dataSize` word, flag byte, then the value with
that bound.  In strict mode the value must consume exactly `dataSize` bytes
(otherwise re-serialization would back-patch a different `dataSize`). -/
def readBodyF (r : Readers) (strict : Bool) (data : List Nat) (pos : Nat) :
    Except RErr (PropertyBody × Nat) :=
  match r.ptype strict data pos with
  | .error e => .error e
  | .ok (pt, p1) =>
    match readUInt 4 data p1 with
    | .error e => .error e
    | .ok (dataSize, p2) =>
      match readUInt 1 data p2 with
      | .error e => .error e
      | .ok (flags, p3) =>
        match r.value strict data pt flags dataSize p3 with
        | .error e => .error e
        | .ok (v, p4) =>
          if strict = true ∧ p4 ≠ p3 + dataSize then .error .strictCheck
          else .ok (.mk pt flags v, p4)

/-- The property-stream loop of the `StructProperty` (flags = 0) case:
properties until the sentinel (inclusive) or the `endP` bound, with
custom-struct recognition (`footer` is the resolved footer size, if any). -/
def readStructStreamF (r : Readers) (strict : Bool) (data : List Nat)
    (endP : Nat) (footer : Option Nat) (pos : Nat) :
    Except RErr (List Property × Nat) :=
  if pos < endP then
    match r.prop strict data pos with
    | .error e => .error e
    | .ok (prop, p1) =>
      match footer with
      | none =>
        if prop.isNone then .ok ([prop], p1)
        else
          match r.structStream strict data endP prop.customStructFooterSize p1 with
          | .error e => .error e
          | .ok (rest, p2) => .ok (prop :: rest, p2)
      | some fs =>
        match (if prop.isCustomStructData then parseCSDataF r strict prop fs else .ok prop) with
        | .error e => .error e
        | .ok prop2 =>
          if prop2.isNone then .ok ([prop2], p1)
          else
            match r.structStream strict data endP (some fs) p1 with
            | .error e => .error e
            | .ok (rest, p2) => .ok (prop2 :: rest, p2)
  else .ok ([], pos)

/-- `read_properties_with_footer`: properties while the position is below
`EOF - footer`; an EOF error is caught (ending the stream) only when the
footer size is 0, which no caller uses. -/
def readPropsFooterF (r : Readers) (strict : Bool) (data : List Nat)
    (fs : Nat) (pos : Nat) : Except RErr (List Property × Nat) :=
  if pos < data.length - fs then
    match r.prop strict data pos with
    | .error e => if e = .eof ∧ fs = 0 then .ok ([], pos) else .error e
    | .ok (prop, p1) =>
      match r.propsFooter strict data fs p1 with
      | .error e => .error e
      | .ok (rest, p2) => .ok (prop :: rest, p2)
  else .ok ([], pos)

/-- `CustomStruct` read on a payload blob: the outer `data_size` word was
already consumed as the array count, so the blob starts at the flag byte;
properties run to `EOF - footer`; the footer bytes are kept verbatim. -/
def readCustomStructF (r : Readers) (strict : Bool) (blob : List Nat)
    (fs : Nat) : Except RErr CustomStruct :=
  match readUInt 1 blob 0 with
  | .error e => .error e
  | .ok (flags, p1) =>
    match r.propsFooter strict blob fs p1 with
    | .error e => .error e
    | .ok (props, p2) =>
      match readBytes blob p2 fs with
      | .error e => .error e
      | .ok (extra, _) => .ok (.mk flags props extra)

/-- All readers fail at fuel 0. -/
def failR : Readers where
  tags := fun _ _ _ => .error .outOfFuel
  ptype := fun _ _ _ => .error .outOfFuel
  valueInner := fun _ _ _ _ _ _ => .error .outOfFuel
  value := fun _ _ _ _ _ _ => .error .outOfFuel
  prop := fun _ _ _ => .error .outOfFuel
  body := fun _ _ _ => .error .outOfFuel
  structStream := fun _ _ _ _ _ => .error .outOfFuel
  propsFooter := fun _ _ _ _ => .error .outOfFuel
  customStruct := fun _ _ _ => .error .outOfFuel

/-- The readers at each fuel level. -/
def readers : Nat → Readers
  | 0 => failR
  | fuel + 1 =>
    let r := readers fuel
    { tags := readTagsF r
      ptype := readPTypeF r
      valueInner := readValueInnerF r
      value := readValueCheckF (readValueInnerF r)
      prop := readPropertyF r
      body := readBodyF r
      structStream := readStructStreamF r
      propsFooter := readPropsFooterF r
      customStruct := readCustomStructF r }

def readTags (strict : Bool) (data : List Nat) (pos fuel : Nat) :
    Except RErr (List TypeTag × Nat) :=
  (readers fuel).tags strict data pos

def readPropertyType (strict : Bool) (data : List Nat) (pos fuel : Nat) :
    Except RErr (PropertyType × Nat) :=
  (readers fuel).ptype strict data pos

def readValueInner (strict : Bool) (data : List Nat) (pt : PropertyType)
    (flags dataSize pos fuel : Nat) : Except RErr (PropertyValue × Nat) :=
  (readers fuel).valueInner strict data pt flags dataSize pos

/-- `PropertyValue::read_options`. -/
def readValue (strict : Bool) (data : List Nat) (pt : PropertyType)
    (flags dataSize pos fuel : Nat) : Except RErr (PropertyValue × Nat) :=
  (readers fuel).value strict data pt flags dataSize pos

def readProperty (strict : Bool) (data : List Nat) (pos fuel : Nat) :
    Except RErr (Property × Nat) :=
  (readers fuel).prop strict data pos

def readPropertyBody (strict : Bool) (data : List Nat) (pos fuel : Nat) :
    Except RErr (PropertyBody × Nat) :=
  (readers fuel).body strict data pos

def readStructStream (strict : Bool) (data : List Nat) (endP : Nat)
    (footer : Option Nat) (pos fuel : Nat) : Except RErr (List Property × Nat) :=
  (readers fuel).structStream strict data endP footer pos

def readPropsFooter (strict : Bool) (data : List Nat) (fs pos fuel : Nat) :
    Except RErr (List Property × Nat) :=
  (readers fuel).propsFooter strict data fs pos

def readCustomStruct (strict : Bool) (blob : List Nat) (fs fuel : Nat) :
    Except RErr CustomStruct :=
  (readers fuel).customStruct strict blob fs

/-- `Property::parse_custom_struct_data`. -/
def parseCustomStructData (strict : Bool) (prop : Property) (fs fuel : Nat) :
    Except RErr Property :=
  parseCSDataF (readers fuel) strict prop fs

/-- `CustomFormatEntry`: a 16-byte GUID and a raw `i32`. -/
structure CustomFormatEntry where
  guid : List Nat
  value : Nat

/-- `CustomFormatData`. -/
structure CustomFormatData where
  version : Nat
  entries : List CustomFormatEntry

/-- `EngineVersion` (`i16`s, `i32`, `FString`, all raw). -/
structure EngineVersion where
  major : Nat
  minor : Nat
  patch : Nat
  build : Nat
  buildId : List Nat

/-- `SaveGameHeader` (after the `GVAS` magic). -/
structure SaveGameHeader where
  saveGameVersion : Nat
  packageVersion : Nat × Nat
  engineVersion : EngineVersion

/-- `SaveGameData`: type name, flags, properties to `EOF - 4`, trailing
`u32`. -/
structure SaveGameData where
  typeName : List Nat
  flags : Nat
  properties : List Property
  extra : Nat

/-- `SaveGame`. -/
structure SaveGame where
  header : SaveGameHeader
  customFormatData : CustomFormatData
  saveData : SaveGameData

def readEngineVersion (strict : Bool) (data : List Nat) (pos : Nat) :
    Except RErr (EngineVersion × Nat) :=
  match readUInt 2 data pos with
  | .error e => .error e
  | .ok (major, p1) =>
    match readUInt 2 data p1 with
    | .error e => .error e
    | .ok (minor, p2) =>
      match readUInt 2 data p2 with
      | .error e => .error e
      | .ok (patch, p3) =>
        match readUInt 4 data p3 with
        | .error e => .error e
        | .ok (build, p4) =>
          match readFString strict data p4 with
          | .error e => .error e
          | .ok (buildId, p5) => .ok (⟨major, minor, patch, build, buildId⟩, p5)

/-- `SaveGameHeader` read: the `GVAS` magic, then the fields. -/
def readHeader (strict : Bool) (data : List Nat) (pos : Nat) :
    Except RErr (SaveGameHeader × Nat) :=
  match readBytes data pos 4 with
  | .error e => .error e
  | .ok (magic, p1) =>
    if magic ≠ ascii "GVAS" then .error .badMagic
    else
      match readUInt 4 data p1 with
      | .error e => .error e
      | .ok (sgv, p2) =>
        match readUInt 4 data p2 with
        | .error e => .error e
        | .ok (pv1, p3) =>
          match readUInt 4 data p3 with
          | .error e => .error e
          | .ok (pv2, p4) =>
            match readEngineVersion strict data p4 with
            | .error e => .error e
            | .ok (ev, p5) => .ok (⟨sgv, (pv1, pv2), ev⟩, p5)

/-- Reads `count` `CustomFormatEntry`s. -/
def readCFEntries (data : List Nat) :
    Nat → Nat → Except RErr (List CustomFormatEntry × Nat)
  | 0, pos => .ok ([], pos)
  | count + 1, pos =>
    match readBytes data pos 16 with
    | .error e => .error e
    | .ok (guid, p1) =>
      match readUInt 4 data p1 with
      | .error e => .error e
      | .ok (v, p2) =>
        match readCFEntries data count p2 with
        | .error e => .error e
        | .ok (es, p3) => .ok (⟨guid, v⟩ :: es, p3)

/-- `CustomFormatData` read. -/
def readCustomFormatData (data : List Nat) (pos : Nat) :
    Except RErr (CustomFormatData × Nat) :=
  match readUInt 4 data pos with
  | .error e => .error e
  | .ok (version, p1) =>
    match readUInt 4 data p1 with
    | .error e => .error e
    | .ok (count, p2) =>
      match readCFEntries data count p2 with
      | .error e => .error e
      | .ok (entries, p3) => .ok (⟨version, entries⟩, p3)

/-- `SaveGameData` read: type name, flags, properties to `EOF - 4`, trailing
`u32`. -/
def readSaveGameData (strict : Bool) (data : List Nat) (pos fuel : Nat) :
    Except RErr (SaveGameData × Nat) :=
  match readFString strict data pos with
  | .error e => .error e
  | .ok (typeName, p1) =>
    match readUInt 1 data p1 with
    | .error e => .error e
    | .ok (flags, p2) =>
      match readPropsFooter strict data 4 p2 fuel with
      | .error e => .error e
      | .ok (props, p3) =>
        match readUInt 4 data p3 with
        | .error e => .error e
        | .ok (extra, p4) => .ok (⟨typeName, flags, props, extra⟩, p4)

/-- `SaveGame` read (the entry point used by `file.read_le()`). -/
def readSaveGame (strict : Bool) (data : List Nat) (fuel : Nat) :
    Except RErr (SaveGame × Nat) :=
  match readHeader strict data 0 with
  | .error e => .error e
  | .ok (hdr, p1) =>
    match readCustomFormatData data p1 with
    | .error e => .error e
    | .ok (cfd, p2) =>
      match readSaveGameData strict data p2 fuel with
      | .error e => .error e
      | .ok (sgd, p3) => .ok (⟨hdr, cfd, sgd⟩, p3)

def writeEngineVersion (ev : EngineVersion) : List Nat :=
  wLE 2 ev.major ++ wLE 2 ev.minor ++ wLE 2 ev.patch ++ wLE 4 ev.build ++
    writeFString ev.buildId

def writeHeader (h : SaveGameHeader) : List Nat :=
  ascii "GVAS" ++ wLE 4 h.saveGameVersion ++ wLE 4 h.packageVersion.1 ++
    wLE 4 h.packageVersion.2 ++ writeEngineVersion h.engineVersion

def writeCFEntry (e : CustomFormatEntry) : List Nat :=
  e.guid ++ wLE 4 e.value

def writeCustomFormatData (c : CustomFormatData) : List Nat :=
  wLE 4 c.version ++ wLE 4 c.entries.length ++ cat writeCFEntry c.entries

def writeSaveGameData (s : SaveGameData) : List Nat :=
  writeFString s.typeName ++ wLE 1 s.flags ++ writeProps s.properties ++
    wLE 4 s.extra

/-- `SaveGame` write (the entry point used by `file.write_le(save)`). -/
def writeSaveGame (sg : SaveGame) : List Nat :=
  writeHeader sg.header ++ writeCustomFormatData sg.customFormatData ++
    writeSaveGameData sg.saveData

/-! ### `Stringable::try_set_from_str` (src/uobject.rs)

The blanket `impl<T: FromStr> Stringable for T`: parse the string; when the
parse succeeds the field is assigned the parsed value, when it fails the field
keeps its current value and no error is reported.  The field parser is a
parameter, as the source is generic over `T: FromStr`. -/

def trySetFromStr {α : Type} (prs : String → Option α) (s : String)
    (cur : α) : α :=
  match prs s with
  | some v => v
  | none => cur

/-- A concrete field parser used to instantiate the generic
`try_set_from_str` law: the decimal-digit parse of an unsigned integer field
(a stand-in for one `FromStr` instance). -/
def parseNatChars : List Char → Option Nat
  | [] => none
  | c :: cs =>
    if (c :: cs).all Char.isDigit then
      some ((c :: cs).foldl (fun a d => a * 10 + (d.toNat - 48)) 0)
    else none

/-- The same parser on `String`. -/
def parseNatStr (s : String) : Option Nat :=
  parseNatChars s.data

/-! ### Concrete byte streams and parse trees used to settle the claims -/

/-- The spec's `FString` example bytes `0D 00 00 00 "Hello World!" 00`. -/
def hwBytes : List Nat :=
  [0x0D, 0, 0, 0, 0x48, 0x65, 0x6C, 0x6C, 0x6F, 0x20, 0x57, 0x6F, 0x72, 0x6C,
   0x64, 0x21, 0]

/-- A complete save file whose single `BoolProperty` advertises `dataSize` 10
but whose value only occupies 1 byte: the plain parser accepts it, but
re-serialization back-patches `dataSize = 1`. -/
def c1Bad : List Nat :=
  ascii "GVAS" ++ wLE 4 3 ++ wLE 4 0 ++ wLE 4 0 ++ wLE 2 5 ++ wLE 2 4 ++
    wLE 2 0 ++ wLE 4 0 ++ writeFString [] ++ wLE 4 0 ++ wLE 4 0 ++
    writeFString (ascii "A") ++ wLE 1 0 ++
    writeFString (ascii "B") ++ writeFString (ascii "BoolProperty") ++
    wLE 4 0 ++ wLE 4 10 ++ wLE 1 0 ++ [1] ++
    writeFString (ascii "None") ++ wLE 4 7

/-- The tree the plain parser produces for `c1Bad`. -/
def c1BadTree : SaveGame :=
  ⟨⟨3, (0, 0), ⟨5, 4, 0, 0, []⟩⟩, ⟨0, []⟩,
   ⟨ascii "A", 0,
    [.mk (ascii "B") (some (.mk (.mk (ascii "BoolProperty") [] []) 0
      (.boolProperty (some true)))),
     .mk (ascii "None") none], 7⟩⟩

/-- The same save file with the correct `dataSize = 1`. -/
def c1Good : List Nat :=
  ascii "GVAS" ++ wLE 4 3 ++ wLE 4 0 ++ wLE 4 0 ++ wLE 2 5 ++ wLE 2 4 ++
    wLE 2 0 ++ wLE 4 0 ++ writeFString [] ++ wLE 4 0 ++ wLE 4 0 ++
    writeFString (ascii "A") ++ wLE 1 0 ++
    writeFString (ascii "B") ++ writeFString (ascii "BoolProperty") ++
    wLE 4 0 ++ wLE 4 1 ++ wLE 1 0 ++ [1] ++ wLE 4 7

/-- The tree parsed from `c1Good`. -/
def c1GoodTree : SaveGame :=
  ⟨⟨3, (0, 0), ⟨5, 4, 0, 0, []⟩⟩, ⟨0, []⟩,
   ⟨ascii "A", 0,
    [.mk (ascii "B") (some (.mk (.mk (ascii "BoolProperty") [] []) 0
      (.boolProperty (some true))))], 7⟩⟩

/-- A `PropertyBody` whose on-disk `dataSize` word holds 10 while its
`BoolProperty` value occupies 1 byte. -/
def c2Bad : List Nat :=
  writeFString (ascii "BoolProperty") ++ wLE 4 0 ++ wLE 4 10 ++ wLE 1 0 ++ [1]

/-- The same body bytes with the consistent `dataSize = 1`. -/
def c2Good : List Nat :=
  writeFString (ascii "BoolProperty") ++ wLE 4 0 ++ wLE 4 1 ++ wLE 1 0 ++ [1]

/-- The body tree parsed from both `c2Bad` and `c2Good`. -/
def c2Body : PropertyBody :=
  .mk (.mk (ascii "BoolProperty") [] []) 0 (.boolProperty (some true))

/-- A property stream with a `"Class"` child naming a table class (footer 4)
and a `"Data"` child whose array payload is the custom-struct blob
`00 | 07 00 00 00` (flag byte, no children, 4 footer bytes). -/
def c4Good : List Nat :=
  writeFString (ascii "Class") ++ writeFString (ascii "ObjectProperty") ++
    wLE 4 0 ++ wLE 4 34 ++ wLE 1 0 ++
    writeFString (ascii "/Script/GameNoce.NoceAISystem") ++
  writeFString (ascii "Data") ++ writeFString (ascii "ArrayProperty") ++
    wLE 4 1 ++ writeFString (ascii "ByteProperty") ++ wLE 4 0 ++
    wLE 4 9 ++ wLE 1 0 ++ wLE 4 5 ++ [0, 7, 0, 0, 0] ++
  writeFString (ascii "None")

/-- The stream parsed (strictly or plainly) from `c4Good`: the `"Data"` blob
is recognized and re-parsed into a `CustomStruct`. -/
def c4GoodTree : List Property :=
  [.mk (ascii "Class") (some (.mk (.mk (ascii "ObjectProperty") [] []) 0
     (.objectProperty (ascii "/Script/GameNoce.NoceAISystem")))),
   .mk (ascii "Data") (some (.mk (.mk (ascii "ArrayProperty")
     [⟨1, ascii "ByteProperty"⟩] []) 0
     (.customStructProperty (.mk 0 [] [7, 0, 0, 0])))),
   .mk (ascii "None") none]

/-- Like `c4Good`, but the blob's nested `BoolProperty` advertises
`dataSize` 10 for its 1-byte value: recognition and re-parsing still succeed
in the plain parser, but re-serialization changes the nested `dataSize`. -/
def c4Bad : List Nat :=
  writeFString (ascii "Class") ++ writeFString (ascii "ObjectProperty") ++
    wLE 4 0 ++ wLE 4 34 ++ wLE 1 0 ++
    writeFString (ascii "/Script/GameNoce.NoceAISystem") ++
  writeFString (ascii "Data") ++ writeFString (ascii "ArrayProperty") ++
    wLE 4 1 ++ writeFString (ascii "ByteProperty") ++ wLE 4 0 ++
    wLE 4 42 ++ wLE 1 0 ++ wLE 4 38 ++
    ([0] ++ writeFString (ascii "B") ++ writeFString (ascii "BoolProperty") ++
      wLE 4 0 ++ wLE 4 10 ++ wLE 1 0 ++ [1] ++ [7, 0, 0, 0]) ++
  writeFString (ascii "None")

/-- The stream the plain parser produces for `c4Bad`. -/
def c4BadTree : List Property :=
  [.mk (ascii "Class") (some (.mk (.mk (ascii "ObjectProperty") [] []) 0
     (.objectProperty (ascii "/Script/GameNoce.NoceAISystem")))),
   .mk (ascii "Data") (some (.mk (.mk (ascii "ArrayProperty")
     [⟨1, ascii "ByteProperty"⟩] []) 0
     (.customStructProperty (.mk 0
       [.mk (ascii "B") (some (.mk (.mk (ascii "BoolProperty") [] []) 0
         (.boolProperty (some true))))] [7, 0, 0, 0])))),
   .mk (ascii "None") none]

/-- A `StructProperty` type whose description starts with the CoreUObject
head but whose first tag names no fixed-layout type. -/
def c5PT : PropertyType :=
  .mk (ascii "StructProperty")
    [⟨1, ascii "Foo"⟩, ⟨1, ascii "/Script/CoreUObject"⟩] []

/-- A `StructProperty` type resolving to the fixed-layout `DateTime`. -/
def c5GoodPT : PropertyType :=
  .mk (ascii "StructProperty")
    [⟨1, ascii "DateTime"⟩, ⟨1, ascii "/Script/CoreUObject"⟩] []

/-- The property type of a flags-0 `StructProperty` (the stream case). -/
def c8PT : PropertyType :=
  .mk (ascii "StructProperty") [] []

/-- A 9-byte stream holding only the `"None"` sentinel. -/
def c8Data : List Nat :=
  writeFString (ascii "None")

/-! ### Basic properties of slices and little-endian words -/

theorem slice_len {data : List Nat} {a b : Nat} (hb : b ≤ data.length)
    (hab : a ≤ b) : (slice data a b).length = b - a := by
  simp only [slice, List.length_take, List.length_drop]
  omega

theorem slice_split (data : List Nat) {a m b : Nat} (h1 : a ≤ m) (h2 : m ≤ b) :
    slice data a b = slice data a m ++ slice data m b := by
  unfold slice
  have hb : b - a = (m - a) + (b - m) := by omega
  rw [hb, List.take_add, List.drop_drop]
  have : a + (m - a) = m := by omega
  rw [this]

theorem slice_refl (data : List Nat) (a : Nat) : slice data a a = [] := by
  simp [slice]

theorem slice_all (data : List Nat) : slice data 0 data.length = data := by
  simp [slice]

theorem mem_slice {data : List Nat} {a b x : Nat} (h : x ∈ slice data a b) :
    x ∈ data :=
  List.mem_of_mem_drop (List.mem_of_mem_take h)

theorem bytes_slice {data : List Nat} {a b : Nat} (hB : Bytes data) :
    Bytes (slice data a b) :=
  fun x hx => hB x (mem_slice hx)

theorem wLE_length (k n : Nat) : (wLE k n).length = k := by
  induction k generalizing n with
  | zero => simp [wLE]
  | succ k ih => simp [wLE, ih]

theorem leVal_lt {bs : List Nat} (h : ∀ b ∈ bs, b < 256) :
    leVal bs < 256 ^ bs.length := by
  induction bs with
  | nil => simp [leVal]
  | cons b rest ih =>
    have hb : b < 256 := h b (by simp)
    have hr : leVal rest < 256 ^ rest.length := ih fun x hx => h x (by simp [hx])
    simp only [leVal, List.length_cons, pow_succ]
    calc b + 256 * leVal rest < 256 + 256 * leVal rest := by omega
      _ = 256 * (leVal rest + 1) := by ring
      _ ≤ 256 * 256 ^ rest.length := by
          have : leVal rest + 1 ≤ 256 ^ rest.length := hr
          exact Nat.mul_le_mul_left 256 this
      _ = 256 ^ rest.length * 256 := by ring

theorem wLE_leVal {bs : List Nat} (h : ∀ b ∈ bs, b < 256) :
    wLE bs.length (leVal bs) = bs := by
  induction bs with
  | nil => simp [wLE]
  | cons b rest ih =>
    have hb : b < 256 := h b (by simp)
    simp only [List.length_cons, wLE, leVal]
    have hmod : (b + 256 * leVal rest) % 256 = b := by omega
    have hdiv : (b + 256 * leVal rest) / 256 = leVal rest := by omega
    rw [hmod, hdiv, ih fun x hx => h x (by simp [hx])]

theorem wLE_mod (k n : Nat) : wLE k (n % 256 ^ k) = wLE k n := by
  induction k generalizing n with
  | zero => simp [wLE]
  | succ k ih =>
    simp only [wLE]
    have h256 : (256 : Nat) ^ (k + 1) = 256 * 256 ^ k := by ring
    have hmod : n % 256 ^ (k + 1) % 256 = n % 256 := by
      rw [h256, Nat.mod_mod_of_dvd n (Dvd.intro _ rfl)]
    have hdiv : wLE k (n % 256 ^ (k + 1) / 256) = wLE k (n / 256) := by
      rw [h256, Nat.mod_mul_right_div_self, ih]
    rw [hmod, hdiv]

theorem wLE_congr {k a b : Nat} (h : a % 256 ^ k = b % 256 ^ k) :
    wLE k a = wLE k b := by
  rw [← wLE_mod k a, h, wLE_mod]

/-! ### Specifications of the primitive readers -/

theorem readBytes_ok {data : List Nat} {pos n : Nat} {bs : List Nat} {p : Nat}
    (h : readBytes data pos n = .ok (bs, p)) :
    p = pos + n ∧ pos + n ≤ data.length ∧ bs = slice data pos (pos + n) := by
  unfold readBytes at h
  split at h
  · simp only [Except.ok.injEq, Prod.mk.injEq] at h
    exact ⟨h.2.symm, by assumption, h.1.symm⟩
  · simp at h

theorem readBytes_length {data : List Nat} {pos n : Nat} {bs : List Nat} {p : Nat}
    (h : readBytes data pos n = .ok (bs, p)) : bs.length = n := by
  obtain ⟨hp, hle, hbs⟩ := readBytes_ok h
  rw [hbs, slice_len hle (by omega)]
  omega

theorem readUInt_ok {k : Nat} {data : List Nat} {pos : Nat} {v p : Nat}
    (hB : Bytes data) (h : readUInt k data pos = .ok (v, p)) :
    p = pos + k ∧ pos + k ≤ data.length ∧ wLE k v = slice data pos (pos + k) ∧
      v < 256 ^ k := by
  unfold readUInt at h
  cases hb : readBytes data pos k with
  | error e => rw [hb] at h; cases h
  | ok r =>
    obtain ⟨bs, p2⟩ := r
    rw [hb] at h
    simp only [Except.ok.injEq, Prod.mk.injEq] at h
    obtain ⟨hv, hp⟩ := h
    obtain ⟨hp2, hle, hbs⟩ := readBytes_ok hb
    have hlen : bs.length = k := readBytes_length hb
    have hmem : ∀ b ∈ bs, b < 256 := by
      intro b hbmem
      exact hB b (by rw [hbs] at hbmem; exact mem_slice hbmem)
    refine ⟨by omega, hle, ?_, ?_⟩
    · have hw := wLE_leVal hmem
      rw [hlen] at hw
      rw [← hv, hw, hbs]
    · have hlt := leVal_lt hmem
      rw [hlen] at hlt
      rw [← hv]
      exact hlt

theorem takeUntilZero_spec :
    ∀ {l bs : List Nat}, takeUntilZero l = some bs →
      0 ∉ bs ∧ l.take (bs.length + 1) = bs ++ [0] ∧ bs.length + 1 ≤ l.length := by
  intro l
  induction l with
  | nil => intro bs h; simp [takeUntilZero] at h
  | cons b rest ih =>
    intro bs h
    match b, h with
    | 0, h =>
      simp only [takeUntilZero, Option.some.injEq] at h
      subst h
      simp
    | (b + 1), h =>
      simp only [takeUntilZero] at h
      cases hr : takeUntilZero rest with
      | none => rw [hr] at h; cases h
      | some bs2 =>
        rw [hr] at h
        simp only [Option.some.injEq] at h
        subst h
        obtain ⟨hnz, htake, hlen⟩ := ih hr
        refine ⟨by simp [hnz], ?_, by simp; omega⟩
        simp only [List.length_cons, List.take_succ_cons, htake, List.cons_append]

theorem readNull_ok {data : List Nat} {pos : Nat} {bs : List Nat} {p : Nat}
    (h : readNull data pos = .ok (bs, p)) :
    p = pos + bs.length + 1 ∧ p ≤ data.length ∧
      slice data pos p = bs ++ [0] ∧ 0 ∉ bs := by
  unfold readNull at h
  cases ht : takeUntilZero (data.drop pos) with
  | none => rw [ht] at h; cases h
  | some bs2 =>
    rw [ht] at h
    simp only [Except.ok.injEq, Prod.mk.injEq] at h
    obtain ⟨hbs, hp⟩ := h
    obtain ⟨hnz, htake, hlen⟩ := takeUntilZero_spec ht
    rw [hbs] at hnz htake hlen
    rw [hbs] at hp
    rw [List.length_drop] at hlen
    refine ⟨hp.symm, by omega, ?_, hnz⟩
    rw [← hp]
    unfold slice
    have heq : pos + bs.length + 1 - pos = bs.length + 1 := by omega
    rw [heq, htake]

theorem readFString_ok {data : List Nat} {pos : Nat} {s : List Nat} {p : Nat}
    (hB : Bytes data) (h : readFString true data pos = .ok (s, p)) :
    readFString false data pos = .ok (s, p) ∧
      p = pos + s.length + 5 ∧ p ≤ data.length ∧
      writeFString s = slice data pos p ∧ 0 ∉ s := by
  unfold readFString at h ⊢
  cases hu : readUInt 4 data pos with
  | error e => rw [hu] at h; simp at h
  | ok r1 =>
    obtain ⟨size, p1⟩ := r1
    rw [hu] at h
    dsimp only at h
    cases hn : readNull data p1 with
    | error e => rw [hn] at h; simp at h
    | ok r2 =>
      obtain ⟨bs, p2⟩ := r2
      rw [hn] at h
      dsimp only at h
      split at h
      case isFalse => simp at h
      case isTrue hassert =>
        split at h
        case isTrue => simp at h
        case isFalse hstrict =>
          simp only [Except.ok.injEq, Prod.mk.injEq] at h
          obtain ⟨hs, hp⟩ := h
          have hsbs : utf8Lossy bs = bs := by
            by_contra hne
            exact hstrict ⟨rfl, hne⟩
          have hsval : s = bs := by rw [← hs, hsbs]
          subst hsval
          obtain ⟨hp1, hle1, hw, hsize⟩ := readUInt_ok hB hu
          obtain ⟨hp2, hle2, hslice, hnz⟩ := readNull_ok hn
          rw [hsbs] at hassert
          have hsz2 : size < 4294967296 := by
            have h2 : (256 : Nat) ^ 4 = 4294967296 := by norm_num
            rw [h2] at hsize
            exact hsize
          have hcong : (s.length + 1) % 256 ^ 4 = size % 256 ^ 4 := by
            have h2 : (256 : Nat) ^ 4 = 4294967296 := by norm_num
            rw [h2]
            omega
          refine ⟨?_, by omega, by omega, ?_, hnz⟩
          · dsimp only
            rw [hn]
            dsimp only
            rw [hsbs]
            rw [if_pos hassert]
            have hneg : ¬(false = true ∧ s ≠ s) := by simp
            rw [if_neg hneg, hp]
          · unfold writeFString
            rw [wLE_congr hcong, hw]
            rw [slice_split data (show pos ≤ p1 by omega) (show p1 ≤ p by omega)]
            rw [show pos + 4 = p1 by omega, ← hp, hslice]
            rw [← List.append_assoc]

/-! ### Writer lengths equal the size functions -/

theorem cat_length (f : α → List Nat) (l : List α) :
    (cat f l).length = (l.map fun x => (f x).length).sum := by
  induction l with
  | nil => simp [cat]
  | cons x xs ih => simp [cat, ih]

theorem writeFString_length (s : List Nat) : (writeFString s).length = byteSize s := by
  simp [writeFString, wLE_length, byteSize]
  omega

theorem writeTag_length (t : TypeTag) : (writeTag t).length = t.size := by
  simp [writeTag, wLE_length, writeFString_length, TypeTag.size]

theorem writeTags_length (tags : List TypeTag) :
    (writeTags tags).length = (tags.map TypeTag.size).sum + 4 := by
  simp only [writeTags, List.length_append, cat_length, wLE_length]
  congr 1
  apply congrArg
  apply List.map_congr_left
  intro t _
  exact writeTag_length t

theorem writeUObject_length (o : UObject) : (writeUObject o).length = o.size := by
  cases o <;> simp [writeUObject, UObject.size, wLE_length]

theorem writeTextData_length (td : TextData) : (writeTextData td).length = td.size := by
  cases td with
  | noneText values =>
    simp only [writeTextData, TextData.size, List.length_cons, List.length_append,
      wLE_length, cat_length]
    have : (values.map fun x => (writeFString x).length).sum =
        (values.map byteSize).sum := by
      apply congrArg
      apply List.map_congr_left
      intro s _
      exact writeFString_length s
    omega
  | base ns key sourceString =>
    simp [writeTextData, TextData.size, writeFString_length]
    omega
  | asDateTime ticks dateStyle timeStyle timeZone cultureName =>
    simp [writeTextData, TextData.size, writeFString_length, wLE_length]
    omega
  | stringTableEntry table key =>
    simp [writeTextData, TextData.size, writeFString_length]
    omega

mutual

theorem writePropertyType_length : ∀ t : PropertyType, (writePropertyType t).length = t.size
  | .mk name tags inner => by
    simp only [writePropertyType, PropertyType.size, List.length_append,
      writeFString_length, writeTags_length, writeTypeList_length inner]
    omega

theorem writeTypeList_length : ∀ ts : List PropertyType,
    (writeTypeList ts).length = sizeTypeList ts
  | [] => by simp [writeTypeList, sizeTypeList]
  | t :: ts => by
    simp only [writeTypeList, sizeTypeList, List.length_append,
      writePropertyType_length t, writeTypeList_length ts]

end

mutual

theorem writeValue_length : ∀ v : PropertyValue, (writeValue v).length = v.size
  | .strProperty s => by simp [writeValue, PropertyValue.size, writeFString_length]
  | .boolProperty none => by simp [writeValue, PropertyValue.size]
  | .boolProperty (some b) => by simp [writeValue, PropertyValue.size]
  | .byteProperty b => by simp [writeValue, PropertyValue.size, wLE_length]
  | .intProperty n => by simp [writeValue, PropertyValue.size, wLE_length]
  | .floatProperty n => by simp [writeValue, PropertyValue.size, wLE_length]
  | .doubleProperty n => by simp [writeValue, PropertyValue.size, wLE_length]
  | .textProperty flags data => by
    simp [writeValue, PropertyValue.size, wLE_length, writeTextData_length]
  | .enumProperty s => by simp [writeValue, PropertyValue.size, writeFString_length]
  | .nameProperty s => by simp [writeValue, PropertyValue.size, writeFString_length]
  | .objectProperty s => by simp [writeValue, PropertyValue.size, writeFString_length]
  | .structProperty props => by
    simp [writeValue, PropertyValue.size, writeProps_length props]
  | .customStructProperty cs => by
    simp [writeValue, PropertyValue.size, writeCustomStruct_length cs]
  | .coreUObjectStructProperty obj => by
    simp [writeValue, PropertyValue.size, writeUObject_length]
  | .arrayProperty values => by
    simp only [writeValue, PropertyValue.size, List.length_append, wLE_length,
      writeValues_length values]
  | .mapProperty rc values => by
    simp only [writeValue, PropertyValue.size, List.length_append, wLE_length,
      writePairs_length values]
  | .unknownProperty bytes => by simp [writeValue, PropertyValue.size]

theorem writeValues_length : ∀ vs : List PropertyValue,
    (writeValues vs).length = sizeValues vs
  | [] => by simp [writeValues, sizeValues]
  | v :: vs => by
    simp only [writeValues, sizeValues, List.length_append,
      writeValue_length v, writeValues_length vs]

theorem writePairs_length : ∀ vs : List (PropertyValue × PropertyValue),
    (writePairs vs).length = sizePairs vs
  | [] => by simp [writePairs, sizePairs]
  | (k, v) :: vs => by
    simp only [writePairs, sizePairs, List.length_append,
      writeValue_length k, writeValue_length v, writePairs_length vs]

theorem writeProps_length : ∀ ps : List Property,
    (writeProps ps).length = sizeProps ps
  | [] => by simp [writeProps, sizeProps]
  | p :: ps => by
    simp only [writeProps, sizeProps, List.length_append,
      writeProperty_length p, writeProps_length ps]

theorem writeProperty_length : ∀ p : Property, (writeProperty p).length = p.size
  | .mk name body => by
    cases body with
    | none => simp [writeProperty, Property.size, writeFString_length]
    | some b =>
      simp only [writeProperty, Property.size, List.length_append,
        writeFString_length, writeBody_length b]

theorem writeBody_length : ∀ b : PropertyBody, (writeBody b).length = b.size
  | .mk t flags v => by
    simp only [writeBody, PropertyBody.size, List.length_append, wLE_length,
      writePropertyType_length t, writeValue_length v]

theorem writeCustomStruct_length : ∀ cs : CustomStruct,
    (writeCustomStruct cs).length = cs.size
  | .mk flags props extra => by
    simp only [writeCustomStruct, CustomStruct.size, List.length_append, wLE_length,
      writeProps_length props]

end

/-! ### Specifications of the non-recursive composite readers -/

theorem sliceGlue {data : List Nat} {a b c : Nat} {x y : List Nat}
    (h1 : a ≤ b) (h2 : b ≤ c) (hx : x = slice data a b) (hy : y = slice data b c) :
    x ++ y = slice data a c := by
  rw [hx, hy, ← slice_split data h1 h2]

theorem readFStringsCount_ok :
    ∀ {count : Nat} {data : List Nat} {pos : Nat} {ss : List (List Nat)} {p : Nat},
      Bytes data → pos ≤ data.length →
      readFStringsCount true data count pos = .ok (ss, p) →
      readFStringsCount false data count pos = .ok (ss, p) ∧
        pos ≤ p ∧ p ≤ data.length ∧ cat writeFString ss = slice data pos p ∧
        ss.length = count := by
  intro count
  induction count with
  | zero =>
    intro data pos ss p hB hpos h
    unfold readFStringsCount at h ⊢
    simp only [Except.ok.injEq, Prod.mk.injEq] at h
    obtain ⟨hss, hp⟩ := h
    subst hss; subst hp
    simp [cat, slice_refl]
    omega
  | succ count ih =>
    intro data pos ss p hB hpos h
    unfold readFStringsCount at h ⊢
    cases hf : readFString true data pos with
    | error e => rw [hf] at h; simp at h
    | ok r1 =>
      obtain ⟨s, p1⟩ := r1
      rw [hf] at h
      dsimp only at h
      cases hrest : readFStringsCount true data count p1 with
      | error e => rw [hrest] at h; simp at h
      | ok r2 =>
        obtain ⟨ss2, p2⟩ := r2
        rw [hrest] at h
        simp only [Except.ok.injEq, Prod.mk.injEq] at h
        obtain ⟨hss, hp⟩ := h
        obtain ⟨hlax, hp1, hle1, hw, hnz⟩ := readFString_ok hB hf
        obtain ⟨hlax2, hple, hle2, hcatw, hlen⟩ := ih hB hle1 hrest
        subst hss; subst hp
        refine ⟨?_, by omega, hle2, ?_, by simp [hlen]⟩
        · rw [hlax]
          dsimp only
          rw [hlax2]
        · show writeFString s ++ cat writeFString ss2 = slice data pos p2
          exact sliceGlue (by omega) (by omega) hw hcatw

theorem readTextData_ok {data : List Nat} {pos : Nat} {td : TextData} {p : Nat}
    (hB : Bytes data) (h : readTextData true data pos = .ok (td, p)) :
    readTextData false data pos = .ok (td, p) ∧
      pos ≤ p ∧ p ≤ data.length ∧ writeTextData td = slice data pos p := by
  unfold readTextData at h ⊢
  cases hm : readUInt 1 data pos with
  | error e => rw [hm] at h; simp at h
  | ok r0 =>
    obtain ⟨magic, p1⟩ := r0
    rw [hm] at h
    dsimp only at h
    obtain ⟨hp1, hle1, hwm, hmlt⟩ := readUInt_ok hB hm
    split at h
    · -- magic = 0xFF : the None variant
      rename_i hmagic
      subst hmagic
      cases hc : readUInt 4 data p1 with
      | error e => rw [hc] at h; simp at h
      | ok r1 =>
        obtain ⟨count, p2⟩ := r1
        rw [hc] at h
        dsimp only at h
        cases hv : readFStringsCount true data count p2 with
        | error e => rw [hv] at h; simp at h
        | ok r2 =>
          obtain ⟨values, p3⟩ := r2
          rw [hv] at h
          simp only [Except.ok.injEq, Prod.mk.injEq] at h
          obtain ⟨htd, hp⟩ := h
          subst htd; subst hp
          obtain ⟨hp2, hle2, hwc, hclt⟩ := readUInt_ok hB hc
          obtain ⟨hlaxv, hpv, hlev, hwv, hlenv⟩ :=
            readFStringsCount_ok hB (by omega) hv
          refine ⟨?_, by omega, hlev, ?_⟩
          · dsimp only
            rw [if_pos rfl, hc]
            dsimp only
            rw [hlaxv]
          · show 255 :: (wLE 4 values.length ++ cat writeFString values) =
              slice data pos p3
            have hw255 : [(255 : Nat)] = slice data pos p1 := by
              have : wLE 1 255 = [255] := by norm_num [wLE]
              rw [← this, hwm, hp1]
            have hwcount : wLE 4 values.length = slice data p1 p2 := by
              rw [hlenv, hp2]
              exact hwc
            have hrest := sliceGlue (b := p2) (by omega) (by omega) hwcount hwv
            have hall := sliceGlue (b := p1) (by omega) (by omega) hw255 hrest
            rw [← hall]
            rfl
    · split at h
      · -- magic = 0 : the Base variant
        rename_i hmagic0
        cases hf1 : readFString true data p1 with
        | error e => rw [hf1] at h; simp at h
        | ok r1 =>
          obtain ⟨ns, p2⟩ := r1
          rw [hf1] at h
          dsimp only at h
          cases hf2 : readFString true data p2 with
          | error e => rw [hf2] at h; simp at h
          | ok r2 =>
            obtain ⟨key, p3⟩ := r2
            rw [hf2] at h
            dsimp only at h
            cases hf3 : readFString true data p3 with
            | error e => rw [hf3] at h; simp at h
            | ok r3 =>
              obtain ⟨src, p4⟩ := r3
              rw [hf3] at h
              simp only [Except.ok.injEq, Prod.mk.injEq] at h
              obtain ⟨htd, hp⟩ := h
              subst htd; subst hp
              obtain ⟨hl1, hq1, hb1, hw1, _⟩ := readFString_ok hB hf1
              obtain ⟨hl2, hq2, hb2, hw2, _⟩ := readFString_ok hB hf2
              obtain ⟨hl3, hq3, hb3, hw3, _⟩ := readFString_ok hB hf3
              subst hmagic0
              refine ⟨?_, by omega, by omega, ?_⟩
              · dsimp only
                rw [if_neg (by norm_num), if_pos rfl, hl1]
                dsimp only
                rw [hl2]
                dsimp only
                rw [hl3]
              · show 0 :: (writeFString ns ++ writeFString key ++ writeFString src) =
                  slice data pos p4
                have hw0 : [(0 : Nat)] = slice data pos p1 := by
                  have : wLE 1 0 = [0] := by norm_num [wLE]
                  rw [← this, hwm, hp1]
                have h12 := sliceGlue (b := p2) (by omega) (by omega) hw1 hw2
                have h123 := sliceGlue (b := p3) (by omega) (by omega) h12 hw3
                have hall := sliceGlue (b := p1) (by omega) (by omega) hw0 h123
                rw [← hall]
                rfl
      · split at h
        · -- magic = 9 : AsDateTime
          rename_i hmagic9
          cases ht : readUInt 8 data p1 with
          | error e => rw [ht] at h; simp at h
          | ok r1 =>
            obtain ⟨ticks, p2⟩ := r1
            rw [ht] at h
            dsimp only at h
            cases hd : readUInt 1 data p2 with
            | error e => rw [hd] at h; simp at h
            | ok r2 =>
              obtain ⟨ds, p3⟩ := r2
              rw [hd] at h
              dsimp only at h
              cases hts : readUInt 1 data p3 with
              | error e => rw [hts] at h; simp at h
              | ok r3 =>
                obtain ⟨ts, p4⟩ := r3
                rw [hts] at h
                dsimp only at h
                cases hf1 : readFString true data p4 with
                | error e => rw [hf1] at h; simp at h
                | ok r4 =>
                  obtain ⟨tz, p5⟩ := r4
                  rw [hf1] at h
                  dsimp only at h
                  cases hf2 : readFString true data p5 with
                  | error e => rw [hf2] at h; simp at h
                  | ok r5 =>
                    obtain ⟨cn, p6⟩ := r5
                    rw [hf2] at h
                    simp only [Except.ok.injEq, Prod.mk.injEq] at h
                    obtain ⟨htd, hp⟩ := h
                    subst htd; subst hp
                    obtain ⟨hpt, hlt, hwt, _⟩ := readUInt_ok hB ht
                    obtain ⟨hpd, hld, hwd, _⟩ := readUInt_ok hB hd
                    obtain ⟨hpts, hlts, hwts, _⟩ := readUInt_ok hB hts
                    obtain ⟨hl1, hq1, hb1, hw1, _⟩ := readFString_ok hB hf1
                    obtain ⟨hl2, hq2, hb2, hw2, _⟩ := readFString_ok hB hf2
                    subst hmagic9
                    refine ⟨?_, by omega, by omega, ?_⟩
                    · dsimp only
                      rw [if_neg (by norm_num), if_neg (by norm_num),
                        if_pos rfl, ht]
                      dsimp only
                      rw [hd]
                      dsimp only
                      rw [hts]
                      dsimp only
                      rw [hl1]
                      dsimp only
                      rw [hl2]
                    · show 9 :: (wLE 8 ticks ++ wLE 1 ds ++ wLE 1 ts ++
                        writeFString tz ++ writeFString cn) = slice data pos p6
                      have hw9 : [(9 : Nat)] = slice data pos p1 := by
                        have : wLE 1 9 = [9] := by norm_num [wLE]
                        rw [← this, hwm, hp1]
                      rw [← hpt] at hwt
                      rw [← hpd] at hwd
                      rw [← hpts] at hwts
                      have g1 := sliceGlue (b := p2) (by omega) (by omega) hwt hwd
                      have g2 := sliceGlue (b := p3) (by omega) (by omega) g1 hwts
                      have g3 := sliceGlue (b := p4) (by omega) (by omega) g2 hw1
                      have g4 := sliceGlue (b := p5) (by omega) (by omega) g3 hw2
                      have hall := sliceGlue (b := p1) (by omega) (by omega) hw9 g4
                      rw [← hall]
                      rfl
        · split at h
          · -- magic = 11 : StringTableEntry
            rename_i hmagic11
            cases hf1 : readFString true data p1 with
            | error e => rw [hf1] at h; simp at h
            | ok r1 =>
              obtain ⟨table, p2⟩ := r1
              rw [hf1] at h
              dsimp only at h
              cases hf2 : readFString true data p2 with
              | error e => rw [hf2] at h; simp at h
              | ok r2 =>
                obtain ⟨key, p3⟩ := r2
                rw [hf2] at h
                simp only [Except.ok.injEq, Prod.mk.injEq] at h
                obtain ⟨htd, hp⟩ := h
                subst htd; subst hp
                obtain ⟨hl1, hq1, hb1, hw1, _⟩ := readFString_ok hB hf1
                obtain ⟨hl2, hq2, hb2, hw2, _⟩ := readFString_ok hB hf2
                subst hmagic11
                refine ⟨?_, by omega, by omega, ?_⟩
                · dsimp only
                  rw [if_neg (by norm_num), if_neg (by norm_num),
                    if_neg (by norm_num), if_pos rfl, hl1]
                  dsimp only
                  rw [hl2]
                · show 11 :: (writeFString table ++ writeFString key) =
                    slice data pos p3
                  have hw11 : [(11 : Nat)] = slice data pos p1 := by
                    have : wLE 1 11 = [11] := by norm_num [wLE]
                    rw [← this, hwm, hp1]
                  have h12 := sliceGlue (b := p2) (by omega) (by omega) hw1 hw2
                  have hall := sliceGlue (b := p1) (by omega) (by omega) hw11 h12
                  rw [← hall]
                  rfl
          · simp at h

theorem tryReadUObject_some {tn data : List Nat} {pos : Nat} {o : UObject} {p : Nat}
    (hB : Bytes data) (h : tryReadUObject tn data pos = .ok (some o, p)) :
    pos ≤ p ∧ p ≤ data.length ∧ writeUObject o = slice data pos p := by
  unfold tryReadUObject at h
  split at h
  · cases ht : readUInt 8 data pos with
    | error e => rw [ht] at h; simp at h
    | ok r =>
      obtain ⟨t, p1⟩ := r
      rw [ht] at h
      simp only [Except.ok.injEq, Prod.mk.injEq, Option.some.injEq] at h
      obtain ⟨ho, hp⟩ := h
      subst ho; subst hp
      obtain ⟨hp1, hle, hw, _⟩ := readUInt_ok hB ht
      rw [← hp1] at hw
      exact ⟨by omega, by omega, hw⟩
  · split at h
    · cases ht : readUInt 8 data pos with
      | error e => rw [ht] at h; simp at h
      | ok r =>
        obtain ⟨t, p1⟩ := r
        rw [ht] at h
        simp only [Except.ok.injEq, Prod.mk.injEq, Option.some.injEq] at h
        obtain ⟨ho, hp⟩ := h
        subst ho; subst hp
        obtain ⟨hp1, hle, hw, _⟩ := readUInt_ok hB ht
        rw [← hp1] at hw
        exact ⟨by omega, by omega, hw⟩
    · split at h
      · -- Vector
        cases hx : readUInt 8 data pos with
        | error e => rw [hx] at h; simp at h
        | ok r1 =>
          obtain ⟨x, p1⟩ := r1
          rw [hx] at h
          dsimp only at h
          cases hy : readUInt 8 data p1 with
          | error e => rw [hy] at h; simp at h
          | ok r2 =>
            obtain ⟨y, p2⟩ := r2
            rw [hy] at h
            dsimp only at h
            cases hz : readUInt 8 data p2 with
            | error e => rw [hz] at h; simp at h
            | ok r3 =>
              obtain ⟨z, p3⟩ := r3
              rw [hz] at h
              simp only [Except.ok.injEq, Prod.mk.injEq, Option.some.injEq] at h
              obtain ⟨ho, hp⟩ := h
              subst ho; subst hp
              obtain ⟨hq1, hl1, hw1, _⟩ := readUInt_ok hB hx
              obtain ⟨hq2, hl2, hw2, _⟩ := readUInt_ok hB hy
              obtain ⟨hq3, hl3, hw3, _⟩ := readUInt_ok hB hz
              rw [← hq1] at hw1
              rw [← hq2] at hw2
              rw [← hq3] at hw3
              refine ⟨by omega, by omega, ?_⟩
              show wLE 8 x ++ wLE 8 y ++ wLE 8 z = slice data pos p3
              have g1 := sliceGlue (b := p1) (by omega) (by omega) hw1 hw2
              exact sliceGlue (b := p2) (by omega) (by omega) g1 hw3
      · split at h
        · -- Quat
          cases hx : readUInt 8 data pos with
          | error e => rw [hx] at h; simp at h
          | ok r1 =>
            obtain ⟨x, p1⟩ := r1
            rw [hx] at h
            dsimp only at h
            cases hy : readUInt 8 data p1 with
            | error e => rw [hy] at h; simp at h
            | ok r2 =>
              obtain ⟨y, p2⟩ := r2
              rw [hy] at h
              dsimp only at h
              cases hz : readUInt 8 data p2 with
              | error e => rw [hz] at h; simp at h
              | ok r3 =>
                obtain ⟨z, p3⟩ := r3
                rw [hz] at h
                dsimp only at h
                cases hw4 : readUInt 8 data p3 with
                | error e => rw [hw4] at h; simp at h
                | ok r4 =>
                  obtain ⟨w, p4⟩ := r4
                  rw [hw4] at h
                  simp only [Except.ok.injEq, Prod.mk.injEq, Option.some.injEq] at h
                  obtain ⟨ho, hp⟩ := h
                  subst ho; subst hp
                  obtain ⟨hq1, hl1, hw1, _⟩ := readUInt_ok hB hx
                  obtain ⟨hq2, hl2, hw2, _⟩ := readUInt_ok hB hy
                  obtain ⟨hq3, hl3, hw3, _⟩ := readUInt_ok hB hz
                  obtain ⟨hq4, hl4, hwq, _⟩ := readUInt_ok hB hw4
                  rw [← hq1] at hw1
                  rw [← hq2] at hw2
                  rw [← hq3] at hw3
                  rw [← hq4] at hwq
                  refine ⟨by omega, by omega, ?_⟩
                  show wLE 8 x ++ wLE 8 y ++ wLE 8 z ++ wLE 8 w = slice data pos p4
                  have g1 := sliceGlue (b := p1) (by omega) (by omega) hw1 hw2
                  have g2 := sliceGlue (b := p2) (by omega) (by omega) g1 hw3
                  exact sliceGlue (b := p3) (by omega) (by omega) g2 hwq
        · split at h
          · -- LinearColor
            cases hx : readUInt 4 data pos with
            | error e => rw [hx] at h; simp at h
            | ok r1 =>
              obtain ⟨r, p1⟩ := r1
              rw [hx] at h
              dsimp only at h
              cases hy : readUInt 4 data p1 with
              | error e => rw [hy] at h; simp at h
              | ok r2 =>
                obtain ⟨g, p2⟩ := r2
                rw [hy] at h
                dsimp only at h
                cases hz : readUInt 4 data p2 with
                | error e => rw [hz] at h; simp at h
                | ok r3 =>
                  obtain ⟨b, p3⟩ := r3
                  rw [hz] at h
                  dsimp only at h
                  cases ha : readUInt 4 data p3 with
                  | error e => rw [ha] at h; simp at h
                  | ok r4 =>
                    obtain ⟨a, p4⟩ := r4
                    rw [ha] at h
                    simp only [Except.ok.injEq, Prod.mk.injEq, Option.some.injEq] at h
                    obtain ⟨ho, hp⟩ := h
                    subst ho; subst hp
                    obtain ⟨hq1, hl1, hw1, _⟩ := readUInt_ok hB hx
                    obtain ⟨hq2, hl2, hw2, _⟩ := readUInt_ok hB hy
                    obtain ⟨hq3, hl3, hw3, _⟩ := readUInt_ok hB hz
                    obtain ⟨hq4, hl4, hwa, _⟩ := readUInt_ok hB ha
                    rw [← hq1] at hw1
                    rw [← hq2] at hw2
                    rw [← hq3] at hw3
                    rw [← hq4] at hwa
                    refine ⟨by omega, by omega, ?_⟩
                    show wLE 4 r ++ wLE 4 g ++ wLE 4 b ++ wLE 4 a =
                      slice data pos p4
                    have g1 := sliceGlue (b := p1) (by omega) (by omega) hw1 hw2
                    have g2 := sliceGlue (b := p2) (by omega) (by omega) g1 hw3
                    exact sliceGlue (b := p3) (by omega) (by omega) g2 hwa
          · simp only [Except.ok.injEq, Prod.mk.injEq] at h
            exact absurd h.1 (by simp)

theorem tryReadUObject_none {tn data : List Nat} {pos : Nat} {p : Nat}
    (h : tryReadUObject tn data pos = .ok (none, p)) : p = pos := by
  unfold tryReadUObject at h
  split at h
  · cases ht : readUInt 8 data pos with
    | error e => rw [ht] at h; simp at h
    | ok r => obtain ⟨t, p1⟩ := r; rw [ht] at h; simp at h
  · split at h
    · cases ht : readUInt 8 data pos with
      | error e => rw [ht] at h; simp at h
      | ok r => obtain ⟨t, p1⟩ := r; rw [ht] at h; simp at h
    · split at h
      · cases hx : readUInt 8 data pos with
        | error e => rw [hx] at h; simp at h
        | ok r1 =>
          obtain ⟨x, p1⟩ := r1
          rw [hx] at h
          dsimp only at h
          cases hy : readUInt 8 data p1 with
          | error e => rw [hy] at h; simp at h
          | ok r2 =>
            obtain ⟨y, p2⟩ := r2
            rw [hy] at h
            dsimp only at h
            cases hz : readUInt 8 data p2 with
            | error e => rw [hz] at h; simp at h
            | ok r3 => obtain ⟨z, p3⟩ := r3; rw [hz] at h; simp at h
      · split at h
        · cases hx : readUInt 8 data pos with
          | error e => rw [hx] at h; simp at h
          | ok r1 =>
            obtain ⟨x, p1⟩ := r1
            rw [hx] at h
            dsimp only at h
            cases hy : readUInt 8 data p1 with
            | error e => rw [hy] at h; simp at h
            | ok r2 =>
              obtain ⟨y, p2⟩ := r2
              rw [hy] at h
              dsimp only at h
              cases hz : readUInt 8 data p2 with
              | error e => rw [hz] at h; simp at h
              | ok r3 =>
                obtain ⟨z, p3⟩ := r3
                rw [hz] at h
                dsimp only at h
                cases hw : readUInt 8 data p3 with
                | error e => rw [hw] at h; simp at h
                | ok r4 => obtain ⟨w, p4⟩ := r4; rw [hw] at h; simp at h
        · split at h
          · cases hx : readUInt 4 data pos with
            | error e => rw [hx] at h; simp at h
            | ok r1 =>
              obtain ⟨x, p1⟩ := r1
              rw [hx] at h
              dsimp only at h
              cases hy : readUInt 4 data p1 with
              | error e => rw [hy] at h; simp at h
              | ok r2 =>
                obtain ⟨y, p2⟩ := r2
                rw [hy] at h
                dsimp only at h
                cases hz : readUInt 4 data p2 with
                | error e => rw [hz] at h; simp at h
                | ok r3 =>
                  obtain ⟨z, p3⟩ := r3
                  rw [hz] at h
                  dsimp only at h
                  cases ha : readUInt 4 data p3 with
                  | error e => rw [ha] at h; simp at h
                  | ok r4 => obtain ⟨a, p4⟩ := r4; rw [ha] at h; simp at h
          · simp only [Except.ok.injEq, Prod.mk.injEq] at h
            omega

theorem readCFEntries_ok :
    ∀ {count : Nat} {data : List Nat} {pos : Nat} {es : List CustomFormatEntry} {p : Nat},
      Bytes data → pos ≤ data.length →
      readCFEntries data count pos = .ok (es, p) →
      pos ≤ p ∧ p ≤ data.length ∧ cat writeCFEntry es = slice data pos p ∧
        es.length = count := by
  intro count
  induction count with
  | zero =>
    intro data pos es p hB hpos h
    unfold readCFEntries at h
    simp only [Except.ok.injEq, Prod.mk.injEq] at h
    obtain ⟨hes, hp⟩ := h
    subst hes; subst hp
    simp [cat, slice_refl]
    omega
  | succ count ih =>
    intro data pos es p hB hpos h
    unfold readCFEntries at h
    cases hg : readBytes data pos 16 with
    | error e => rw [hg] at h; simp at h
    | ok r1 =>
      obtain ⟨guid, p1⟩ := r1
      rw [hg] at h
      dsimp only at h
      cases hv : readUInt 4 data p1 with
      | error e => rw [hv] at h; simp at h
      | ok r2 =>
        obtain ⟨v, p2⟩ := r2
        rw [hv] at h
        dsimp only at h
        cases hrest : readCFEntries data count p2 with
        | error e => rw [hrest] at h; simp at h
        | ok r3 =>
          obtain ⟨es2, p3⟩ := r3
          rw [hrest] at h
          simp only [Except.ok.injEq, Prod.mk.injEq] at h
          obtain ⟨hes, hp⟩ := h
          subst hes; subst hp
          obtain ⟨hq1, hl1, hguid⟩ := readBytes_ok hg
          obtain ⟨hq2, hl2, hwv, _⟩ := readUInt_ok hB hv
          obtain ⟨hple, hle3, hcatw, hlen⟩ := ih hB (by omega) hrest
          refine ⟨by omega, hle3, ?_, by simp [hlen]⟩
          show (guid ++ wLE 4 v) ++ cat writeCFEntry es2 = slice data pos p3
          have hgs : guid = slice data pos p1 := by rw [hguid, hq1]
          have hvs : wLE 4 v = slice data p1 p2 := by rw [hwv, ← hq2]
          have g1 := sliceGlue (b := p1) (by omega) (by omega) hgs hvs
          exact sliceGlue (b := p2) (by omega) (by omega) g1 hcatw

theorem readCustomFormatData_ok {data : List Nat} {pos : Nat}
    {c : CustomFormatData} {p : Nat} (hB : Bytes data)
    (h : readCustomFormatData data pos = .ok (c, p)) :
    pos ≤ p ∧ p ≤ data.length ∧ writeCustomFormatData c = slice data pos p := by
  unfold readCustomFormatData at h
  cases hv : readUInt 4 data pos with
  | error e => rw [hv] at h; simp at h
  | ok r1 =>
    obtain ⟨version, p1⟩ := r1
    rw [hv] at h
    dsimp only at h
    cases hc : readUInt 4 data p1 with
    | error e => rw [hc] at h; simp at h
    | ok r2 =>
      obtain ⟨count, p2⟩ := r2
      rw [hc] at h
      dsimp only at h
      cases he : readCFEntries data count p2 with
      | error e => rw [he] at h; simp at h
      | ok r3 =>
        obtain ⟨entries, p3⟩ := r3
        rw [he] at h
        simp only [Except.ok.injEq, Prod.mk.injEq] at h
        obtain ⟨hcv, hp⟩ := h
        subst hcv; subst hp
        obtain ⟨hq1, hl1, hw1, _⟩ := readUInt_ok hB hv
        obtain ⟨hq2, hl2, hw2, _⟩ := readUInt_ok hB hc
        obtain ⟨hpe, hle3, hcatw, hlen⟩ := readCFEntries_ok hB (by omega) he
        refine ⟨by omega, hle3, ?_⟩
        show wLE 4 version ++ wLE 4 entries.length ++ cat writeCFEntry entries =
          slice data pos p3
        have hv1 : wLE 4 version = slice data pos p1 := by rw [hw1, ← hq1]
        have hv2 : wLE 4 entries.length = slice data p1 p2 := by
          rw [hlen, hw2, ← hq2]
        have g1 := sliceGlue (b := p1) (by omega) (by omega) hv1 hv2
        exact sliceGlue (b := p2) (by omega) (by omega) g1 hcatw

theorem readEngineVersion_ok {data : List Nat} {pos : Nat}
    {ev : EngineVersion} {p : Nat} (hB : Bytes data)
    (h : readEngineVersion true data pos = .ok (ev, p)) :
    readEngineVersion false data pos = .ok (ev, p) ∧
      pos ≤ p ∧ p ≤ data.length ∧ writeEngineVersion ev = slice data pos p := by
  unfold readEngineVersion at h ⊢
  cases h1 : readUInt 2 data pos with
  | error e => rw [h1] at h; simp at h
  | ok r1 =>
    obtain ⟨major, p1⟩ := r1
    rw [h1] at h
    dsimp only at h
    cases h2 : readUInt 2 data p1 with
    | error e => rw [h2] at h; simp at h
    | ok r2 =>
      obtain ⟨minor, p2⟩ := r2
      rw [h2] at h
      dsimp only at h
      cases h3 : readUInt 2 data p2 with
      | error e => rw [h3] at h; simp at h
      | ok r3 =>
        obtain ⟨patch, p3⟩ := r3
        rw [h3] at h
        dsimp only at h
        cases h4 : readUInt 4 data p3 with
        | error e => rw [h4] at h; simp at h
        | ok r4 =>
          obtain ⟨build, p4⟩ := r4
          rw [h4] at h
          dsimp only at h
          cases h5 : readFString true data p4 with
          | error e => rw [h5] at h; simp at h
          | ok r5 =>
            obtain ⟨buildId, p5⟩ := r5
            rw [h5] at h
            simp only [Except.ok.injEq, Prod.mk.injEq] at h
            obtain ⟨hev, hp⟩ := h
            subst hev; subst hp
            obtain ⟨hq1, hl1, hw1, _⟩ := readUInt_ok hB h1
            obtain ⟨hq2, hl2, hw2, _⟩ := readUInt_ok hB h2
            obtain ⟨hq3, hl3, hw3, _⟩ := readUInt_ok hB h3
            obtain ⟨hq4, hl4, hw4, _⟩ := readUInt_ok hB h4
            obtain ⟨hlax5, hq5, hl5, hw5, _⟩ := readFString_ok hB h5
            refine ⟨?_, by omega, by omega, ?_⟩
            · dsimp only
              rw [h2]
              dsimp only
              rw [h3]
              dsimp only
              rw [h4]
              dsimp only
              rw [hlax5]
            · show wLE 2 major ++ wLE 2 minor ++ wLE 2 patch ++ wLE 4 build ++
                writeFString buildId = slice data pos p5
              rw [← hq1] at hw1
              rw [← hq2] at hw2
              rw [← hq3] at hw3
              rw [← hq4] at hw4
              have g1 := sliceGlue (b := p1) (by omega) (by omega) hw1 hw2
              have g2 := sliceGlue (b := p2) (by omega) (by omega) g1 hw3
              have g3 := sliceGlue (b := p3) (by omega) (by omega) g2 hw4
              exact sliceGlue (b := p4) (by omega) (by omega) g3 hw5

theorem readHeader_ok {data : List Nat} {pos : Nat}
    {hdr : SaveGameHeader} {p : Nat} (hB : Bytes data)
    (h : readHeader true data pos = .ok (hdr, p)) :
    readHeader false data pos = .ok (hdr, p) ∧
      pos ≤ p ∧ p ≤ data.length ∧ writeHeader hdr = slice data pos p := by
  unfold readHeader at h ⊢
  cases hm : readBytes data pos 4 with
  | error e => rw [hm] at h; simp at h
  | ok r0 =>
    obtain ⟨magic, p1⟩ := r0
    rw [hm] at h
    dsimp only at h
    split at h
    · simp at h
    · rename_i hmagic
      have hmagic2 : magic = ascii "GVAS" := by
        by_contra hc
        exact hmagic hc
      cases h1 : readUInt 4 data p1 with
      | error e => rw [h1] at h; simp at h
      | ok r1 =>
        obtain ⟨sgv, p2⟩ := r1
        rw [h1] at h
        dsimp only at h
        cases h2 : readUInt 4 data p2 with
        | error e => rw [h2] at h; simp at h
        | ok r2 =>
          obtain ⟨pv1, p3⟩ := r2
          rw [h2] at h
          dsimp only at h
          cases h3 : readUInt 4 data p3 with
          | error e => rw [h3] at h; simp at h
          | ok r3 =>
            obtain ⟨pv2, p4⟩ := r3
            rw [h3] at h
            dsimp only at h
            cases h4 : readEngineVersion true data p4 with
            | error e => rw [h4] at h; simp at h
            | ok r4 =>
              obtain ⟨ev, p5⟩ := r4
              rw [h4] at h
              simp only [Except.ok.injEq, Prod.mk.injEq] at h
              obtain ⟨hh, hp⟩ := h
              subst hh; subst hp
              obtain ⟨hq0, hl0, hmg⟩ := readBytes_ok hm
              obtain ⟨hq1, hl1, hw1, _⟩ := readUInt_ok hB h1
              obtain ⟨hq2, hl2, hw2, _⟩ := readUInt_ok hB h2
              obtain ⟨hq3, hl3, hw3, _⟩ := readUInt_ok hB h3
              obtain ⟨hlax4, hq4, hl4, hw4⟩ := readEngineVersion_ok hB h4
              refine ⟨?_, by omega, by omega, ?_⟩
              · dsimp only
                rw [if_neg (by rw [hmagic2]; simp), h1]
                dsimp only
                rw [h2]
                dsimp only
                rw [h3]
                dsimp only
                rw [hlax4]
              · show ascii "GVAS" ++ wLE 4 sgv ++ wLE 4 pv1 ++ wLE 4 pv2 ++
                  writeEngineVersion ev = slice data pos p5
                have hg : ascii "GVAS" = slice data pos p1 := by
                  rw [← hmagic2, hmg, hq0]
                rw [← hq1] at hw1
                rw [← hq2] at hw2
                rw [← hq3] at hw3
                have g1 := sliceGlue (b := p1) (by omega) (by omega) hg hw1
                have g2 := sliceGlue (b := p2) (by omega) (by omega) g1 hw2
                have g3 := sliceGlue (b := p3) (by omega) (by omega) g2 hw3
                exact sliceGlue (b := p4) (by omega) (by omega) g3 hw4

/-- Every footer size in the class table is 4 or 8; in particular it is
nonzero. -/
theorem customStructFooterSize_pos {prop : Property} {fs : Nat}
    (h : prop.customStructFooterSize = some fs) : fs = 4 ∨ fs = 8 := by
  unfold Property.customStructFooterSize at h
  split at h
  · split at h
    · split at h
      · obtain ⟨c, hc, hcv⟩ := List.exists_of_findSome?_eq_some h
        have hall : ∀ c ∈ customStructClasses, c.2 = 4 ∨ c.2 = 8 := by decide
        split at hcv
        · cases hcv
          exact hall c hc
        · cases hcv
      · cases h
    · cases h
  · cases h

/-! ### The round-trip statements, by fuel level -/

def RtTagsP (n : Nat) : Prop :=
  ∀ data pos ts p, Bytes data →
    readTags true data pos n = .ok (ts, p) →
    readTags false data pos n = .ok (ts, p) ∧ pos ≤ p ∧ p ≤ data.length ∧
      writeTags ts = slice data pos p

def RtPtypeP (n : Nat) : Prop :=
  ∀ data pos t p, Bytes data →
    readPropertyType true data pos n = .ok (t, p) →
    readPropertyType false data pos n = .ok (t, p) ∧ pos ≤ p ∧ p ≤ data.length ∧
      writePropertyType t = slice data pos p

def RtValueInnerP (n : Nat) : Prop :=
  ∀ data pt flags ds pos v p, Bytes data → pos ≤ data.length →
    readValueInner true data pt flags ds pos n = .ok (v, p) →
    readValueInner false data pt flags ds pos n = .ok (v, p) ∧ pos ≤ p ∧
      p ≤ data.length ∧ writeValue v = slice data pos p

def RtValueP (n : Nat) : Prop :=
  ∀ data pt flags ds pos v p, Bytes data → pos ≤ data.length →
    readValue true data pt flags ds pos n = .ok (v, p) →
    readValue false data pt flags ds pos n = .ok (v, p) ∧ pos ≤ p ∧
      p ≤ data.length ∧ p ≤ pos + ds ∧ writeValue v = slice data pos p

def RtPropP (n : Nat) : Prop :=
  ∀ data pos prop p, Bytes data →
    readProperty true data pos n = .ok (prop, p) →
    readProperty false data pos n = .ok (prop, p) ∧ pos ≤ p ∧ p ≤ data.length ∧
      writeProperty prop = slice data pos p

def RtBodyP (n : Nat) : Prop :=
  ∀ data pos b p, Bytes data →
    readPropertyBody true data pos n = .ok (b, p) →
    readPropertyBody false data pos n = .ok (b, p) ∧ pos ≤ p ∧ p ≤ data.length ∧
      writeBody b = slice data pos p

def RtStreamP (n : Nat) : Prop :=
  ∀ data endP footer pos props p, Bytes data → pos ≤ data.length →
    (∀ fs, footer = some fs → 0 < fs) →
    readStructStream true data endP footer pos n = .ok (props, p) →
    readStructStream false data endP footer pos n = .ok (props, p) ∧ pos ≤ p ∧
      p ≤ data.length ∧ writeProps props = slice data pos p

def RtFooterP (n : Nat) : Prop :=
  ∀ data fs pos props p, Bytes data → pos ≤ data.length → 0 < fs →
    readPropsFooter true data fs pos n = .ok (props, p) →
    readPropsFooter false data fs pos n = .ok (props, p) ∧ pos ≤ p ∧
      p ≤ data.length ∧ writeProps props = slice data pos p ∧
      (data.length - fs ≤ p ∨ fs = 0)

def RtCSP (n : Nat) : Prop :=
  ∀ blob fs cs, Bytes blob → 0 < fs →
    readCustomStruct true blob fs n = .ok cs →
    readCustomStruct false blob fs n = .ok cs ∧
      writeCustomStruct cs = wLE 4 blob.length ++ blob ∧
      cs.size = 4 + blob.length

theorem stepTags {n : Nat} (ih : RtTagsP n) : RtTagsP (n + 1) := by
  intro data pos ts p hB h
  have hun : readTags true data pos (n + 1) = readTagsF (readers n) true data pos := rfl
  rw [hun] at h
  have hgoal : readTags false data pos (n + 1) = readTagsF (readers n) false data pos := rfl
  rw [hgoal]
  unfold readTagsF at h ⊢
  cases hk : readUInt 4 data pos with
  | error e => rw [hk] at h; simp at h
  | ok r1 =>
    obtain ⟨kind, p1⟩ := r1
    rw [hk] at h
    dsimp only at h ⊢
    obtain ⟨hq1, hl1, hwk, _⟩ := readUInt_ok hB hk
    split at h
    · -- terminator
      rename_i hk0
      subst hk0
      simp only [Except.ok.injEq, Prod.mk.injEq] at h
      obtain ⟨hts, hp⟩ := h
      subst hts; subst hp
      rw [if_pos rfl]
      refine ⟨rfl, by omega, by omega, ?_⟩
      show cat writeTag [] ++ wLE 4 0 = slice data pos p1
      rw [show cat writeTag [] = ([] : List Nat) from rfl, List.nil_append, hwk, hq1]
    · rename_i hk0
      cases hv : readFString true data p1 with
      | error e => rw [hv] at h; simp at h
      | ok r2 =>
        obtain ⟨v, p2⟩ := r2
        rw [hv] at h
        dsimp only at h
        cases hrest : (readers n).tags true data p2 with
        | error e => rw [hrest] at h; simp at h
        | ok r3 =>
          obtain ⟨ts2, p3⟩ := r3
          rw [hrest] at h
          simp only [Except.ok.injEq, Prod.mk.injEq] at h
          obtain ⟨hts, hp⟩ := h
          subst hts; subst hp
          obtain ⟨hlaxv, hq2, hl2, hwv, _⟩ := readFString_ok hB hv
          obtain ⟨hlaxr, hq3, hl3, hwr⟩ := ih data p2 ts2 p3 hB hrest
          rw [if_neg hk0, hlaxv]
          dsimp only
          rw [show readTags false data p2 n = (readers n).tags false data p2 from rfl] at hlaxr
          rw [hlaxr]
          refine ⟨rfl, by omega, by omega, ?_⟩
          show cat writeTag (⟨kind, v⟩ :: ts2) ++ wLE 4 0 = slice data pos p3
          have hwt : writeTag ⟨kind, v⟩ = slice data pos p2 := by
            show wLE 4 kind ++ writeFString v = slice data pos p2
            exact sliceGlue (b := p1) (by omega) (by omega) (by rw [hwk, hq1]) hwv
          have hassoc : cat writeTag (⟨kind, v⟩ :: ts2) ++ wLE 4 0 =
              writeTag ⟨kind, v⟩ ++ (cat writeTag ts2 ++ wLE 4 0) := by
            show (writeTag ⟨kind, v⟩ ++ cat writeTag ts2) ++ wLE 4 0 = _
            rw [List.append_assoc]
          rw [hassoc]
          exact sliceGlue (b := p2) (by omega) (by omega) hwt hwr

theorem ptypesCount_rt {n : Nat} (ihP : RtPtypeP n) :
    ∀ {count : Nat} {data : List Nat} {pos : Nat} {ts : List PropertyType} {p : Nat},
      Bytes data → pos ≤ data.length →
      readPTypesCountF (readers n) true data count pos = .ok (ts, p) →
      readPTypesCountF (readers n) false data count pos = .ok (ts, p) ∧
        pos ≤ p ∧ p ≤ data.length ∧ writeTypeList ts = slice data pos p ∧
        ts.length = count := by
  intro count
  induction count with
  | zero =>
    intro data pos ts p hB hpos h
    unfold readPTypesCountF at h ⊢
    simp only [Except.ok.injEq, Prod.mk.injEq] at h
    obtain ⟨hts, hp⟩ := h
    subst hts; subst hp
    simp [writeTypeList, slice_refl]
    omega
  | succ count ih =>
    intro data pos ts p hB hpos h
    unfold readPTypesCountF at h ⊢
    cases ht : (readers n).ptype true data pos with
    | error e => rw [ht] at h; simp at h
    | ok r1 =>
      obtain ⟨t, p1⟩ := r1
      rw [ht] at h
      dsimp only at h
      cases hrest : readPTypesCountF (readers n) true data count p1 with
      | error e => rw [hrest] at h; simp at h
      | ok r2 =>
        obtain ⟨ts2, p2⟩ := r2
        rw [hrest] at h
        simp only [Except.ok.injEq, Prod.mk.injEq] at h
        obtain ⟨hts, hp⟩ := h
        subst hts; subst hp
        obtain ⟨hlaxt, hq1, hl1, hwt⟩ := ihP data pos t p1 hB ht
        obtain ⟨hlaxr, hq2, hl2, hwr, hlen⟩ := ih hB hl1 hrest
        rw [show readPropertyType false data pos n = (readers n).ptype false data pos from rfl] at hlaxt
        rw [hlaxt]
        dsimp only
        rw [hlaxr]
        refine ⟨rfl, by omega, hl2, ?_, by simp [hlen]⟩
        show writePropertyType t ++ writeTypeList ts2 = slice data pos p2
        exact sliceGlue (b := p1) (by omega) (by omega) hwt hwr

theorem stepPtype {n : Nat} (ihP : RtPtypeP n) (hT : RtTagsP (n + 1)) :
    RtPtypeP (n + 1) := by
  intro data pos t p hB h
  have hun : readPropertyType true data pos (n + 1) = readPTypeF (readers n) true data pos := rfl
  rw [hun] at h
  have hgoal : readPropertyType false data pos (n + 1) =
    readPTypeF (readers n) false data pos := rfl
  rw [hgoal]
  unfold readPTypeF at h ⊢
  cases hn : readFString true data pos with
  | error e => rw [hn] at h; simp at h
  | ok r1 =>
    obtain ⟨name, p1⟩ := r1
    rw [hn] at h
    dsimp only at h
    cases ht : readTagsF (readers n) true data p1 with
    | error e => rw [ht] at h; simp at h
    | ok r2 =>
      obtain ⟨tags, p2⟩ := r2
      rw [ht] at h
      dsimp only at h
      cases hi : readPTypesCountF (readers n) true data (numInnerTypes name tags) p2 with
      | error e => rw [hi] at h; simp at h
      | ok r3 =>
        obtain ⟨inner, p3⟩ := r3
        rw [hi] at h
        simp only [Except.ok.injEq, Prod.mk.injEq] at h
        obtain ⟨htv, hp⟩ := h
        subst htv; subst hp
        obtain ⟨hlaxn, hq1, hl1, hwn, _⟩ := readFString_ok hB hn
        have ht2 : readTags true data p1 (n + 1) = .ok (tags, p2) := ht
        obtain ⟨hlaxt, hq2, hl2, hwt⟩ := hT data p1 tags p2 hB ht2
        obtain ⟨hlaxi, hq3, hl3, hwi, hleni⟩ := ptypesCount_rt ihP hB hl2 hi
        rw [hlaxn]
        dsimp only
        rw [show readTagsF (readers n) false data p1 = readTags false data p1 (n+1) from rfl,
          hlaxt]
        dsimp only
        rw [hlaxi]
        refine ⟨rfl, by omega, hl3, ?_⟩
        show writeFString name ++ writeTags tags ++ writeTypeList inner =
          slice data pos p3
        have g1 := sliceGlue (b := p1) (by omega) (by omega) hwn hwt
        exact sliceGlue (b := p2) (by omega) (by omega) g1 hwi

theorem readFString_err {data : List Nat} {pos : Nat} {e : RErr}
    (h : readFString true data pos = .error e) (he : e ≠ .strictCheck) :
    readFString false data pos = .error e := by
  unfold readFString at h ⊢
  cases hu : readUInt 4 data pos with
  | error e2 => rw [hu] at h; dsimp only at h ⊢; exact h
  | ok r1 =>
    obtain ⟨size, p1⟩ := r1
    rw [hu] at h
    dsimp only at h ⊢
    cases hn : readNull data p1 with
    | error e2 => rw [hn] at h; dsimp only at h ⊢; exact h
    | ok r2 =>
      obtain ⟨bs, p2⟩ := r2
      rw [hn] at h
      dsimp only at h ⊢
      split at h
      · split at h
        · simp only [Except.error.injEq] at h
          exact absurd h.symm he
        · cases h
      · rename_i hassert
        rw [if_neg hassert]
        exact h

theorem writeValues_map_name (ss : List (List Nat)) :
    writeValues (ss.map PropertyValue.nameProperty) = cat writeFString ss := by
  induction ss with
  | nil => rfl
  | cons s rest ih =>
    show writeFString s ++ writeValues (rest.map PropertyValue.nameProperty) =
      writeFString s ++ cat writeFString rest
    rw [ih]

theorem arrayElems_rt {n : Nat} (ihV : RtValueP n) :
    ∀ {count : Nat} {data : List Nat} {elemType : PropertyType} {flags endP pos : Nat}
      {vs : List PropertyValue} {p : Nat},
      Bytes data → pos ≤ data.length →
      readArrayElemsF (readers n) true data elemType flags endP count pos = .ok (vs, p) →
      readArrayElemsF (readers n) false data elemType flags endP count pos = .ok (vs, p) ∧
        pos ≤ p ∧ p ≤ data.length ∧ writeValues vs = slice data pos p ∧
        vs.length = count := by
  intro count
  induction count with
  | zero =>
    intro data elemType flags endP pos vs p hB hpos h
    unfold readArrayElemsF at h ⊢
    simp only [Except.ok.injEq, Prod.mk.injEq] at h
    obtain ⟨hvs, hp⟩ := h
    subst hvs; subst hp
    simp [writeValues, slice_refl]
    omega
  | succ count ih =>
    intro data elemType flags endP pos vs p hB hpos h
    unfold readArrayElemsF at h ⊢
    cases hv : (readers n).value true data elemType flags (endP - pos) pos with
    | error e => rw [hv] at h; simp at h
    | ok r1 =>
      obtain ⟨v, p1⟩ := r1
      rw [hv] at h
      dsimp only at h
      cases hrest : readArrayElemsF (readers n) true data elemType flags endP count p1 with
      | error e => rw [hrest] at h; simp at h
      | ok r2 =>
        obtain ⟨vs2, p2⟩ := r2
        rw [hrest] at h
        simp only [Except.ok.injEq, Prod.mk.injEq] at h
        obtain ⟨hvs, hp⟩ := h
        subst hvs; subst hp
        obtain ⟨hlaxv, hq1, hl1, hbd1, hwv⟩ := ihV data elemType flags (endP - pos) pos v p1 hB hpos hv
        obtain ⟨hlaxr, hq2, hl2, hwr, hlen⟩ := ih hB hl1 hrest
        rw [show readValue false data elemType flags (endP - pos) pos n =
          (readers n).value false data elemType flags (endP - pos) pos from rfl] at hlaxv
        rw [hlaxv]
        dsimp only
        rw [hlaxr]
        refine ⟨rfl, by omega, hl2, ?_, by simp [hlen]⟩
        show writeValue v ++ writeValues vs2 = slice data pos p2
        exact sliceGlue (b := p1) (by omega) (by omega) hwv hwr

theorem mapElems_rt {n : Nat} (ihV : RtValueP n) :
    ∀ {count : Nat} {data : List Nat} {keyType valueType : PropertyType}
      {flags endP pos : Nat}
      {vs : List (PropertyValue × PropertyValue)} {p : Nat},
      Bytes data → pos ≤ data.length →
      readMapElemsF (readers n) true data keyType valueType flags endP count pos =
        .ok (vs, p) →
      readMapElemsF (readers n) false data keyType valueType flags endP count pos =
        .ok (vs, p) ∧
        pos ≤ p ∧ p ≤ data.length ∧ writePairs vs = slice data pos p ∧
        vs.length = count := by
  intro count
  induction count with
  | zero =>
    intro data keyType valueType flags endP pos vs p hB hpos h
    unfold readMapElemsF at h ⊢
    simp only [Except.ok.injEq, Prod.mk.injEq] at h
    obtain ⟨hvs, hp⟩ := h
    subst hvs; subst hp
    simp [writePairs, slice_refl]
    omega
  | succ count ih =>
    intro data keyType valueType flags endP pos vs p hB hpos h
    unfold readMapElemsF at h ⊢
    cases hk : (readers n).value true data keyType flags (endP - pos) pos with
    | error e => rw [hk] at h; simp at h
    | ok r1 =>
      obtain ⟨k, p1⟩ := r1
      rw [hk] at h
      dsimp only at h
      cases hv : (readers n).value true data valueType flags (endP - p1) p1 with
      | error e => rw [hv] at h; simp at h
      | ok r2 =>
        obtain ⟨v, p2⟩ := r2
        rw [hv] at h
        dsimp only at h
        cases hrest : readMapElemsF (readers n) true data keyType valueType flags endP count p2 with
        | error e => rw [hrest] at h; simp at h
        | ok r3 =>
          obtain ⟨vs2, p3⟩ := r3
          rw [hrest] at h
          simp only [Except.ok.injEq, Prod.mk.injEq] at h
          obtain ⟨hvs, hp⟩ := h
          subst hvs; subst hp
          obtain ⟨hlaxk, hq1, hl1, hbd1, hwk⟩ :=
            ihV data keyType flags (endP - pos) pos k p1 hB hpos hk
          obtain ⟨hlaxv, hq2, hl2, hbd2, hwv⟩ :=
            ihV data valueType flags (endP - p1) p1 v p2 hB hl1 hv
          obtain ⟨hlaxr, hq3, hl3, hwr, hlen⟩ := ih hB hl2 hrest
          rw [show readValue false data keyType flags (endP - pos) pos n =
            (readers n).value false data keyType flags (endP - pos) pos from rfl] at hlaxk
          rw [show readValue false data valueType flags (endP - p1) p1 n =
            (readers n).value false data valueType flags (endP - p1) p1 from rfl] at hlaxv
          rw [hlaxk]
          dsimp only
          rw [hlaxv]
          dsimp only
          rw [hlaxr]
          refine ⟨rfl, by omega, hl3, ?_, by simp [hlen]⟩
          show (writeValue k ++ writeValue v) ++ writePairs vs2 = slice data pos p3
          have g1 := sliceGlue (b := p1) (by omega) (by omega) hwk hwv
          exact sliceGlue (b := p2) (by omega) (by omega) g1 hwr

theorem arrayCount_map_name (ss : List (List Nat)) :
    arrayCount (ss.map PropertyValue.nameProperty) = ss.length := by
  cases ss with
  | nil => rfl
  | cons s rest =>
    show ((s :: rest).map PropertyValue.nameProperty).length = (s :: rest).length
    simp

theorem stepValueInner {n : Nat} (ihV : RtValueP n) (ihStream : RtStreamP n) :
    RtValueInnerP (n + 1) := by
  intro data pt flags ds pos v p hB hpos h
  have hun : readValueInner true data pt flags ds pos (n + 1) =
    readValueInnerF (readers n) true data pt flags ds pos := rfl
  rw [hun] at h
  have hgoal : readValueInner false data pt flags ds pos (n + 1) =
    readValueInnerF (readers n) false data pt flags ds pos := rfl
  rw [hgoal]
  unfold readValueInnerF at h ⊢
  by_cases hc1 : pt.name = ascii "StrProperty"
  case pos =>
    rw [if_pos hc1] at h ⊢
    cases hf : readFString true data pos with
    | error e => rw [hf] at h; simp at h
    | ok r =>
      obtain ⟨s, p1⟩ := r
      rw [hf] at h
      simp only [Except.ok.injEq, Prod.mk.injEq] at h
      obtain ⟨hv, hp⟩ := h
      subst hv; subst hp
      obtain ⟨hlax, hq, hl, hw, _⟩ := readFString_ok hB hf
      refine ⟨?_, by omega, hl, ?_⟩
      · rw [hlax]
      · exact hw
  case neg =>
    rw [if_neg hc1] at h ⊢
    by_cases hc2 : pt.name = ascii "BoolProperty"
    case pos =>
      rw [if_pos hc2] at h ⊢
      split at h
      case isTrue hds =>
        rw [if_pos hds]
        simp only [Except.ok.injEq, Prod.mk.injEq] at h
        obtain ⟨hv, hp⟩ := h
        subst hv; subst hp
        refine ⟨rfl, le_refl pos, hpos, ?_⟩
        show ([] : List Nat) = slice data pos pos
        rw [slice_refl]
      case isFalse hds =>
        rw [if_neg hds]
        cases hb1 : readUInt 1 data pos with
        | error e => rw [hb1] at h; simp at h
        | ok r =>
          obtain ⟨b, p1⟩ := r
          rw [hb1] at h
          dsimp only at h
          split at h
          case isTrue => simp at h
          case isFalse hstrict =>
            simp only [Except.ok.injEq, Prod.mk.injEq] at h
            obtain ⟨hv, hp⟩ := h
            subst hv; subst hp
            obtain ⟨hq1, hl1, hw1, hblt⟩ := readUInt_ok hB hb1
            have hb256 : b < 256 := by simpa using hblt
            have hb01 : b = 0 ∨ b = 1 := by
              by_contra hc
              exact hstrict ⟨rfl, hc⟩
            have hwv : writeValue (.boolProperty (some (b ≠ 0))) = wLE 1 b := by
              rcases hb01 with hb0 | hb0 <;> subst hb0 <;> rfl
            refine ⟨?_, by omega, by omega, ?_⟩
            · dsimp only
              rw [if_neg (by simp)]
            · rw [hwv, hw1, hq1]
    case neg =>
      rw [if_neg hc2] at h ⊢
      by_cases hc3 : pt.name = ascii "ByteProperty"
      case pos =>
        rw [if_pos hc3] at h ⊢
        split at h
        case isTrue hds =>
          rw [if_pos hds]
          cases hb1 : readUInt 1 data pos with
          | error e => rw [hb1] at h; simp at h
          | ok r =>
            obtain ⟨b, p1⟩ := r
            rw [hb1] at h
            simp only [Except.ok.injEq, Prod.mk.injEq] at h
            obtain ⟨hv, hp⟩ := h
            subst hv; subst hp
            obtain ⟨hq1, hl1, hw1, hblt⟩ := readUInt_ok hB hb1
            refine ⟨rfl, by omega, by omega, ?_⟩
            show wLE 1 b = slice data pos p1
            rw [hw1, hq1]
        case isFalse hds =>
          rw [if_neg hds]
          split at h
          case isTrue htags =>
            rw [if_pos htags]
            cases hf : readFString true data pos with
            | ok r =>
              obtain ⟨s, p1⟩ := r
              rw [hf] at h
              simp only [Except.ok.injEq, Prod.mk.injEq] at h
              obtain ⟨hv, hp⟩ := h
              subst hv; subst hp
              obtain ⟨hlax, hq, hl, hw, _⟩ := readFString_ok hB hf
              refine ⟨?_, by omega, hl, ?_⟩
              · rw [hlax]
              · exact hw
            | error e =>
              rw [hf] at h
              dsimp only at h
              split at h
              case isTrue => simp at h
              case isFalse hesc =>
                cases hrb : readBytes data pos ds with
                | error e2 => rw [hrb] at h; simp at h
                | ok r =>
                  obtain ⟨buf, p1⟩ := r
                  rw [hrb] at h
                  simp only [Except.ok.injEq, Prod.mk.injEq] at h
                  obtain ⟨hv, hp⟩ := h
                  subst hv; subst hp
                  obtain ⟨hq1, hl1, hbuf⟩ := readBytes_ok hrb
                  have hlaxf := readFString_err hf hesc
                  refine ⟨?_, by omega, by omega, ?_⟩
                  · rw [hlaxf]
                    dsimp only
                    rw [if_neg hesc]
                  · show buf = slice data pos p1
                    rw [hbuf, ← hq1]
          case isFalse htags =>
            rw [if_neg htags]
            cases hrb : readBytes data pos ds with
            | error e2 => rw [hrb] at h; simp at h
            | ok r =>
              obtain ⟨buf, p1⟩ := r
              rw [hrb] at h
              simp only [Except.ok.injEq, Prod.mk.injEq] at h
              obtain ⟨hv, hp⟩ := h
              subst hv; subst hp
              obtain ⟨hq1, hl1, hbuf⟩ := readBytes_ok hrb
              refine ⟨rfl, by omega, by omega, ?_⟩
              show buf = slice data pos p1
              rw [hbuf, ← hq1]
      case neg =>
        rw [if_neg hc3] at h ⊢
        by_cases hc4 : pt.name = ascii "IntProperty"
        case pos =>
          rw [if_pos hc4] at h ⊢
          cases hi : readUInt 4 data pos with
          | error e => rw [hi] at h; simp at h
          | ok r =>
            obtain ⟨nv, p1⟩ := r
            rw [hi] at h
            simp only [Except.ok.injEq, Prod.mk.injEq] at h
            obtain ⟨hv, hp⟩ := h
            subst hv; subst hp
            obtain ⟨hq1, hl1, hw1, _⟩ := readUInt_ok hB hi
            refine ⟨rfl, by omega, by omega, ?_⟩
            show wLE 4 nv = slice data pos p1
            rw [hw1, hq1]
        case neg =>
          rw [if_neg hc4] at h ⊢
          by_cases hc5 : pt.name = ascii "FloatProperty"
          case pos =>
            rw [if_pos hc5] at h ⊢
            cases hi : readUInt 4 data pos with
            | error e => rw [hi] at h; simp at h
            | ok r =>
              obtain ⟨nv, p1⟩ := r
              rw [hi] at h
              simp only [Except.ok.injEq, Prod.mk.injEq] at h
              obtain ⟨hv, hp⟩ := h
              subst hv; subst hp
              obtain ⟨hq1, hl1, hw1, _⟩ := readUInt_ok hB hi
              refine ⟨rfl, by omega, by omega, ?_⟩
              show wLE 4 nv = slice data pos p1
              rw [hw1, hq1]
          case neg =>
            rw [if_neg hc5] at h ⊢
            by_cases hc6 : pt.name = ascii "DoubleProperty"
            case pos =>
              rw [if_pos hc6] at h ⊢
              cases hi : readUInt 8 data pos with
              | error e => rw [hi] at h; simp at h
              | ok r =>
                obtain ⟨nv, p1⟩ := r
                rw [hi] at h
                simp only [Except.ok.injEq, Prod.mk.injEq] at h
                obtain ⟨hv, hp⟩ := h
                subst hv; subst hp
                obtain ⟨hq1, hl1, hw1, _⟩ := readUInt_ok hB hi
                refine ⟨rfl, by omega, by omega, ?_⟩
                show wLE 8 nv = slice data pos p1
                rw [hw1, hq1]
            case neg =>
              rw [if_neg hc6] at h ⊢
              by_cases hc7 : pt.name = ascii "TextProperty"
              case pos =>
                rw [if_pos hc7] at h ⊢
                cases hfl : readUInt 4 data pos with
                | error e => rw [hfl] at h; simp at h
                | ok r =>
                  obtain ⟨textFlags, p1⟩ := r
                  rw [hfl] at h
                  dsimp only at h
                  cases htd : readTextData true data p1 with
                  | error e => rw [htd] at h; simp at h
                  | ok r2 =>
                    obtain ⟨td, p2⟩ := r2
                    rw [htd] at h
                    simp only [Except.ok.injEq, Prod.mk.injEq] at h
                    obtain ⟨hv, hp⟩ := h
                    subst hv; subst hp
                    obtain ⟨hq1, hl1, hw1, _⟩ := readUInt_ok hB hfl
                    obtain ⟨hlaxtd, hq2, hl2, hwtd⟩ := readTextData_ok hB htd
                    refine ⟨?_, by omega, hl2, ?_⟩
                    · dsimp only
                      rw [hlaxtd]
                    · show wLE 4 textFlags ++ writeTextData td = slice data pos p2
                      exact sliceGlue (b := p1) (by omega) (by omega)
                        (by rw [hw1, hq1]) hwtd
              case neg =>
                rw [if_neg hc7] at h ⊢
                by_cases hc8 : pt.name = ascii "EnumProperty"
                case pos =>
                  rw [if_pos hc8] at h ⊢
                  cases hf : readFString true data pos with
                  | error e => rw [hf] at h; simp at h
                  | ok r =>
                    obtain ⟨s, p1⟩ := r
                    rw [hf] at h
                    simp only [Except.ok.injEq, Prod.mk.injEq] at h
                    obtain ⟨hv, hp⟩ := h
                    subst hv; subst hp
                    obtain ⟨hlax, hq, hl, hw, _⟩ := readFString_ok hB hf
                    refine ⟨?_, by omega, hl, ?_⟩
                    · rw [hlax]
                    · exact hw
                case neg =>
                  rw [if_neg hc8] at h ⊢
                  by_cases hc9 : pt.name = ascii "NameProperty"
                  case pos =>
                    rw [if_pos hc9] at h ⊢
                    cases hf : readFString true data pos with
                    | error e => rw [hf] at h; simp at h
                    | ok r =>
                      obtain ⟨s, p1⟩ := r
                      rw [hf] at h
                      simp only [Except.ok.injEq, Prod.mk.injEq] at h
                      obtain ⟨hv, hp⟩ := h
                      subst hv; subst hp
                      obtain ⟨hlax, hq, hl, hw, _⟩ := readFString_ok hB hf
                      refine ⟨?_, by omega, hl, ?_⟩
                      · rw [hlax]
                      · exact hw
                  case neg =>
                    rw [if_neg hc9] at h ⊢
                    by_cases hc10 : pt.name = ascii "ObjectProperty"
                    case pos =>
                      rw [if_pos hc10] at h ⊢
                      cases hf : readFString true data pos with
                      | error e => rw [hf] at h; simp at h
                      | ok r =>
                        obtain ⟨s, p1⟩ := r
                        rw [hf] at h
                        simp only [Except.ok.injEq, Prod.mk.injEq] at h
                        obtain ⟨hv, hp⟩ := h
                        subst hv; subst hp
                        obtain ⟨hlax, hq, hl, hw, _⟩ := readFString_ok hB hf
                        refine ⟨?_, by omega, hl, ?_⟩
                        · rw [hlax]
                        · exact hw
                    case neg =>
                      rw [if_neg hc10] at h ⊢
                      by_cases hc11 : pt.name = ascii "StructProperty"
                      case pos =>
                        rw [if_pos hc11] at h ⊢
                        split at h
                        case isTrue hfl =>
                          rw [if_pos hfl]
                          split at h
                          case isTrue hgtc =>
                            -- GameplayTagContainer
                            rw [if_pos hgtc]
                            cases hcnt : readUInt 4 data pos with
                            | error e => rw [hcnt] at h; simp at h
                            | ok r =>
                              obtain ⟨count, p1⟩ := r
                              rw [hcnt] at h
                              dsimp only at h
                              cases hss : readFStringsCount true data count p1 with
                              | error e => rw [hss] at h; simp at h
                              | ok r2 =>
                                obtain ⟨ss, p2⟩ := r2
                                rw [hss] at h
                                simp only [Except.ok.injEq, Prod.mk.injEq] at h
                                obtain ⟨hv, hp⟩ := h
                                subst hv; subst hp
                                obtain ⟨hq1, hl1, hw1, _⟩ := readUInt_ok hB hcnt
                                obtain ⟨hlaxss, hq2, hl2, hwss, hlenss⟩ :=
                                  readFStringsCount_ok hB (by omega) hss
                                refine ⟨?_, by omega, hl2, ?_⟩
                                · dsimp only
                                  rw [hlaxss]
                                · show wLE 4 (arrayCount (ss.map PropertyValue.nameProperty)) ++
                                    writeValues (ss.map PropertyValue.nameProperty) =
                                    slice data pos p2
                                  rw [arrayCount_map_name, hlenss, writeValues_map_name]
                                  exact sliceGlue (b := p1) (by omega) (by omega)
                                    (by rw [hw1, hq1]) hwss
                          case isFalse hgtc =>
                            rw [if_neg hgtc]
                            split at h
                            case isTrue hcore =>
                              rw [if_pos hcore]
                              cases hhd : pt.tags.head? with
                              | none => rw [hhd] at h; simp at h
                              | some tg =>
                                rw [hhd] at h
                                dsimp only at h
                                cases hobj : tryReadUObject tg.value data pos with
                                | error e => rw [hobj] at h; simp at h
                                | ok r =>
                                  obtain ⟨oo, p1⟩ := r
                                  cases oo with
                                  | some obj =>
                                    rw [hobj] at h
                                    simp only [Except.ok.injEq, Prod.mk.injEq] at h
                                    obtain ⟨hv, hp⟩ := h
                                    subst hv; subst hp
                                    obtain ⟨hq1, hl1, hwobj⟩ := tryReadUObject_some hB hobj
                                    refine ⟨?_, hq1, hl1, ?_⟩
                                    · dsimp only
                                      rw [hobj]
                                    · exact hwobj
                                  | none =>
                                    rw [hobj] at h
                                    dsimp only at h
                                    cases hrb : readBytes data pos ds with
                                    | error e2 => rw [hrb] at h; simp at h
                                    | ok r2 =>
                                      obtain ⟨buf, p2⟩ := r2
                                      rw [hrb] at h
                                      simp only [Except.ok.injEq, Prod.mk.injEq] at h
                                      obtain ⟨hv, hp⟩ := h
                                      subst hv; subst hp
                                      obtain ⟨hq2, hl2, hbuf⟩ := readBytes_ok hrb
                                      refine ⟨?_, by omega, by omega, ?_⟩
                                      · dsimp only
                                        rw [hobj]
                                      · show buf = slice data pos p2
                                        rw [hbuf, ← hq2]
                            case isFalse hcore =>
                              rw [if_neg hcore]
                              cases hrb : readBytes data pos ds with
                              | error e2 => rw [hrb] at h; simp at h
                              | ok r2 =>
                                obtain ⟨buf, p2⟩ := r2
                                rw [hrb] at h
                                simp only [Except.ok.injEq, Prod.mk.injEq] at h
                                obtain ⟨hv, hp⟩ := h
                                subst hv; subst hp
                                obtain ⟨hq2, hl2, hbuf⟩ := readBytes_ok hrb
                                refine ⟨rfl, by omega, by omega, ?_⟩
                                show buf = slice data pos p2
                                rw [hbuf, ← hq2]
                        case isFalse hfl =>
                          rw [if_neg hfl]
                          cases hst : (readers n).structStream true data (pos + ds) none pos with
                          | error e => rw [hst] at h; simp at h
                          | ok r =>
                            obtain ⟨props, p1⟩ := r
                            rw [hst] at h
                            simp only [Except.ok.injEq, Prod.mk.injEq] at h
                            obtain ⟨hv, hp⟩ := h
                            subst hv; subst hp
                            obtain ⟨hlaxst, hq1, hl1, hwst⟩ :=
                              ihStream data (pos + ds) none pos props p1 hB hpos
                                (fun fs hfs => by cases hfs) hst
                            refine ⟨?_, hq1, hl1, ?_⟩
                            · rw [show readStructStream false data (pos + ds) none pos n =
                                (readers n).structStream false data (pos + ds) none pos from rfl] at hlaxst
                              rw [hlaxst]
                            · exact hwst
                      case neg =>
                        rw [if_neg hc11] at h ⊢
                        by_cases hc12 : pt.name = ascii "ArrayProperty"
                        case pos =>
                          rw [if_pos hc12] at h ⊢
                          cases hcnt : readUInt 4 data pos with
                          | error e => rw [hcnt] at h; simp at h
                          | ok r =>
                            obtain ⟨count, p1⟩ := r
                            rw [hcnt] at h
                            dsimp only at h
                            obtain ⟨hq1, hl1, hw1, _⟩ := readUInt_ok hB hcnt
                            split at h
                            case isTrue hbyte =>
                              dsimp only
                              rw [if_pos hbyte]
                              cases hrb : readBytes data p1 count with
                              | error e2 => rw [hrb] at h; simp at h
                              | ok r2 =>
                                obtain ⟨buf, p2⟩ := r2
                                rw [hrb] at h
                                simp only [Except.ok.injEq, Prod.mk.injEq] at h
                                obtain ⟨hv, hp⟩ := h
                                subst hv; subst hp
                                obtain ⟨hq2, hl2, hbuf⟩ := readBytes_ok hrb
                                have hlenbuf : buf.length = count := readBytes_length hrb
                                refine ⟨rfl, by omega, by omega, ?_⟩
                                show wLE 4 (arrayCount [.unknownProperty buf]) ++
                                  (buf ++ writeValues []) = slice data pos p2
                                have hac : arrayCount [.unknownProperty buf] = count := by
                                  rw [show arrayCount [.unknownProperty buf] = buf.length from rfl,
                                    hlenbuf]
                                rw [hac]
                                have hemp : buf ++ writeValues [] = buf := by
                                  simp [writeValues]
                                rw [hemp]
                                exact sliceGlue (b := p1) (by omega) (by omega)
                                  (by rw [hw1, hq1]) (by rw [hbuf, ← hq2])
                            case isFalse hbyte =>
                              dsimp only
                              rw [if_neg hbyte]
                              cases hels : readArrayElemsF (readers n) true data
                                  pt.elementType flags (pos + ds) count p1 with
                              | error e => rw [hels] at h; simp at h
                              | ok r2 =>
                                obtain ⟨values, p2⟩ := r2
                                rw [hels] at h
                                dsimp only at h
                                split at h
                                case isTrue => simp at h
                                case isFalse harr =>
                                  simp only [Except.ok.injEq, Prod.mk.injEq] at h
                                  obtain ⟨hv, hp⟩ := h
                                  subst hv; subst hp
                                  obtain ⟨hlaxe, hq2, hl2, hwe, hlene⟩ :=
                                    arrayElems_rt ihV hB (by omega) hels
                                  have hcnt2 : arrayCount values = count := by
                                    by_contra hc
                                    apply harr
                                    refine ⟨rfl, ?_⟩
                                    show ¬(PropertyValue.arrayLen (.arrayProperty values) = some count)
                                    rw [show PropertyValue.arrayLen (.arrayProperty values) =
                                      some (arrayCount values) from rfl]
                                    simp [hc]
                                  refine ⟨?_, by omega, hl2, ?_⟩
                                  · dsimp only
                                    rw [hlaxe]
                                    dsimp only
                                    rw [if_neg (by simp)]
                                  · show wLE 4 (arrayCount values) ++ writeValues values =
                                      slice data pos p2
                                    rw [hcnt2]
                                    exact sliceGlue (b := p1) (by omega) (by omega)
                                      (by rw [hw1, hq1]) hwe
                        case neg =>
                          rw [if_neg hc12] at h ⊢
                          by_cases hc13 : pt.name = ascii "MapProperty"
                          case pos =>
                            rw [if_pos hc13] at h ⊢
                            cases hlast : pt.innerTypes.getLast? with
                            | none => rw [hlast] at h; simp at h
                            | some valueType =>
                              rw [hlast] at h
                              dsimp only at h
                              cases hrc : readUInt 4 data pos with
                              | error e => rw [hrc] at h; simp at h
                              | ok r =>
                                obtain ⟨removedCount, p1⟩ := r
                                rw [hrc] at h
                                dsimp only at h
                                cases hcnt : readUInt 4 data p1 with
                                | error e => rw [hcnt] at h; simp at h
                                | ok r2 =>
                                  obtain ⟨count, p2⟩ := r2
                                  rw [hcnt] at h
                                  dsimp only at h
                                  cases hels : readMapElemsF (readers n) true data
                                      pt.elementType valueType flags (pos + ds) count p2 with
                                  | error e => rw [hels] at h; simp at h
                                  | ok r3 =>
                                    obtain ⟨values, p3⟩ := r3
                                    rw [hels] at h
                                    simp only [Except.ok.injEq, Prod.mk.injEq] at h
                                    obtain ⟨hv, hp⟩ := h
                                    subst hv; subst hp
                                    obtain ⟨hq1, hl1, hw1, _⟩ := readUInt_ok hB hrc
                                    obtain ⟨hq2, hl2, hw2, _⟩ := readUInt_ok hB hcnt
                                    obtain ⟨hlaxe, hq3, hl3, hwe, hlene⟩ :=
                                      mapElems_rt ihV hB (by omega) hels
                                    refine ⟨?_, by omega, hl3, ?_⟩
                                    · dsimp only
                                      rw [hcnt]
                                      dsimp only
                                      rw [hlaxe]
                                    · show wLE 4 removedCount ++ wLE 4 values.length ++
                                        writePairs values = slice data pos p3
                                      rw [hlene]
                                      have g1 := sliceGlue (b := p1) (by omega) (by omega)
                                        (show wLE 4 removedCount = slice data pos p1 by rw [hw1, hq1])
                                        (show wLE 4 count = slice data p1 p2 by rw [hw2, ← hq2])
                                      exact sliceGlue (b := p2) (by omega) (by omega) g1 hwe
                          case neg =>
                            rw [if_neg hc13] at h ⊢
                            cases hrb : readBytes data pos ds with
                            | error e2 => rw [hrb] at h; simp at h
                            | ok r2 =>
                              obtain ⟨buf, p2⟩ := r2
                              rw [hrb] at h
                              simp only [Except.ok.injEq, Prod.mk.injEq] at h
                              obtain ⟨hv, hp⟩ := h
                              subst hv; subst hp
                              obtain ⟨hq2, hl2, hbuf⟩ := readBytes_ok hrb
                              refine ⟨rfl, by omega, by omega, ?_⟩
                              show buf = slice data pos p2
                              rw [hbuf, ← hq2]

theorem parseCS_rt {n : Nat} (ihCS : RtCSP n) {prop : Property} {fs : Nat}
    {prop2 : Property} (hBp : Bytes (writeProperty prop)) (hfs : 0 < fs)
    (h : parseCSDataF (readers n) true prop fs = .ok prop2) :
    parseCSDataF (readers n) false prop fs = .ok prop2 ∧
      writeProperty prop2 = writeProperty prop ∧ prop2.isNone = prop.isNone := by
  unfold parseCSDataF at h ⊢
  split at h
  case isFalse hcs =>
    rw [if_neg hcs]
    simp only [Except.ok.injEq] at h
    subst h
    exact ⟨rfl, rfl, rfl⟩
  case isTrue hcs =>
    rw [if_pos hcs]
    cases hbody : prop.body with
    | none => rw [hbody] at h; simp only [Except.ok.injEq] at h; subst h; exact ⟨rfl, rfl, rfl⟩
    | some b =>
      rw [hbody] at h
      dsimp only at h ⊢
      cases hval : b.value with
      | arrayProperty values =>
        rw [hval] at h
        dsimp only at h
        cases hhead : values.head? with
        | none =>
          rw [hhead] at h
          simp only [Except.ok.injEq] at h
          subst h
          dsimp only
          rw [hhead]
          exact ⟨rfl, rfl, rfl⟩
        | some v0 =>
          rw [hhead] at h
          cases v0 with
          | unknownProperty blob =>
            dsimp only at h
            -- values is the singleton [unknownProperty blob]
            have hcs2 := hcs
            unfold Property.isCustomStructData at hcs2
            rw [hbody] at hcs2
            dsimp only at hcs2
            rw [hval] at hcs2
            dsimp only at hcs2
            rw [hhead] at hcs2
            simp only [Bool.and_eq_true, decide_eq_true_eq] at hcs2
            obtain ⟨⟨hname, hlen1⟩, _⟩ := hcs2
            have hvals : values = [.unknownProperty blob] := by
              cases values with
              | nil => simp at hhead
              | cons x rest =>
                simp only [List.head?_cons, Option.some.injEq] at hhead
                subst hhead
                cases rest with
                | nil => rfl
                | cons y rest2 => simp at hlen1
            have hBblob : Bytes blob := by
              intro x hx
              apply hBp
              obtain ⟨pname, pbody⟩ := prop
              have hpb : pbody = some b := hbody
              subst hpb
              show x ∈ writeFString pname ++ writeBody b
              apply List.mem_append_right
              obtain ⟨bt, bf, bv⟩ := b
              have hbv : bv = .arrayProperty values := hval
              subst hbv
              show x ∈ writePropertyType bt ++ wLE 4 (PropertyValue.size (.arrayProperty values)) ++
                wLE 1 bf ++ writeValue (.arrayProperty values)
              apply List.mem_append_right
              rw [hvals]
              show x ∈ wLE 4 blob.length ++ (blob ++ writeValues [])
              apply List.mem_append_right
              exact List.mem_append_left _ hx
            cases hrc : (readers n).customStruct true blob fs with
            | error e => rw [hrc] at h; simp at h
            | ok cs =>
              rw [hrc] at h
              simp only [Except.ok.injEq] at h
              subst h
              obtain ⟨hlaxcs, hwcs, hszcs⟩ := ihCS blob fs cs hBblob hfs hrc
              rw [show readCustomStruct false blob fs n =
                (readers n).customStruct false blob fs from rfl] at hlaxcs
              refine ⟨?_, ?_, ?_⟩
              · dsimp only
                rw [hhead]
                dsimp only
                rw [hlaxcs]
              · -- the re-written property serializes to the same bytes
                obtain ⟨pname, pbody⟩ := prop
                have hpb : pbody = some b := hbody
                subst hpb
                obtain ⟨bt, bf, bv⟩ := b
                have hbv : bv = .arrayProperty values := hval
                subst hbv
                show writeFString pname ++ (writePropertyType bt ++
                    wLE 4 (PropertyValue.size (.customStructProperty cs)) ++ wLE 1 bf ++
                    writeCustomStruct cs) =
                  writeFString pname ++ (writePropertyType bt ++
                    wLE 4 (PropertyValue.size (.arrayProperty values)) ++ wLE 1 bf ++
                    writeValue (.arrayProperty values))
                rw [hvals]
                have hsz : PropertyValue.size (.customStructProperty cs) =
                    PropertyValue.size (.arrayProperty [.unknownProperty blob]) := by
                  show cs.size = 4 + sizeValues [.unknownProperty blob]
                  rw [hszcs]
                  show 4 + blob.length = 4 + (blob.length + sizeValues [])
                  simp [sizeValues]
                rw [hsz]
                have hwv : writeValue (.arrayProperty [.unknownProperty blob]) =
                    wLE 4 blob.length ++ blob := by
                  show wLE 4 blob.length ++ (blob ++ writeValues []) = wLE 4 blob.length ++ blob
                  simp [writeValues]
                rw [hwv, hwcs]
              · unfold Property.isNone
                rw [hbody]
                rfl
          | strProperty s => dsimp only at h; simp only [Except.ok.injEq] at h; subst h; dsimp only; rw [hhead]; exact ⟨rfl, rfl, rfl⟩
          | boolProperty bb => dsimp only at h; simp only [Except.ok.injEq] at h; subst h; dsimp only; rw [hhead]; exact ⟨rfl, rfl, rfl⟩
          | byteProperty bb => dsimp only at h; simp only [Except.ok.injEq] at h; subst h; dsimp only; rw [hhead]; exact ⟨rfl, rfl, rfl⟩
          | intProperty nn => dsimp only at h; simp only [Except.ok.injEq] at h; subst h; dsimp only; rw [hhead]; exact ⟨rfl, rfl, rfl⟩
          | floatProperty nn => dsimp only at h; simp only [Except.ok.injEq] at h; subst h; dsimp only; rw [hhead]; exact ⟨rfl, rfl, rfl⟩
          | doubleProperty nn => dsimp only at h; simp only [Except.ok.injEq] at h; subst h; dsimp only; rw [hhead]; exact ⟨rfl, rfl, rfl⟩
          | textProperty fl td => dsimp only at h; simp only [Except.ok.injEq] at h; subst h; dsimp only; rw [hhead]; exact ⟨rfl, rfl, rfl⟩
          | enumProperty s => dsimp only at h; simp only [Except.ok.injEq] at h; subst h; dsimp only; rw [hhead]; exact ⟨rfl, rfl, rfl⟩
          | nameProperty s => dsimp only at h; simp only [Except.ok.injEq] at h; subst h; dsimp only; rw [hhead]; exact ⟨rfl, rfl, rfl⟩
          | objectProperty s => dsimp only at h; simp only [Except.ok.injEq] at h; subst h; dsimp only; rw [hhead]; exact ⟨rfl, rfl, rfl⟩
          | structProperty ps => dsimp only at h; simp only [Except.ok.injEq] at h; subst h; dsimp only; rw [hhead]; exact ⟨rfl, rfl, rfl⟩
          | customStructProperty cs0 => dsimp only at h; simp only [Except.ok.injEq] at h; subst h; dsimp only; rw [hhead]; exact ⟨rfl, rfl, rfl⟩
          | coreUObjectStructProperty ob => dsimp only at h; simp only [Except.ok.injEq] at h; subst h; dsimp only; rw [hhead]; exact ⟨rfl, rfl, rfl⟩
          | arrayProperty vs0 => dsimp only at h; simp only [Except.ok.injEq] at h; subst h; dsimp only; rw [hhead]; exact ⟨rfl, rfl, rfl⟩
          | mapProperty rc vs0 => dsimp only at h; simp only [Except.ok.injEq] at h; subst h; dsimp only; rw [hhead]; exact ⟨rfl, rfl, rfl⟩
      | strProperty s => rw [hval] at h; simp only [Except.ok.injEq] at h; subst h; exact ⟨rfl, rfl, rfl⟩
      | boolProperty bb => rw [hval] at h; simp only [Except.ok.injEq] at h; subst h; exact ⟨rfl, rfl, rfl⟩
      | byteProperty bb => rw [hval] at h; simp only [Except.ok.injEq] at h; subst h; exact ⟨rfl, rfl, rfl⟩
      | intProperty nn => rw [hval] at h; simp only [Except.ok.injEq] at h; subst h; exact ⟨rfl, rfl, rfl⟩
      | floatProperty nn => rw [hval] at h; simp only [Except.ok.injEq] at h; subst h; exact ⟨rfl, rfl, rfl⟩
      | doubleProperty nn => rw [hval] at h; simp only [Except.ok.injEq] at h; subst h; exact ⟨rfl, rfl, rfl⟩
      | textProperty fl td => rw [hval] at h; simp only [Except.ok.injEq] at h; subst h; exact ⟨rfl, rfl, rfl⟩
      | enumProperty s => rw [hval] at h; simp only [Except.ok.injEq] at h; subst h; exact ⟨rfl, rfl, rfl⟩
      | nameProperty s => rw [hval] at h; simp only [Except.ok.injEq] at h; subst h; exact ⟨rfl, rfl, rfl⟩
      | objectProperty s => rw [hval] at h; simp only [Except.ok.injEq] at h; subst h; exact ⟨rfl, rfl, rfl⟩
      | structProperty ps => rw [hval] at h; simp only [Except.ok.injEq] at h; subst h; exact ⟨rfl, rfl, rfl⟩
      | customStructProperty cs0 => rw [hval] at h; simp only [Except.ok.injEq] at h; subst h; exact ⟨rfl, rfl, rfl⟩
      | coreUObjectStructProperty ob => rw [hval] at h; simp only [Except.ok.injEq] at h; subst h; exact ⟨rfl, rfl, rfl⟩
      | unknownProperty bts => rw [hval] at h; simp only [Except.ok.injEq] at h; subst h; exact ⟨rfl, rfl, rfl⟩
      | mapProperty rc vs0 => rw [hval] at h; simp only [Except.ok.injEq] at h; subst h; exact ⟨rfl, rfl, rfl⟩

theorem stepValue {n : Nat} (ihVI : RtValueInnerP (n + 1)) : RtValueP (n + 1) := by
  intro data pt flags ds pos v p hB hpos h
  have hun : readValue true data pt flags ds pos (n + 1) =
      readValueCheckF (readValueInnerF (readers n)) true data pt flags ds pos := rfl
  rw [hun] at h
  unfold readValueCheckF at h
  cases hi : readValueInnerF (readers n) true data pt flags ds pos with
  | error e => rw [hi] at h; simp at h
  | ok r =>
    obtain ⟨v2, p2⟩ := r
    rw [hi] at h
    dsimp only at h
    split at h
    · simp at h
    · rename_i hbound
      simp only [Except.ok.injEq, Prod.mk.injEq] at h
      obtain ⟨hv, hp⟩ := h
      subst hv; subst hp
      have hi2 : readValueInner true data pt flags ds pos (n + 1) = .ok (v2, p2) := hi
      obtain ⟨hlaxi, hq, hl, hw⟩ := ihVI data pt flags ds pos v2 p2 hB hpos hi2
      refine ⟨?_, hq, hl, by omega, hw⟩
      have hgoal : readValue false data pt flags ds pos (n + 1) =
          readValueCheckF (readValueInnerF (readers n)) false data pt flags ds pos := rfl
      rw [hgoal]
      unfold readValueCheckF
      rw [show readValueInnerF (readers n) false data pt flags ds pos =
        readValueInner false data pt flags ds pos (n + 1) from rfl, hlaxi]
      dsimp only
      rw [if_neg hbound]

theorem stepBody {n : Nat} (ihP : RtPtypeP n) (ihV : RtValueP n) : RtBodyP (n + 1) := by
  intro data pos b p hB h
  have hun : readPropertyBody true data pos (n + 1) =
      readBodyF (readers n) true data pos := rfl
  rw [hun] at h
  have hgoal : readPropertyBody false data pos (n + 1) =
      readBodyF (readers n) false data pos := rfl
  rw [hgoal]
  unfold readBodyF at h ⊢
  cases ht : (readers n).ptype true data pos with
  | error e => rw [ht] at h; simp at h
  | ok r1 =>
    obtain ⟨pt, p1⟩ := r1
    rw [ht] at h
    dsimp only at h ⊢
    obtain ⟨hlaxt, hq1, hl1, hwt⟩ := ihP data pos pt p1 hB ht
    cases hd : readUInt 4 data p1 with
    | error e => rw [hd] at h; simp at h
    | ok r2 =>
      obtain ⟨ds, p2⟩ := r2
      rw [hd] at h
      dsimp only at h
      obtain ⟨hq2, hl2, hwd, _⟩ := readUInt_ok hB hd
      cases hf : readUInt 1 data p2 with
      | error e => rw [hf] at h; simp at h
      | ok r3 =>
        obtain ⟨flags, p3⟩ := r3
        rw [hf] at h
        dsimp only at h
        obtain ⟨hq3, hl3, hwf, _⟩ := readUInt_ok hB hf
        cases hv : (readers n).value true data pt flags ds p3 with
        | error e => rw [hv] at h; simp at h
        | ok r4 =>
          obtain ⟨v, p4⟩ := r4
          rw [hv] at h
          dsimp only at h
          split at h
          · simp at h
          · rename_i hexact
            simp only [Except.ok.injEq, Prod.mk.injEq] at h
            obtain ⟨hb, hp⟩ := h
            subst hb; subst hp
            have hp4 : p4 = p3 + ds := by
              by_contra hne
              exact hexact ⟨rfl, hne⟩
            obtain ⟨hlaxv, hq4, hl4, _, hwv⟩ :=
              ihV data pt flags ds p3 v p4 hB (by omega) hv
            -- the value wrote exactly dataSize bytes, so v.size = ds
            have hsz : v.size = ds := by
              have := writeValue_length v
              rw [hwv, slice_len (by omega) (by omega)] at this
              omega
            rw [show readPropertyType false data pos n =
              (readers n).ptype false data pos from rfl] at hlaxt
            rw [show readValue false data pt flags ds p3 n =
              (readers n).value false data pt flags ds p3 from rfl] at hlaxv
            rw [hlaxt]
            dsimp only
            rw [hd]
            dsimp only
            rw [hf]
            dsimp only
            rw [hlaxv]
            dsimp only
            rw [if_neg (by simp)]
            refine ⟨rfl, by omega, by omega, ?_⟩
            show writePropertyType pt ++ wLE 4 v.size ++ wLE 1 flags ++ writeValue v =
              slice data pos p4
            have h12 : writePropertyType pt ++ wLE 4 v.size = slice data pos p2 := by
              refine sliceGlue (b := p1) (by omega) (by omega) hwt ?_
              rw [hsz, hwd, hq2]
            have h123 : writePropertyType pt ++ wLE 4 v.size ++ wLE 1 flags =
                slice data pos p3 := by
              refine sliceGlue (b := p2) (by omega) (by omega) h12 ?_
              rw [hwf, hq3]
            exact sliceGlue (b := p3) (by omega) (by omega) h123 hwv

theorem stepProp {n : Nat} (ihB : RtBodyP n) : RtPropP (n + 1) := by
  intro data pos prop p hB h
  have hun : readProperty true data pos (n + 1) =
      readPropertyF (readers n) true data pos := rfl
  rw [hun] at h
  have hgoal : readProperty false data pos (n + 1) =
      readPropertyF (readers n) false data pos := rfl
  rw [hgoal]
  unfold readPropertyF at h ⊢
  cases hs : readFString true data pos with
  | error e => rw [hs] at h; simp at h
  | ok r1 =>
    obtain ⟨name, p1⟩ := r1
    rw [hs] at h
    dsimp only at h
    obtain ⟨hlaxs, hq1, hl1, hws, _⟩ := readFString_ok hB hs
    rw [hlaxs]
    dsimp only
    split at h
    · rename_i hname
      cases hb : (readers n).body true data p1 with
      | error e => rw [hb] at h; simp at h
      | ok r2 =>
        obtain ⟨b, p2⟩ := r2
        rw [hb] at h
        simp only [Except.ok.injEq, Prod.mk.injEq] at h
        obtain ⟨hprop, hp⟩ := h
        subst hprop; subst hp
        obtain ⟨hlaxb, hq2, hl2, hwb⟩ := ihB data p1 b p2 hB hb
        rw [if_pos hname]
        rw [show readPropertyBody false data p1 n =
          (readers n).body false data p1 from rfl] at hlaxb
        rw [hlaxb]
        refine ⟨rfl, by omega, hl2, ?_⟩
        show writeFString name ++ writeBody b = slice data pos p2
        exact sliceGlue (b := p1) (by omega) (by omega) hws hwb
    · rename_i hname
      simp only [Except.ok.injEq, Prod.mk.injEq] at h
      obtain ⟨hprop, hp⟩ := h
      subst hprop; subst hp
      rw [if_neg hname]
      refine ⟨rfl, by omega, hl1, ?_⟩
      show writeFString name ++ [] = slice data pos p1
      rw [List.append_nil]
      exact hws

theorem stepStream {n : Nat} (ihProp : RtPropP n) (ihStream : RtStreamP n)
    (ihCS : RtCSP n) : RtStreamP (n + 1) := by
  intro data endP footer pos props p hB hpos hfoot h
  have hun : readStructStream true data endP footer pos (n + 1) =
      readStructStreamF (readers n) true data endP footer pos := rfl
  rw [hun] at h
  have hgoal : readStructStream false data endP footer pos (n + 1) =
      readStructStreamF (readers n) false data endP footer pos := rfl
  rw [hgoal]
  unfold readStructStreamF at h ⊢
  split at h
  case isFalse hlt =>
    rw [if_neg hlt]
    simp only [Except.ok.injEq, Prod.mk.injEq] at h
    obtain ⟨hprops, hp⟩ := h
    subst hprops; subst hp
    exact ⟨rfl, Nat.le_refl pos, hpos, by rw [slice_refl]; rfl⟩
  case isTrue hlt =>
    rw [if_pos hlt]
    cases hp1 : (readers n).prop true data pos with
    | error e => rw [hp1] at h; simp at h
    | ok r1 =>
      obtain ⟨prop0, p1⟩ := r1
      rw [hp1] at h
      dsimp only at h
      obtain ⟨hlaxp, hq1, hl1, hwp⟩ := ihProp data pos prop0 p1 hB hp1
      rw [show readProperty false data pos n =
        (readers n).prop false data pos from rfl] at hlaxp
      rw [hlaxp]
      dsimp only
      cases footer with
      | none =>
        dsimp only at h ⊢
        split at h
        · rename_i hnone
          simp only [Except.ok.injEq, Prod.mk.injEq] at h
          obtain ⟨hprops, hp⟩ := h
          subst hprops; subst hp
          rw [if_pos hnone]
          refine ⟨rfl, hq1, hl1, ?_⟩
          show writeProperty prop0 ++ writeProps [] = slice data pos p1
          rw [show writeProps [] = ([] : List Nat) from rfl, List.append_nil]
          exact hwp
        · rename_i hnone
          cases hrest : (readers n).structStream true data endP
              prop0.customStructFooterSize p1 with
          | error e => rw [hrest] at h; simp at h
          | ok r2 =>
            obtain ⟨rest, p2⟩ := r2
            rw [hrest] at h
            simp only [Except.ok.injEq, Prod.mk.injEq] at h
            obtain ⟨hprops, hp⟩ := h
            subst hprops; subst hp
            have hfs2 : ∀ fs, prop0.customStructFooterSize = some fs → 0 < fs := by
              intro fs hfs
              rcases customStructFooterSize_pos hfs with h4 | h8
              · omega
              · omega
            obtain ⟨hlaxr, hq2, hl2, hwr⟩ :=
              ihStream data endP prop0.customStructFooterSize p1 rest p2 hB hl1 hfs2 hrest
            rw [if_neg hnone]
            rw [show readStructStream false data endP prop0.customStructFooterSize p1 n =
              (readers n).structStream false data endP
                prop0.customStructFooterSize p1 from rfl] at hlaxr
            rw [hlaxr]
            refine ⟨rfl, by omega, hl2, ?_⟩
            show writeProperty prop0 ++ writeProps rest = slice data pos p2
            exact sliceGlue (b := p1) (by omega) (by omega) hwp hwr
      | some fs =>
        have hfs : 0 < fs := hfoot fs rfl
        dsimp only at h ⊢
        cases hpp : (if prop0.isCustomStructData
            then parseCSDataF (readers n) true prop0 fs else .ok prop0) with
        | error e => rw [hpp] at h; simp at h
        | ok prop2 =>
          rw [hpp] at h
          dsimp only at h
          have hfacts : (if prop0.isCustomStructData
              then parseCSDataF (readers n) false prop0 fs else .ok prop0) = .ok prop2 ∧
              writeProperty prop2 = writeProperty prop0 ∧
              prop2.isNone = prop0.isNone := by
            by_cases hcsd : prop0.isCustomStructData = true
            · rw [if_pos hcsd] at hpp ⊢
              have hBp : Bytes (writeProperty prop0) := by
                rw [hwp]
                exact bytes_slice hB
              obtain ⟨hlax2, hw2, hn2⟩ := parseCS_rt ihCS hBp hfs hpp
              exact ⟨hlax2, hw2, hn2⟩
            · rw [if_neg hcsd] at hpp ⊢
              simp only [Except.ok.injEq] at hpp
              subst hpp
              exact ⟨rfl, rfl, rfl⟩
          obtain ⟨hlaxpp, hw2, hn2⟩ := hfacts
          rw [hlaxpp]
          dsimp only
          split at h
          · rename_i hnone2
            simp only [Except.ok.injEq, Prod.mk.injEq] at h
            obtain ⟨hprops, hp⟩ := h
            subst hprops; subst hp
            rw [if_pos hnone2]
            refine ⟨rfl, hq1, hl1, ?_⟩
            show writeProperty prop2 ++ writeProps [] = slice data pos p1
            rw [show writeProps [] = ([] : List Nat) from rfl, List.append_nil, hw2]
            exact hwp
          · rename_i hnone2
            cases hrest : (readers n).structStream true data endP (some fs) p1 with
            | error e => rw [hrest] at h; simp at h
            | ok r2 =>
              obtain ⟨rest, p2⟩ := r2
              rw [hrest] at h
              simp only [Except.ok.injEq, Prod.mk.injEq] at h
              obtain ⟨hprops, hp⟩ := h
              subst hprops; subst hp
              obtain ⟨hlaxr, hq2, hl2, hwr⟩ :=
                ihStream data endP (some fs) p1 rest p2 hB hl1
                  (fun fs2 hfs2 => by cases hfs2; exact hfs) hrest
              rw [if_neg hnone2]
              rw [show readStructStream false data endP (some fs) p1 n =
                (readers n).structStream false data endP (some fs) p1 from rfl] at hlaxr
              rw [hlaxr]
              refine ⟨rfl, by omega, hl2, ?_⟩
              show writeProperty prop2 ++ writeProps rest = slice data pos p2
              rw [hw2]
              exact sliceGlue (b := p1) (by omega) (by omega) hwp hwr

theorem stepFooter {n : Nat} (ihProp : RtPropP n) (ihFooter : RtFooterP n) :
    RtFooterP (n + 1) := by
  intro data fs pos props p hB hpos hfs h
  have hun : readPropsFooter true data fs pos (n + 1) =
      readPropsFooterF (readers n) true data fs pos := rfl
  rw [hun] at h
  have hgoal : readPropsFooter false data fs pos (n + 1) =
      readPropsFooterF (readers n) false data fs pos := rfl
  rw [hgoal]
  unfold readPropsFooterF at h ⊢
  split at h
  case isFalse hlt =>
    rw [if_neg hlt]
    simp only [Except.ok.injEq, Prod.mk.injEq] at h
    obtain ⟨hprops, hp⟩ := h
    subst hprops; subst hp
    refine ⟨rfl, Nat.le_refl pos, hpos, by rw [slice_refl]; rfl, ?_⟩
    left
    omega
  case isTrue hlt =>
    rw [if_pos hlt]
    cases hp1 : (readers n).prop true data pos with
    | error e =>
      rw [hp1] at h
      dsimp only at h
      split at h
      · rename_i he
        omega
      · simp at h
    | ok r1 =>
      obtain ⟨prop0, p1⟩ := r1
      rw [hp1] at h
      dsimp only at h
      obtain ⟨hlaxp, hq1, hl1, hwp⟩ := ihProp data pos prop0 p1 hB hp1
      cases hrest : (readers n).propsFooter true data fs p1 with
      | error e => rw [hrest] at h; simp at h
      | ok r2 =>
        obtain ⟨rest, p2⟩ := r2
        rw [hrest] at h
        simp only [Except.ok.injEq, Prod.mk.injEq] at h
        obtain ⟨hprops, hp⟩ := h
        subst hprops; subst hp
        obtain ⟨hlaxr, hq2, hl2, hwr, hend⟩ :=
          ihFooter data fs p1 rest p2 hB hl1 hfs hrest
        rw [show readProperty false data pos n =
          (readers n).prop false data pos from rfl] at hlaxp
        rw [hlaxp]
        dsimp only
        rw [show readPropsFooter false data fs p1 n =
          (readers n).propsFooter false data fs p1 from rfl] at hlaxr
        rw [hlaxr]
        refine ⟨rfl, by omega, hl2, ?_, hend⟩
        show writeProperty prop0 ++ writeProps rest = slice data pos p2
        exact sliceGlue (b := p1) (by omega) (by omega) hwp hwr

theorem stepCS {n : Nat} (ihFooter : RtFooterP n) : RtCSP (n + 1) := by
  intro blob fs cs hB hfs h
  have hun : readCustomStruct true blob fs (n + 1) =
      readCustomStructF (readers n) true blob fs := rfl
  rw [hun] at h
  have hgoal : readCustomStruct false blob fs (n + 1) =
      readCustomStructF (readers n) false blob fs := rfl
  rw [hgoal]
  unfold readCustomStructF at h ⊢
  cases hfb : readUInt 1 blob 0 with
  | error e => rw [hfb] at h; simp at h
  | ok r1 =>
    obtain ⟨flags, p1⟩ := r1
    rw [hfb] at h
    dsimp only at h ⊢
    obtain ⟨hp1, hl1, hwf, _⟩ := readUInt_ok hB hfb
    cases hpf : (readers n).propsFooter true blob fs p1 with
    | error e => rw [hpf] at h; simp at h
    | ok r2 =>
      obtain ⟨props, p2⟩ := r2
      rw [hpf] at h
      dsimp only at h
      obtain ⟨hlaxf, hq2, hl2, hwprops, hend⟩ :=
        ihFooter blob fs p1 props p2 hB (by omega) hfs hpf
      cases hex : readBytes blob p2 fs with
      | error e => rw [hex] at h; simp at h
      | ok r3 =>
        obtain ⟨extra, p3⟩ := r3
        rw [hex] at h
        simp only [Except.ok.injEq] at h
        subst h
        obtain ⟨hp3, hl3, hextra⟩ := readBytes_ok hex
        have hendp : blob.length - fs ≤ p2 := by
          rcases hend with hle | h0
          · exact hle
          · omega
        have hp2 : p2 = blob.length - fs := by omega
        have hlen : p2 + fs = blob.length := by omega
        rw [show readPropsFooter false blob fs p1 n =
          (readers n).propsFooter false blob fs p1 from rfl] at hlaxf
        rw [hlaxf]
        dsimp only
        rw [hex]
        refine ⟨rfl, ?_, ?_⟩
        · -- the rewrite reproduces the dataSize word and the whole blob
          show wLE 4 (CustomStruct.size (.mk flags props extra) - 4) ++ wLE 1 flags ++
            writeProps props ++ extra = wLE 4 blob.length ++ blob
          have hpl : (writeProps props).length = p2 - p1 := by
            rw [hwprops, slice_len hl2 hq2]
          have hel : extra.length = fs := readBytes_length hex
          have hsz : CustomStruct.size (.mk flags props extra) - 4 = blob.length := by
            show 4 + 1 + sizeProps props + extra.length - 4 = blob.length
            have := writeProps_length props
            omega
          rw [hsz]
          have hblob : wLE 1 flags ++ writeProps props ++ extra = blob := by
            have h01 : wLE 1 flags = slice blob 0 p1 := by
              rw [hwf]
              rw [show (0 : Nat) + 1 = p1 by omega]
            have h02 : wLE 1 flags ++ writeProps props = slice blob 0 p2 :=
              sliceGlue (b := p1) (by omega) hq2 h01 hwprops
            have h03 : wLE 1 flags ++ writeProps props ++ extra =
                slice blob 0 blob.length := by
              refine sliceGlue (b := p2) (by omega) (by omega) h02 ?_
              rw [hextra, hlen]
            rw [h03, slice_all]
          rw [List.append_assoc, List.append_assoc, ← List.append_assoc (wLE 1 flags),
            hblob]
        · show 4 + 1 + sizeProps props + extra.length = 4 + blob.length
          have hpl : (writeProps props).length = p2 - p1 := by
            rw [hwprops, slice_len hl2 hq2]
          have hel : extra.length = fs := readBytes_length hex
          have := writeProps_length props
          omega

/-- At fuel 0 every reader fails, so the round-trip statements hold vacuously. -/
theorem rtZero : RtTagsP 0 ∧ RtPtypeP 0 ∧ RtValueInnerP 0 ∧ RtValueP 0 ∧
    RtPropP 0 ∧ RtBodyP 0 ∧ RtStreamP 0 ∧ RtFooterP 0 ∧ RtCSP 0 := by
  refine ⟨?_, ?_, ?_, ?_, ?_, ?_, ?_, ?_, ?_⟩
  · intro data pos ts p hB h
    simp [readTags, readers, failR] at h
  · intro data pos t p hB h
    simp [readPropertyType, readers, failR] at h
  · intro data pt flags ds pos v p hB hpos h
    simp [readValueInner, readers, failR] at h
  · intro data pt flags ds pos v p hB hpos h
    simp [readValue, readers, failR] at h
  · intro data pos prop p hB h
    simp [readProperty, readers, failR] at h
  · intro data pos b p hB h
    simp [readPropertyBody, readers, failR] at h
  · intro data endP footer pos props p hB hpos hfoot h
    simp [readStructStream, readers, failR] at h
  · intro data fs pos props p hB hpos hfs h
    simp [readPropsFooter, readers, failR] at h
  · intro blob fs cs hB hfs h
    simp [readCustomStruct, readers, failR] at h

/-- The master round-trip invariant: at every fuel level, every strict read
that succeeds also succeeds laxly with the same result, stays in bounds, and
re-serializes to exactly the bytes it consumed. -/
theorem rtAll : ∀ n, RtTagsP n ∧ RtPtypeP n ∧ RtValueInnerP n ∧ RtValueP n ∧
    RtPropP n ∧ RtBodyP n ∧ RtStreamP n ∧ RtFooterP n ∧ RtCSP n := by
  intro n
  induction n with
  | zero => exact rtZero
  | succ m ih =>
    obtain ⟨hT, hP, hVI, hV, hProp, hB, hS, hF, hC⟩ := ih
    have hT1 := stepTags hT
    have hP1 := stepPtype hP hT1
    have hVI1 := stepValueInner hV hS
    have hV1 := stepValue hVI1
    have hB1 := stepBody hP hV
    have hProp1 := stepProp hB
    have hS1 := stepStream hProp hS hC
    have hF1 := stepFooter hProp hF
    have hC1 := stepCS hF
    exact ⟨hT1, hP1, hVI1, hV1, hProp1, hB1, hS1, hF1, hC1⟩

/-- `SaveGameData` round-trip: a strict parse also parses laxly the same,
consumes the whole stream, and re-serializes to exactly the consumed bytes. -/
theorem readSaveGameData_rt {data : List Nat} {pos fuel : Nat}
    {sgd : SaveGameData} {p : Nat} (hB : Bytes data)
    (h : readSaveGameData true data pos fuel = .ok (sgd, p)) :
    readSaveGameData false data pos fuel = .ok (sgd, p) ∧ pos ≤ p ∧
      p = data.length ∧ writeSaveGameData sgd = slice data pos p := by
  unfold readSaveGameData at h ⊢
  cases hs : readFString true data pos with
  | error e => rw [hs] at h; simp at h
  | ok r1 =>
    obtain ⟨typeName, p1⟩ := r1
    rw [hs] at h
    dsimp only at h
    obtain ⟨hlaxs, hq1, hl1, hws, _⟩ := readFString_ok hB hs
    rw [hlaxs]
    dsimp only
    cases hf : readUInt 1 data p1 with
    | error e => rw [hf] at h; simp at h
    | ok r2 =>
      obtain ⟨flags, p2⟩ := r2
      rw [hf] at h
      dsimp only at h ⊢
      obtain ⟨hq2, hl2, hwf, _⟩ := readUInt_ok hB hf
      cases hpf : readPropsFooter true data 4 p2 fuel with
      | error e => rw [hpf] at h; simp at h
      | ok r3 =>
        obtain ⟨props, p3⟩ := r3
        rw [hpf] at h
        dsimp only at h
        obtain ⟨hlaxpf, hq3, hl3, hwprops, hend⟩ :=
          (rtAll fuel).2.2.2.2.2.2.2.1 data 4 p2 props p3 hB (by omega)
            (by omega) hpf
        rw [hlaxpf]
        dsimp only
        cases hx : readUInt 4 data p3 with
        | error e => rw [hx] at h; simp at h
        | ok r4 =>
          obtain ⟨extra, p4⟩ := r4
          rw [hx] at h
          simp only [Except.ok.injEq, Prod.mk.injEq] at h
          obtain ⟨hsgd, hp⟩ := h
          subst hsgd; subst hp
          obtain ⟨hq4, hl4, hwx, _⟩ := readUInt_ok hB hx
          have hendp : data.length - 4 ≤ p3 := by
            rcases hend with hle | h0
            · exact hle
            · omega
          refine ⟨rfl, by omega, by omega, ?_⟩
          show writeFString typeName ++ wLE 1 flags ++ writeProps props ++
            wLE 4 extra = slice data pos p4
          have h12 : writeFString typeName ++ wLE 1 flags = slice data pos p2 := by
            refine sliceGlue (b := p1) (by omega) (by omega) hws ?_
            rw [hwf, hq2]
          have h123 : writeFString typeName ++ wLE 1 flags ++ writeProps props =
              slice data pos p3 :=
            sliceGlue (b := p2) (by omega) (by omega) h12 hwprops
          refine sliceGlue (b := p3) (by omega) (by omega) h123 ?_
          rw [hwx, hq4]

/-- `SaveGame` round-trip: a strict parse also parses laxly the same, consumes
the whole input, and re-serializing the parsed tree reproduces the input
byte-for-byte. -/
theorem readSaveGame_rt {data : List Nat} {fuel : Nat} {sg : SaveGame} {p : Nat}
    (hB : Bytes data) (h : readSaveGame true data fuel = .ok (sg, p)) :
    readSaveGame false data fuel = .ok (sg, p) ∧ p = data.length ∧
      writeSaveGame sg = data := by
  unfold readSaveGame at h ⊢
  cases hh : readHeader true data 0 with
  | error e => rw [hh] at h; simp at h
  | ok r1 =>
    obtain ⟨hdr, p1⟩ := r1
    rw [hh] at h
    dsimp only at h
    obtain ⟨hlaxh, hq1, hl1, hwh⟩ := readHeader_ok hB hh
    rw [hlaxh]
    dsimp only
    cases hc : readCustomFormatData data p1 with
    | error e => rw [hc] at h; simp at h
    | ok r2 =>
      obtain ⟨cfd, p2⟩ := r2
      rw [hc] at h
      dsimp only at h ⊢
      obtain ⟨hq2, hl2, hwc⟩ := readCustomFormatData_ok hB hc
      cases hd : readSaveGameData true data p2 fuel with
      | error e => rw [hd] at h; simp at h
      | ok r3 =>
        obtain ⟨sgd, p3⟩ := r3
        rw [hd] at h
        simp only [Except.ok.injEq, Prod.mk.injEq] at h
        obtain ⟨hsg, hp⟩ := h
        subst hsg; subst hp
        obtain ⟨hlaxd, hq3, hl3, hwd⟩ := readSaveGameData_rt hB hd
        rw [hlaxd]
        refine ⟨rfl, hl3, ?_⟩
        show writeHeader hdr ++ writeCustomFormatData cfd ++
          writeSaveGameData sgd = data
        have h12 : writeHeader hdr ++ writeCustomFormatData cfd =
            slice data 0 p2 :=
          sliceGlue (b := p1) (by omega) (by omega) hwh hwc
        have h123 : writeHeader hdr ++ writeCustomFormatData cfd ++
            writeSaveGameData sgd = slice data 0 p3 :=
          sliceGlue (b := p2) (by omega) (by omega) h12 hwd
        rw [h123, hl3, slice_all]

/-! ### Helper lemmas for the claim theorems -/

theorem leVal_wLE : ∀ (k n : Nat), leVal (wLE k n) = n % 256 ^ k
  | 0, _ => by simp [wLE, leVal, Nat.mod_one]
  | k + 1, n => by
    show n % 256 + 256 * leVal (wLE k (n / 256)) = n % 256 ^ (k + 1)
    rw [leVal_wLE k (n / 256)]
    rw [pow_succ, Nat.mul_comm (256 ^ k) 256, Nat.mod_mul]

theorem takeUntilZero_of_not_mem :
    ∀ {s : List Nat}, 0 ∉ s → takeUntilZero (s ++ [0]) = some s := by
  intro s
  induction s with
  | nil => intro _; rfl
  | cons b rest ih =>
    intro h
    have hb : b ≠ 0 := fun hb0 => h (by rw [hb0]; exact List.mem_cons_self 0 rest)
    cases b with
    | zero => exact absurd rfl hb
    | succ b2 =>
      show (match takeUntilZero (rest ++ [0]) with
        | some bs => some ((b2 + 1) :: bs)
        | none => none) = some ((b2 + 1) :: rest)
      rw [ih (fun hm => h (List.mem_cons_of_mem _ hm))]

theorem readFString_lax_no_strictCheck {data : List Nat} {pos : Nat} {e : RErr}
    (h : readFString false data pos = .error e) : e ≠ .strictCheck := by
  unfold readFString at h
  cases hu : readUInt 4 data pos with
  | error e2 =>
    rw [hu] at h
    simp only [Except.error.injEq] at h
    subst h
    unfold readUInt at hu
    cases hb : readBytes data pos 4 with
    | error e3 =>
      rw [hb] at hu
      simp only [Except.error.injEq] at hu
      subst hu
      unfold readBytes at hb
      split at hb
      · cases hb
      · simp only [Except.error.injEq] at hb
        rw [← hb]
        simp
    | ok r => rw [hb] at hu; cases hu
  | ok r1 =>
    obtain ⟨size, p1⟩ := r1
    rw [hu] at h
    dsimp only at h
    cases hn : readNull data p1 with
    | error e2 =>
      rw [hn] at h
      simp only [Except.error.injEq] at h
      subst h
      unfold readNull at hn
      cases ht : takeUntilZero (data.drop p1) with
      | some bs => rw [ht] at hn; cases hn
      | none =>
        rw [ht] at hn
        simp only [Except.error.injEq] at hn
        rw [← hn]
        simp
    | ok r2 =>
      obtain ⟨bs, p2⟩ := r2
      rw [hn] at h
      dsimp only at h
      split at h
      · rw [if_neg (by simp)] at h
        cases h
      · simp only [Except.error.injEq] at h
        rw [← h]
        simp

/-! ### The claims -/

/-- C1 (amended): the serialize-after-parse identity `write(parse(B)) = B`
holds for the parses that satisfy the strict well-formedness checks: such a
parse also plain-parses to the same tree, consumes the whole input, and
serializing the tree unchanged reproduces the input verbatim (in particular
`UnknownProperty` blobs, `TextFlags` words and `CustomStruct.extra` are
stored and re-emitted as raw bytes).  The plain parser alone does not satisfy
the identity: see the counterexample. -/
theorem C1_strict_roundtrip {data : List Nat} {fuel : Nat} {sg : SaveGame}
    {p : Nat} (hB : Bytes data)
    (h : readSaveGame true data fuel = .ok (sg, p)) :
    readSaveGame false data fuel = .ok (sg, p) ∧ p = data.length ∧
      writeSaveGame sg = data :=
  readSaveGame_rt hB h

/-- C1 witness: the 83-byte save `c1Good` strict-parses to `c1GoodTree` and
serializes back to exactly its bytes. -/
theorem C1_strict_roundtrip_witness :
    readSaveGame false c1Good 10 = .ok (c1GoodTree, 83) ∧
      83 = c1Good.length ∧ writeSaveGame c1GoodTree = c1Good :=
  @C1_strict_roundtrip c1Good 10 c1GoodTree 83
    (by show ∀ b ∈ c1Good, b < 256; decide) rfl

/-- C1 counterexample: the 92-byte save `c1Bad` parses successfully with the
plain parser (consuming all of it), but serializing the parsed tree writes a
different byte sequence: the `BoolProperty` body advertised `dataSize` 10 on
disk and is re-written with the recomputed `dataSize` 1. -/
theorem C1_counterexample :
    readSaveGame false c1Bad 10 = .ok (c1BadTree, 92) ∧ c1Bad.length = 92 ∧
      writeSaveGame c1BadTree ≠ c1Bad :=
  ⟨rfl, rfl, by decide⟩

/-- C2 (amended): on write, the emitted `dataSize` equals `value.size()` and
that number is exactly the count of bytes the writer produces for the value.
A parsed body's on-disk `dataSize` is only an upper bound checked by the
parser, so the parse-side identity holds for bodies passing the strict
exact-consumption check: re-writing such a body reproduces its on-disk bytes,
`dataSize` word included.  The plain parser alone also accepts bodies whose
stored `dataSize` differs from `value.size()`: see the counterexample. -/
theorem C2_dataSize_exact :
    (∀ b : PropertyBody, writeBody b =
      writePropertyType b.propertyType ++ wLE 4 (writeValue b.value).length ++
        wLE 1 b.flags ++ writeValue b.value) ∧
    (∀ data pos fuel b p, Bytes data →
      readPropertyBody true data pos fuel = .ok (b, p) →
      writeBody b = slice data pos p) := by
  constructor
  · intro b
    cases b with
    | mk t flags v =>
      show writePropertyType t ++ wLE 4 v.size ++ wLE 1 flags ++ writeValue v =
        writePropertyType t ++ wLE 4 (writeValue v).length ++ wLE 1 flags ++
          writeValue v
      rw [writeValue_length v]
  · intro data pos fuel b p hB h
    exact ((rtAll fuel).2.2.2.2.2.1 data pos b p hB h).2.2.2

/-- C2 witness: the concrete body bytes `c2Good` strict-parse to `c2Body`,
whose re-serialization is exactly those 27 bytes; and `writeBody c2Body`
emits `dataSize = (writeValue c2Body.value).length`. -/
theorem C2_dataSize_exact_witness :
    writeBody c2Body = writePropertyType c2Body.propertyType ++
      wLE 4 (writeValue c2Body.value).length ++ wLE 1 c2Body.flags ++
      writeValue c2Body.value ∧
    writeBody c2Body = slice c2Good 0 27 :=
  ⟨C2_dataSize_exact.1 c2Body,
   C2_dataSize_exact.2 c2Good 0 10 c2Body 27
     (by show ∀ b ∈ c2Good, b < 256; decide) rfl⟩

/-- C2 counterexample: the plain parser accepts `c2Bad`, whose on-disk
`dataSize` word holds 10 while the parsed value's `size()` is 1; re-writing
the parsed body produces different bytes than were read. -/
theorem C2_counterexample :
    readPropertyBody false c2Bad 0 10 = .ok (c2Body, 27) ∧
      slice c2Bad 21 25 = wLE 4 10 ∧ c2Body.value.size = 1 ∧
      writeBody c2Body ≠ slice c2Bad 0 27 :=
  ⟨rfl, by decide, rfl, by decide⟩

/-- C3 (amended): the writer encodes the empty in-memory `FString` with size
word 1 and a lone NUL terminator — the five bytes `01 00 00 00 00` (encoded
byte size 5), not a bare zero length word — and those five bytes parse back
to the empty string in both modes, so re-emission is identical.  The four
bytes `00 00 00 00` are not produced and do not parse: see the
counterexample. -/
theorem C3_empty_fstring :
    writeFString [] = [1, 0, 0, 0, 0] ∧
      readFString false [1, 0, 0, 0, 0] 0 = .ok ([], 5) ∧
      readFString true [1, 0, 0, 0, 0] 0 = .ok ([], 5) ∧
      (writeFString []).length = 5 :=
  ⟨rfl, rfl, rfl, rfl⟩

/-- C3 counterexample: the writer never emits `00 00 00 00` for the empty
string, and those four bytes fail to parse: the `NullString` scan for the
terminator runs off the end of the input. -/
theorem C3_counterexample :
    writeFString [] ≠ [0, 0, 0, 0] ∧
      readFString false [0, 0, 0, 0] 0 = .error .eof :=
  ⟨by decide, rfl⟩

/-- C9 (amended): `PropertyType::make_default_value` on a plain
`StructProperty` type with zero flags does construct the singleton stream
holding only the bodyless `"None"` sentinel, but
`PropertyValue::default_for_type` for the name `StructProperty` constructs an
empty property stream with no sentinel at all. -/
theorem C9_struct_default :
    PropertyType.makeDefaultValue (.mk (ascii "StructProperty") [] []) 0 =
      .structProperty [Property.newNone] ∧
    PropertyValue.defaultForType (ascii "StructProperty") =
      .structProperty [] :=
  ⟨rfl, rfl⟩

/-- C9 counterexample: `default_for_type("StructProperty")` is not the
singleton `"None"` stream the claim describes — its stream is empty. -/
theorem C9_counterexample :
    PropertyValue.defaultForType (ascii "StructProperty") ≠
      .structProperty [Property.newNone] := by
  intro h
  rw [show PropertyValue.defaultForType (ascii "StructProperty") =
    .structProperty [] from rfl] at h
  have h2 := congrArg (fun v => match v with
    | PropertyValue.structProperty ps => ps.length
    | _ => 0) h
  dsimp only at h2
  exact absurd h2 (by decide)

/-- C10: a field edit through `Stringable::try_set_from_str` with a string
that fails to parse returns without any error and leaves the field unchanged;
with a string that parses, the field becomes exactly the parsed value. -/
theorem C10_try_set_from_str {α : Type} (prs : String → Option α)
    (s : String) (cur : α) :
    (prs s = none → trySetFromStr prs s cur = cur) ∧
    (∀ v, prs s = some v → trySetFromStr prs s cur = v) := by
  constructor
  · intro h
    unfold trySetFromStr
    rw [h]
  · intro v h
    unfold trySetFromStr
    rw [h]

/-- C10 witness: with the decimal field parser, `"abc"` leaves the value 7
unchanged and `"42"` sets it to 42. -/
theorem C10_try_set_from_str_witness :
    trySetFromStr parseNatStr "abc" 7 = 7 ∧
      trySetFromStr parseNatStr "42" 7 = 42 :=
  ⟨(C10_try_set_from_str parseNatStr "abc" 7).1 rfl,
   (C10_try_set_from_str parseNatStr "42" 7).2 42 rfl⟩

set_option maxRecDepth 4000 in
/-- C4 (amended): in the stream `c4Good`, the `"Class"` child's
`ObjectProperty` string is in the class table (footer size 4) and the
following `"Data"` child — a single-element `ArrayProperty` holding one
`UnknownProperty` — is re-parsed as a nested `CustomStruct` property stream;
re-serializing that parse reproduces the original bytes.  In general, every
property stream that parses under the strict well-formedness checks re-emits
exactly the bytes it consumed; the plain parser can recognize and re-parse
such a `Data` child yet re-serialize different bytes: see the
counterexample. -/
theorem C4_custom_struct_recognition :
    (readStructStream true c4Good 1000 none 0 12 = .ok (c4GoodTree, 147) ∧
      writeProps c4GoodTree = c4Good) ∧
    (∀ data endP pos props p fuel, Bytes data → pos ≤ data.length →
      readStructStream true data endP none pos fuel = .ok (props, p) →
      readStructStream false data endP none pos fuel = .ok (props, p) ∧
        writeProps props = slice data pos p) := by
  refine ⟨⟨rfl, by decide⟩, ?_⟩
  intro data endP pos props p fuel hB hpos h
  obtain ⟨hlax, _, _, hw⟩ := (rtAll fuel).2.2.2.2.2.2.1 data endP none pos
    props p hB hpos (fun fs hfs => by cases hfs) h
  exact ⟨hlax, hw⟩

set_option maxRecDepth 4000 in
/-- C4 witness: the general strict re-emission law applied to the concrete
recognized stream `c4Good`. -/
theorem C4_custom_struct_recognition_witness :
    readStructStream false c4Good 1000 none 0 12 = .ok (c4GoodTree, 147) ∧
      writeProps c4GoodTree = slice c4Good 0 147 :=
  C4_custom_struct_recognition.2 c4Good 1000 0 c4GoodTree 147 12
    (by show ∀ b ∈ c4Good, b < 256; decide) (by decide) rfl

set_option maxRecDepth 4000 in
/-- C4 counterexample: in `c4Bad` the recognition premises hold and the plain
parser re-parses the `"Data"` payload into a nested `CustomStruct`, but the
blob hides a nested body with an inconsistent `dataSize`, so re-serialization
does not reproduce the original bytes. -/
theorem C4_counterexample :
    readStructStream false c4Bad 1000 none 0 12 = .ok (c4BadTree, 180) ∧
      writeProps c4BadTree ≠ c4Bad :=
  ⟨rfl, by decide⟩

/-- C8: a successful `PropertyValue` read never ends past
`start + dataSize`; an inner case that consumed more than the `dataSize`
bound makes the read fail with the fatal `OverflowingValue` panic instead of
returning a value. -/
theorem C8_value_bounded :
    (∀ strict data pt flags ds pos fuel v p,
      readValue strict data pt flags ds pos fuel = .ok (v, p) →
        p ≤ pos + ds) ∧
    (∀ strict data pt flags ds pos fuel v p,
      readValueInner strict data pt flags ds pos fuel = .ok (v, p) →
      pos + ds < p →
      readValue strict data pt flags ds pos fuel = .error .overflowingValue) := by
  constructor
  · intro strict data pt flags ds pos fuel v p h
    cases fuel with
    | zero => simp [readValue, readers, failR] at h
    | succ n =>
      have hun : readValue strict data pt flags ds pos (n + 1) =
          readValueCheckF (readValueInnerF (readers n)) strict data pt flags
            ds pos := rfl
      rw [hun] at h
      unfold readValueCheckF at h
      cases hi : readValueInnerF (readers n) strict data pt flags ds pos with
      | error e => rw [hi] at h; simp at h
      | ok r =>
        obtain ⟨v1, p1⟩ := r
        rw [hi] at h
        dsimp only at h
        split at h
        · simp at h
        · rename_i hb
          simp only [Except.ok.injEq, Prod.mk.injEq] at h
          obtain ⟨_, hp⟩ := h
          omega
  · intro strict data pt flags ds pos fuel v p h hover
    cases fuel with
    | zero => simp [readValueInner, readers, failR] at h
    | succ n =>
      have hun : readValue strict data pt flags ds pos (n + 1) =
          readValueCheckF (readValueInnerF (readers n)) strict data pt flags
            ds pos := rfl
      rw [hun]
      unfold readValueCheckF
      rw [show readValueInnerF (readers n) strict data pt flags ds pos =
        readValueInner strict data pt flags ds pos (n + 1) from rfl, h]
      dsimp only
      rw [if_pos hover]

/-- C8 witness: a flags-0 `StructProperty` whose stream holds one 9-byte
`"None"` sentinel: with `dataSize = 1` the inner case ends at 9 > 1 and the
read fails with `OverflowingValue`; with `dataSize = 9` it succeeds, ending
within the bound. -/
theorem C8_value_bounded_witness :
    readValue false c8Data c8PT 0 1 0 5 = .error .overflowingValue ∧
      (9 : Nat) ≤ 0 + 9 :=
  ⟨C8_value_bounded.2 false c8Data c8PT 0 1 0 5
      (.structProperty [Property.newNone]) 9 rfl (by omega),
   C8_value_bounded.1 false c8Data c8PT 0 9 0 5
      (.structProperty [Property.newNone]) 9 rfl⟩

/-- C7: parsing the emission of any string whose byte list is unchanged by
the lossy UTF-8 conversion (i.e. any actual Rust string) and holds no
interior NUL returns exactly that string; in particular the spec's example
bytes parse to `"Hello World!"` and re-emit identically. -/
theorem C7_fstring_parse_emit :
    (∀ s : List Nat, utf8Lossy s = s → 0 ∉ s →
      readFString false (writeFString s) 0 = .ok (s, s.length + 5) ∧
      readFString true (writeFString s) 0 = .ok (s, s.length + 5)) ∧
    readFString false hwBytes 0 = .ok (ascii "Hello World!", 17) ∧
    readFString true hwBytes 0 = .ok (ascii "Hello World!", 17) ∧
    writeFString (ascii "Hello World!") = hwBytes := by
  refine ⟨?_, rfl, rfl, rfl⟩
  intro s hu hnz
  have hassoc : writeFString s = wLE 4 (s.length + 1) ++ (s ++ [0]) := by
    unfold writeFString
    rw [List.append_assoc]
  have hlen4 : (wLE 4 (s.length + 1)).length = 4 := wLE_length 4 _
  have hdlen : (writeFString s).length = s.length + 5 := by
    rw [hassoc, List.length_append, List.length_append, hlen4]
    simp only [List.length_singleton]
    omega
  have htake : slice (writeFString s) 0 4 = wLE 4 (s.length + 1) := by
    unfold slice
    rw [List.drop_zero, hassoc, Nat.sub_zero, List.take_left' hlen4]
  have hrb : readBytes (writeFString s) 0 4 = .ok (wLE 4 (s.length + 1), 4) := by
    unfold readBytes
    rw [if_pos (by rw [hdlen]; omega)]
    rw [show (0 : Nat) + 4 = 4 from rfl, htake]
  have hru : readUInt 4 (writeFString s) 0 =
      .ok ((s.length + 1) % 4294967296, 4) := by
    unfold readUInt
    rw [hrb]
    dsimp only
    rw [leVal_wLE]
    norm_num
  have hdrop : (writeFString s).drop 4 = s ++ [0] := by
    rw [hassoc, List.drop_left' hlen4]
  have hrn : readNull (writeFString s) 4 = .ok (s, s.length + 5) := by
    unfold readNull
    rw [hdrop, takeUntilZero_of_not_mem hnz]
    dsimp only
    rw [show 4 + s.length + 1 = s.length + 5 from by omega]
  have harith : (s.length % 4294967296 =
      ((s.length + 1) % 4294967296 + 4294967295) % 4294967296) := by
    rw [Nat.mod_add_mod]
    rw [show s.length + 1 + 4294967295 = s.length + 4294967296 from by omega]
    rw [Nat.add_mod_right]
  have hcore : ∀ st : Bool,
      readFString st (writeFString s) 0 = .ok (s, s.length + 5) := by
    intro st
    unfold readFString
    rw [hru]
    dsimp only
    rw [hrn]
    dsimp only
    rw [hu]
    rw [if_pos harith]
    rw [if_neg (by simp)]
  exact ⟨hcore false, hcore true⟩

/-- C7 witness: the general parse-after-emit law applied at
`"Hello World!"`. -/
theorem C7_fstring_parse_emit_witness :
    readFString false (writeFString (ascii "Hello World!")) 0 =
      .ok (ascii "Hello World!", (ascii "Hello World!").length + 5) ∧
    readFString true (writeFString (ascii "Hello World!")) 0 =
      .ok (ascii "Hello World!", (ascii "Hello World!").length + 5) :=
  C7_fstring_parse_emit.1 (ascii "Hello World!") (by decide) (by decide)

/-- C5 (amended): the parser's `StructProperty` dispatch on the body flags:
with nonzero flags, a `GameplayTagContainer` description reads a
count-prefixed `FString` list presented as an `ArrayProperty` of
`NameProperty`; a description starting `StructProperty</Script/CoreUObject.`
reads the fixed layout named by the first tag when `try_read_uobject` knows
that name, and otherwise falls back to `dataSize` raw bytes as an
`UnknownProperty` (this fallback limb is what the claim omits — see the
counterexample); any other description reads `dataSize` raw bytes as an
`UnknownProperty`.  With zero flags it reads the nested property stream. -/
theorem C5_struct_dispatch (data : List Nat) (pt : PropertyType)
    (flags ds pos fuel : Nat) (hname : pt.name = ascii "StructProperty") :
    (flags ≠ 0 →
      (pt.describe = gameplayTagContainerType →
        readValueInner false data pt flags ds pos (fuel + 1) =
          match readUInt 4 data pos with
          | .error e => .error e
          | .ok (count, p1) =>
            match readFStringsCount false data count p1 with
            | .error e => .error e
            | .ok (ss, p2) =>
              .ok (.arrayProperty (ss.map PropertyValue.nameProperty), p2)) ∧
      (pt.describe ≠ gameplayTagContainerType →
        coreUObjectTypeHead.isPrefixOf pt.describe = true →
        ∀ tg, pt.tags.head? = some tg →
        (∀ obj p1, tryReadUObject tg.value data pos = .ok (some obj, p1) →
          readValueInner false data pt flags ds pos (fuel + 1) =
            .ok (.coreUObjectStructProperty obj, p1)) ∧
        (∀ p1, tryReadUObject tg.value data pos = .ok (none, p1) →
          readValueInner false data pt flags ds pos (fuel + 1) =
            match readBytes data pos ds with
            | .error e => .error e
            | .ok (buf, p2) => .ok (.unknownProperty buf, p2))) ∧
      (pt.describe ≠ gameplayTagContainerType →
        coreUObjectTypeHead.isPrefixOf pt.describe = false →
        readValueInner false data pt flags ds pos (fuel + 1) =
          match readBytes data pos ds with
          | .error e => .error e
          | .ok (buf, p2) => .ok (.unknownProperty buf, p2))) ∧
    (flags = 0 →
      readValueInner false data pt flags ds pos (fuel + 1) =
        match readStructStream false data (pos + ds) none pos fuel with
        | .error e => .error e
        | .ok (props, p1) => .ok (.structProperty props, p1)) := by
  have hun : readValueInner false data pt flags ds pos (fuel + 1) =
      readValueInnerF (readers fuel) false data pt flags ds pos := rfl
  constructor
  · intro hf
    refine ⟨?_, ?_, ?_⟩
    · intro hd
      rw [hun]
      unfold readValueInnerF
      rw [hname]
      rw [if_neg (by decide), if_neg (by decide), if_neg (by decide),
        if_neg (by decide), if_neg (by decide), if_neg (by decide),
        if_neg (by decide), if_neg (by decide), if_neg (by decide),
        if_neg (by decide), if_pos rfl]
      rw [if_pos hf, if_pos hd]
    · intro hd hpre tg htg
      constructor
      · intro obj p1 hobj
        rw [hun]
        unfold readValueInnerF
        rw [hname]
        rw [if_neg (by decide), if_neg (by decide), if_neg (by decide),
          if_neg (by decide), if_neg (by decide), if_neg (by decide),
          if_neg (by decide), if_neg (by decide), if_neg (by decide),
          if_neg (by decide), if_pos rfl]
        rw [if_pos hf, if_neg hd, if_pos hpre, htg]
        dsimp only
        rw [hobj]
      · intro p1 hnone
        rw [hun]
        unfold readValueInnerF
        rw [hname]
        rw [if_neg (by decide), if_neg (by decide), if_neg (by decide),
          if_neg (by decide), if_neg (by decide), if_neg (by decide),
          if_neg (by decide), if_neg (by decide), if_neg (by decide),
          if_neg (by decide), if_pos rfl]
        rw [if_pos hf, if_neg hd, if_pos hpre, htg]
        dsimp only
        rw [hnone]
    · intro hd hpre0
      rw [hun]
      unfold readValueInnerF
      rw [hname]
      rw [if_neg (by decide), if_neg (by decide), if_neg (by decide),
        if_neg (by decide), if_neg (by decide), if_neg (by decide),
        if_neg (by decide), if_neg (by decide), if_neg (by decide),
        if_neg (by decide), if_pos rfl]
      rw [if_pos hf, if_neg hd, if_neg (by simp [hpre0])]
  · intro hf0
    rw [hun]
    unfold readValueInnerF
    rw [hname]
    rw [if_neg (by decide), if_neg (by decide), if_neg (by decide),
      if_neg (by decide), if_neg (by decide), if_neg (by decide),
      if_neg (by decide), if_neg (by decide), if_neg (by decide),
      if_neg (by decide), if_pos rfl]
    rw [if_neg (fun hne => hne hf0)]
    rfl

/-- C5 witness: the dispatch applied to a CoreUObject `DateTime` struct: the
fixed 8-byte layout named by the first tag is read. -/
theorem C5_struct_dispatch_witness :
    readValueInner false [1, 0, 0, 0, 0, 0, 0, 0] c5GoodPT 1 8 0 5 =
      .ok (.coreUObjectStructProperty (.dateTime 1), 8) :=
  (((C5_struct_dispatch [1, 0, 0, 0, 0, 0, 0, 0] c5GoodPT 1 8 0 4 rfl).1
      (by decide)).2.1 (by decide) (by decide) ⟨1, ascii "DateTime"⟩ rfl).1
    (.dateTime 1) 8 rfl

/-- C5 counterexample: a `StructProperty` whose description starts
`StructProperty</Script/CoreUObject.` but whose first tag (`Foo`) names no
fixed layout does not yield that layout: the parser falls back to reading
`dataSize` raw bytes into an `UnknownProperty`. -/
theorem C5_counterexample :
    c5PT.name = ascii "StructProperty" ∧
      coreUObjectTypeHead.isPrefixOf c5PT.describe = true ∧
      readValueInner false [9, 9, 9] c5PT 1 3 0 5 =
        .ok (.unknownProperty [9, 9, 9], 3) :=
  ⟨rfl, by decide, rfl⟩

/-- C6: the parser's `ByteProperty` dispatch: `dataSize = 1` reads a single
byte; any other `dataSize` with a non-empty tag list attempts an `FString`
parse, reinterpreted as an `EnumProperty` on success, while on failure the
position is rewound to the value's start and `dataSize` raw bytes are read
into an `UnknownProperty`; with an empty tag list the raw-bytes fallback is
taken directly. -/
theorem C6_byteproperty_dispatch (data : List Nat) (tags : List TypeTag)
    (it : List PropertyType) (flags ds pos fuel : Nat) :
    (ds = 1 →
      readValueInner false data (.mk (ascii "ByteProperty") tags it) flags ds
          pos (fuel + 1) =
        match readUInt 1 data pos with
        | .error e => .error e
        | .ok (b, p1) => .ok (.byteProperty b, p1)) ∧
    (ds ≠ 1 → tags ≠ [] →
      (∀ s p1, readFString false data pos = .ok (s, p1) →
        readValueInner false data (.mk (ascii "ByteProperty") tags it) flags
            ds pos (fuel + 1) = .ok (.enumProperty s, p1)) ∧
      (∀ e, readFString false data pos = .error e →
        readValueInner false data (.mk (ascii "ByteProperty") tags it) flags
            ds pos (fuel + 1) =
          match readBytes data pos ds with
          | .error e2 => .error e2
          | .ok (buf, p1) => .ok (.unknownProperty buf, p1))) ∧
    (ds ≠ 1 → tags = [] →
      readValueInner false data (.mk (ascii "ByteProperty") tags it) flags ds
          pos (fuel + 1) =
        match readBytes data pos ds with
        | .error e => .error e
        | .ok (buf, p1) => .ok (.unknownProperty buf, p1)) := by
  have hun : readValueInner false data (.mk (ascii "ByteProperty") tags it)
      flags ds pos (fuel + 1) =
      readValueInnerF (readers fuel) false data
        (.mk (ascii "ByteProperty") tags it) flags ds pos := rfl
  refine ⟨?_, ?_, ?_⟩
  · intro h1
    subst h1
    rw [hun]
    unfold readValueInnerF
    rw [show (PropertyType.mk (ascii "ByteProperty") tags it).name =
      ascii "ByteProperty" from rfl]
    rw [if_neg (by decide), if_neg (by decide), if_pos rfl, if_pos rfl]
  · intro h1 h2
    have hne : tags.isEmpty = false := by
      cases tags with
      | nil => exact absurd rfl h2
      | cons a l => rfl
    constructor
    · intro s p1 hs
      rw [hun]
      unfold readValueInnerF
      rw [show (PropertyType.mk (ascii "ByteProperty") tags it).name =
        ascii "ByteProperty" from rfl]
      rw [if_neg (by decide), if_neg (by decide), if_pos rfl]
      rw [if_neg h1]
      rw [show PropertyType.tags (.mk (ascii "ByteProperty") tags it) = tags
        from rfl, hne]
      rw [if_pos rfl]
      rw [hs]
    · intro e he
      rw [hun]
      unfold readValueInnerF
      rw [show (PropertyType.mk (ascii "ByteProperty") tags it).name =
        ascii "ByteProperty" from rfl]
      rw [if_neg (by decide), if_neg (by decide), if_pos rfl]
      rw [if_neg h1]
      rw [show PropertyType.tags (.mk (ascii "ByteProperty") tags it) = tags
        from rfl, hne]
      rw [if_pos rfl]
      rw [he]
      dsimp only
      rw [if_neg (readFString_lax_no_strictCheck he)]
  · intro h1 h3
    subst h3
    rw [hun]
    unfold readValueInnerF
    rw [show (PropertyType.mk (ascii "ByteProperty") [] it).name =
      ascii "ByteProperty" from rfl]
    rw [if_neg (by decide), if_neg (by decide), if_pos rfl]
    rw [if_neg h1]
    rw [show PropertyType.tags (.mk (ascii "ByteProperty") [] it) = []
      from rfl]
    rw [if_neg (by decide)]

/-- C6 witness: with `dataSize` 6 and a tag present, the bytes of an
`FString` `"X"` parse and are reinterpreted as an `EnumProperty`; with
`dataSize` 1 a single byte is read. -/
theorem C6_byteproperty_dispatch_witness :
    readValueInner false [2, 0, 0, 0, 88, 0]
        (.mk (ascii "ByteProperty") [⟨1, ascii "X"⟩] []) 0 6 0 5 =
      .ok (.enumProperty (ascii "X"), 6) ∧
    readValueInner false [7] (.mk (ascii "ByteProperty") [] []) 0 1 0 5 =
      .ok (.byteProperty 7, 1) := by
  constructor
  · exact ((C6_byteproperty_dispatch [2, 0, 0, 0, 88, 0] [⟨1, ascii "X"⟩] []
      0 6 0 4).2.1 (by decide) (List.cons_ne_nil _ _)).1 (ascii "X") 6 rfl
  · rw [(C6_byteproperty_dispatch [7] [] [] 0 1 0 4).1 rfl]
    rfl

end ShfSave

